import Mathlib

/-!
# Kropki Sudoku solver (`Project2Fix.cpp`): embedding and verified properties

The C++ program keeps three process-wide arrays: `board` (9x9 cells, each an
`int value` and a `vector<int> d` of candidates), `hConstraints` (9x8 edge
labels) and `vConstraints` (8x9 edge labels).  The labels are written once by
`main` and only read afterwards, so they are a parameter (`Constraints`); the
board is the state that the functions read and write, so it is passed and
returned explicitly.

C++ `int` is modelled by `Int`.  The program compares values, subtracts them and
doubles them; signed overflow is undefined in C++, so the embedding describes
the executions without it, among them all executions on values in 0..9.  Array
indices are natural numbers; the program only ever indexes with `0..8`.

The recursion of `backtracking_search` is bounded here by a `fuel` argument: a
run that returns is a value `some (result, board)`, for every fuel that is
large enough for it.
-/

namespace Kropki

/-- Side length of the puzzle, the constant `SIZE` of the program. -/
def SIZE : Nat := 9

/-- A Sudoku cell, `struct Cell`: its value (0 = unassigned) and its domain `d`. -/
structure Cell where
  value : Int
  d : List Int
deriving DecidableEq

/-- The global `board[SIZE][SIZE]`, read at row and column indices. -/
abbrev Board := Nat → Nat → Cell

/-- The two immutable label arrays `hConstraints[SIZE][SIZE-1]` and
`vConstraints[SIZE-1][SIZE]`. -/
structure Constraints where
  hConstraints : Nat → Nat → Int
  vConstraints : Nat → Nat → Int

/-- Write `board[r][c].value = v`. -/
def setValue (board : Board) (r c : Nat) (v : Int) : Board :=
  fun i j => if i = r ∧ j = c then { board i j with value := v } else board i j

/-- Replace the vector `board[r][c].d`. -/
def setDomain (board : Board) (r c : Nat) (d : List Int) : Board :=
  fun i j => if i = r ∧ j = c then { board i j with d := d } else board i j

/-- The test made on an assigned neighbour `n` of the cell that is to receive `val`,
across an edge carrying `label`: the two `if ... return false` lines that
`validate` repeats for each of the four directions (with `n != 0` already known). -/
def edgeFails (label n val : Int) : Bool :=
  (label == 1 && decide (|n - val| ≠ 1)) ||
    (label == 2 && (decide (n ≠ 2 * val) && decide (val ≠ 2 * n)))

/-- The function `validate(row, col, val)`: the box scan, the row/column scan and the
four neighbour tests, each returning `false` as soon as it fails. -/
def validate (k : Constraints) (board : Board) (row col : Nat) (val : Int) : Bool :=
  let startRow := row - row % 3
  let startCol := col - col % 3
  if (List.range 3).any (fun i => (List.range 3).any (fun j =>
      (board (startRow + i) (startCol + j)).value == val)) then false
  else if (List.range 9).any (fun i =>
      (board row i).value == val || (board i col).value == val) then false
  else if decide (row > 0) && (decide ((board (row - 1) col).value ≠ 0) &&
      edgeFails (k.vConstraints (row - 1) col) (board (row - 1) col).value val) then false
  else if decide (row < SIZE - 1) && (decide ((board (row + 1) col).value ≠ 0) &&
      edgeFails (k.vConstraints row col) (board (row + 1) col).value val) then false
  else if decide (col > 0) && (decide ((board row (col - 1)).value ≠ 0) &&
      edgeFails (k.hConstraints row (col - 1)) (board row (col - 1)).value val) then false
  else if decide (col < SIZE - 1) && (decide ((board row (col + 1)).value ≠ 0) &&
      edgeFails (k.hConstraints row col) (board row (col + 1)).value val) then false
  else true

/-- Number of `degree++` executed for one edge label: the two lines
`if (label == 1) degree++; if (label == 2) degree++;`. -/
def labelDegree (label : Int) : Int :=
  (if label = 1 then 1 else 0) + (if label = 2 then 1 else 0)

/-- The degree that `find_next` computes for the cell `(row, col)`. -/
def degree (k : Constraints) (board : Board) (row col : Nat) : Int :=
  let box_row := row - row % 3
  let box_col := col - col % 3
  let d1 : Int := (List.range 3).foldl (fun acc i => (List.range 3).foldl (fun acc j =>
      if box_row + i ≠ row ∧ box_col + j ≠ col ∧ (board (box_row + i) (box_col + j)).value = 0
      then acc + 1 else acc) acc) 0
  let d2 : Int := (List.range SIZE).foldl (fun acc i =>
      let acc1 := if i ≠ col ∧ (board row i).value = 0 then acc + 1 else acc
      if i ≠ row ∧ (board i col).value = 0 then acc1 + 1 else acc1) d1
  let d3 := if row > 0 then d2 + labelDegree (k.vConstraints (row - 1) col) else d2
  let d4 := if row < SIZE - 1 then d3 + labelDegree (k.vConstraints row col) else d3
  let d5 := if col > 0 then d4 + labelDegree (k.hConstraints row (col - 1)) else d4
  if col < SIZE - 1 then d5 + labelDegree (k.hConstraints row col) else d5

/-- The three locals of `find_next`: `min_remaining`, `max_degree`, `selected`
(`none` stands for the pair `{-1, -1}`). -/
structure Pick where
  min_remaining : Int
  max_degree : Int
  selected : Option (Nat × Nat)
deriving DecidableEq

/-- Body of the double loop of `find_next` at the cell `(row, col)`. -/
def pickStep (k : Constraints) (board : Board) (p : Pick) (rc : Nat × Nat) : Pick :=
  if (board rc.1 rc.2).value = 0 then
    let remaining : Int := ((board rc.1 rc.2).d.length : Int)
    let deg := degree k board rc.1 rc.2
    if remaining < p.min_remaining ∨ (remaining = p.min_remaining ∧ deg > p.max_degree) then
      { min_remaining := remaining, max_degree := deg, selected := some rc }
    else p
  else p

/-- All cells in the order of the loops `for row ... for col ...`. -/
def allCells : List (Nat × Nat) :=
  (List.range SIZE).flatMap (fun row => (List.range SIZE).map (fun col => (row, col)))

/-- The function `find_next()`; `none` is the returned pair `{-1, -1}`. -/
def find_next (k : Constraints) (board : Board) : Option (Nat × Nat) :=
  (allCells.foldl (pickStep k board)
    { min_remaining := 10, max_degree := -1, selected := none }).selected

/-- The statement `domain.erase(remove(domain.begin(), domain.end(), val), domain.end())`
applied to `board[r][c].d`: every occurrence of `val` is dropped, the rest keeps its order. -/
def eraseVal (board : Board) (r c : Nat) (val : Int) : Board :=
  setDomain board r c ((board r c).d.filter (fun x => x != val))

/-- Cells visited by the first loop of `forward_check`, in order: for each `i`,
`(row, i)` when `i != col`, then `(i, col)` when `i != row`. -/
def lineCells (row col : Nat) : List (Nat × Nat) :=
  (List.range SIZE).flatMap (fun i =>
    (if i ≠ col then [(row, i)] else []) ++ (if i ≠ row then [(i, col)] else []))

/-- Cells visited by the box loop of `forward_check` (and of the neighbour collection in
`backtracking_search`): the cells of the 3x3 box that differ from `(row, col)` in both
row and column. -/
def boxCells (row col : Nat) : List (Nat × Nat) :=
  let box_row := row - row % 3
  let box_col := col - col % 3
  (List.range 3).flatMap (fun i => (List.range 3).flatMap (fun j =>
    if box_row + i ≠ row ∧ box_col + j ≠ col then [(box_row + i, box_col + j)] else []))

/-- The loops of `forward_check` run over the cells `cells`: an unassigned cell loses `val`
from its domain, and the function returns `false` at once when that domain is empty. The
board is returned as the function leaves it. -/
def pruneCells (val : Int) : List (Nat × Nat) → Board → Bool × Board
  | [], board => (true, board)
  | rc :: rest, board =>
    if (board rc.1 rc.2).value = 0 then
      let board1 := eraseVal board rc.1 rc.2 val
      if (board1 rc.1 rc.2).d.isEmpty then (false, board1)
      else pruneCells val rest board1
    else pruneCells val rest board

/-- The function `forward_check(row, col, val)`: its result and the board it leaves. -/
def forward_check (board : Board) (row col : Nat) (val : Int) : Bool × Board :=
  pruneCells val (lineCells row col ++ boxCells row col) board

/-- Cells visited by the second neighbour loop of `backtracking_search`, in order: for
each `i`, `(i, col)` when `i != row`, then `(row, i)` when `i != col`. -/
def crossCells (row col : Nat) : List (Nat × Nat) :=
  (List.range SIZE).flatMap (fun i =>
    (if i ≠ row then [(i, col)] else []) ++ (if i ≠ col then [(row, i)] else []))

/-- The vector `neighbors` that `backtracking_search` fills after a successful
`forward_check`: the unassigned cells of the box (off the row and the column), then the
unassigned cells of the column and the row. -/
def collectNeighbors (board : Board) (row col : Nat) : List (Nat × Nat) :=
  (boxCells row col ++ crossCells row col).filter (fun rc => (board rc.1 rc.2).value = 0)

/-- The undo loop `for (cell : neighbors) board[cell].d.push_back(val)`. -/
def pushBack (val : Int) (neighbors : List (Nat × Nat)) (board : Board) : Board :=
  neighbors.foldl (fun b rc => setDomain b rc.1 rc.2 ((b rc.1 rc.2).d ++ [val])) board

/-- The `for (int val : board[row][col].d)` loop of `backtracking_search` over the
values `vals` still to be visited; `search` is the recursive call. `none` means that the
recursive call did not return. -/
def tryValues (k : Constraints) (search : Board → Option (Bool × Board)) (row col : Nat) :
    List Int → Board → Option (Bool × Board)
  | [], board => some (false, board)
  | val :: rest, board =>
    if validate k board row col val then
      let fc := forward_check board row col val
      if fc.1 then
        let board1 := setValue fc.2 row col val
        let neighbors := collectNeighbors board1 row col
        match search board1 with
        | none => none
        | some (true, board2) => some (true, board2)
        | some (false, board2) =>
          tryValues k search row col rest (pushBack val neighbors (setValue board2 row col 0))
      else
        tryValues k search row col rest (setValue fc.2 row col 0)
    else tryValues k search row col rest board

/-- The function `backtracking_search()`. The recursion of the program is unbounded in its
text; here `fuel` bounds the depth of nested calls, and `none` is returned when it runs
out. The range-for loop reads the domain of the selected cell, which is the list
`(board row col).d` at the start of the loop. -/
def backtracking_search (k : Constraints) : Nat → Board → Option (Bool × Board)
  | 0, _ => none
  | fuel + 1, board =>
    match find_next k board with
    | none => some (true, board)
    | some coord =>
      tryValues k (backtracking_search k fuel) coord.1 coord.2 (board coord.1 coord.2).d board

/-- The board that `main` builds from the grid of givens `g`: a blank keeps the default
cell (value 0, domain 1..9), a given gets its value and the one-element domain. -/
def mainBoard (g : Nat → Nat → Int) : Board :=
  fun i j => if g i j ≠ 0 then { value := g i j, d := [g i j] }
    else { value := 0, d := [1, 2, 3, 4, 5, 6, 7, 8, 9] }


/-! ## Specifications the claims compare the code with -/

/-- The relation that an edge label imposes between the value `n` of an assigned
neighbour and the value `val`: label 1 asks `|n - val| = 1`, label 2 asks that one be the
double of the other, any other label asks nothing. -/
def edgeOK (label n val : Int) : Prop :=
  (label = 1 → |n - val| = 1) ∧ (label = 2 → (n = 2 * val ∨ val = 2 * n))

/-- The specification of `validate` in the words of the design: (1) no cell of the 3x3
box of `(row, col)` holds `val`; (2) no cell of the row and none of the column holds
`val`; (3) every in-grid orthogonal neighbour with a nonzero value satisfies the relation
of the label on the edge toward it. -/
def validateSpec (k : Constraints) (board : Board) (row col : Nat) (val : Int) : Prop :=
  (∀ r c, r < 9 → c < 9 → r / 3 = row / 3 → c / 3 = col / 3 → (board r c).value ≠ val) ∧
  (∀ i, i < 9 → (board row i).value ≠ val ∧ (board i col).value ≠ val) ∧
  (0 < row → (board (row - 1) col).value ≠ 0 →
    edgeOK (k.vConstraints (row - 1) col) (board (row - 1) col).value val) ∧
  (row < 8 → (board (row + 1) col).value ≠ 0 →
    edgeOK (k.vConstraints row col) (board (row + 1) col).value val) ∧
  (0 < col → (board row (col - 1)).value ≠ 0 →
    edgeOK (k.hConstraints row (col - 1)) (board row (col - 1)).value val) ∧
  (col < 8 → (board row (col + 1)).value ≠ 0 →
    edgeOK (k.hConstraints row col) (board row (col + 1)).value val)

/-! ## Concrete boards

Concrete boards and label arrays are written as tables (lists of rows). -/

/-- The default-constructed `Cell`: value 0 and domain 1..9. -/
def blankCell : Cell := { value := 0, d := [1, 2, 3, 4, 5, 6, 7, 8, 9] }

/-- Read a table of integers as an array; positions outside the table read 0. -/
def gridOf (l : List (List Int)) : Nat → Nat → Int :=
  fun i j => (l.getD i []).getD j 0

/-- A board given as a table of cells; positions outside the table read as the default
cell (the program never reads them). -/
def boardOf (t : List (List Cell)) : Board :=
  fun i j => (t.getD i []).getD j blankCell

/-- The cell that `main` stores for the input number `x`. -/
def inputCell (x : Int) : Cell :=
  if x ≠ 0 then { value := x, d := [x] } else blankCell

/-- The table of cells that `main` builds from a table of input numbers. -/
def cellsOf (l : List (List Int)) : List (List Cell) :=
  l.map (fun row => row.map inputCell)

/-- Label arrays that are 0 everywhere. -/
def noLabels : Constraints :=
  { hConstraints := fun _ _ => 0, vConstraints := fun _ _ => 0 }

/-- A complete valid Sudoku grid. -/
def solvedGrid : List (List Int) :=
  [[1, 2, 3, 4, 5, 6, 7, 8, 9],
   [4, 5, 6, 7, 8, 9, 1, 2, 3],
   [7, 8, 9, 1, 2, 3, 4, 5, 6],
   [2, 3, 4, 5, 6, 7, 8, 9, 1],
   [5, 6, 7, 8, 9, 1, 2, 3, 4],
   [8, 9, 1, 2, 3, 4, 5, 6, 7],
   [3, 4, 5, 6, 7, 8, 9, 1, 2],
   [6, 7, 8, 9, 1, 2, 3, 4, 5],
   [9, 1, 2, 3, 4, 5, 6, 7, 8]]

/-- The grid `solvedGrid` with the cells (0,0), (0,1) and (4,4) blanked. -/
def threeBlanksGrid : List (List Int) :=
  [[0, 0, 3, 4, 5, 6, 7, 8, 9],
   [4, 5, 6, 7, 8, 9, 1, 2, 3],
   [7, 8, 9, 1, 2, 3, 4, 5, 6],
   [2, 3, 4, 5, 6, 7, 8, 9, 1],
   [5, 6, 7, 8, 0, 1, 2, 3, 4],
   [8, 9, 1, 2, 3, 4, 5, 6, 7],
   [3, 4, 5, 6, 7, 8, 9, 1, 2],
   [6, 7, 8, 9, 1, 2, 3, 4, 5],
   [9, 1, 2, 3, 4, 5, 6, 7, 8]]

/-- A board state whose only unassigned cell, (0,0), has 11 candidates: `solvedGrid`
with the value of (0,0) reset to 0 and an 11-element domain there. -/
def longDomainBoard : Board :=
  setDomain (setValue (boardOf (cellsOf solvedGrid)) 0 0 0) 0 0
    [1, 2, 3, 4, 5, 6, 7, 8, 9, 1, 2]

/-- The grid `solvedGrid` with a second 1 given in row 0, at (0,1). -/
def twoOnesGrid : List (List Int) :=
  [[1, 1, 3, 4, 5, 6, 7, 8, 9],
   [4, 5, 6, 7, 8, 9, 1, 2, 3],
   [7, 8, 9, 1, 2, 3, 4, 5, 6],
   [2, 3, 4, 5, 6, 7, 8, 9, 1],
   [5, 6, 7, 8, 9, 1, 2, 3, 4],
   [8, 9, 1, 2, 3, 4, 5, 6, 7],
   [3, 4, 5, 6, 7, 8, 9, 1, 2],
   [6, 7, 8, 9, 1, 2, 3, 4, 5],
   [9, 1, 2, 3, 4, 5, 6, 7, 8]]

/-- The grid `solvedGrid` with 9 given at (0,0), as at (0,8), and (4,4) blank. -/
def twoNinesGrid : List (List Int) :=
  [[9, 2, 3, 4, 5, 6, 7, 8, 9],
   [4, 5, 6, 7, 8, 9, 1, 2, 3],
   [7, 8, 9, 1, 2, 3, 4, 5, 6],
   [2, 3, 4, 5, 6, 7, 8, 9, 1],
   [5, 6, 7, 8, 0, 1, 2, 3, 4],
   [8, 9, 1, 2, 3, 4, 5, 6, 7],
   [3, 4, 5, 6, 7, 8, 9, 1, 2],
   [6, 7, 8, 9, 1, 2, 3, 4, 5],
   [9, 1, 2, 3, 4, 5, 6, 7, 8]]

/-- The board on which the search started from `threeBlanksGrid` ends. -/
def threeBlanksFinal : List (List Cell) :=
  [[⟨1, [1, 2, 3, 4, 5, 6, 7, 8, 9]⟩, ⟨2, [2, 3, 4, 5, 6, 7, 8, 9]⟩, ⟨3, [3]⟩, ⟨4, [4]⟩, ⟨5, [5]⟩,
    ⟨6, [6]⟩, ⟨7, [7]⟩, ⟨8, [8]⟩, ⟨9, [9]⟩],
   [⟨4, [4]⟩, ⟨5, [5]⟩, ⟨6, [6]⟩, ⟨7, [7]⟩, ⟨8, [8]⟩, ⟨9, [9]⟩, ⟨1, [1]⟩, ⟨2, [2]⟩, ⟨3, [3]⟩],
   [⟨7, [7]⟩, ⟨8, [8]⟩, ⟨9, [9]⟩, ⟨1, [1]⟩, ⟨2, [2]⟩, ⟨3, [3]⟩, ⟨4, [4]⟩, ⟨5, [5]⟩, ⟨6, [6]⟩],
   [⟨2, [2]⟩, ⟨3, [3]⟩, ⟨4, [4]⟩, ⟨5, [5]⟩, ⟨6, [6]⟩, ⟨7, [7]⟩, ⟨8, [8]⟩, ⟨9, [9]⟩, ⟨1, [1]⟩],
   [⟨5, [5]⟩, ⟨6, [6]⟩, ⟨7, [7]⟩, ⟨8, [8]⟩, ⟨9, [1, 2, 3, 4, 5, 6, 7, 8, 9]⟩, ⟨1, [1]⟩, ⟨2, [2]⟩,
    ⟨3, [3]⟩, ⟨4, [4]⟩],
   [⟨8, [8]⟩, ⟨9, [9]⟩, ⟨1, [1]⟩, ⟨2, [2]⟩, ⟨3, [3]⟩, ⟨4, [4]⟩, ⟨5, [5]⟩, ⟨6, [6]⟩, ⟨7, [7]⟩],
   [⟨3, [3]⟩, ⟨4, [4]⟩, ⟨5, [5]⟩, ⟨6, [6]⟩, ⟨7, [7]⟩, ⟨8, [8]⟩, ⟨9, [9]⟩, ⟨1, [1]⟩, ⟨2, [2]⟩],
   [⟨6, [6]⟩, ⟨7, [7]⟩, ⟨8, [8]⟩, ⟨9, [9]⟩, ⟨1, [1]⟩, ⟨2, [2]⟩, ⟨3, [3]⟩, ⟨4, [4]⟩, ⟨5, [5]⟩],
   [⟨9, [9]⟩, ⟨1, [1]⟩, ⟨2, [2]⟩, ⟨3, [3]⟩, ⟨4, [4]⟩, ⟨5, [5]⟩, ⟨6, [6]⟩, ⟨7, [7]⟩, ⟨8, [8]⟩]]

/-- The board on which the search started from `twoNinesGrid` ends. -/
def twoNinesFinal : List (List Cell) :=
  [[⟨9, [9]⟩, ⟨2, [2]⟩, ⟨3, [3]⟩, ⟨4, [4]⟩, ⟨5, [5]⟩, ⟨6, [6]⟩, ⟨7, [7]⟩, ⟨8, [8]⟩, ⟨9, [9]⟩],
   [⟨4, [4]⟩, ⟨5, [5]⟩, ⟨6, [6]⟩, ⟨7, [7]⟩, ⟨8, [8]⟩, ⟨9, [9]⟩, ⟨1, [1]⟩, ⟨2, [2]⟩, ⟨3, [3]⟩],
   [⟨7, [7]⟩, ⟨8, [8]⟩, ⟨9, [9]⟩, ⟨1, [1]⟩, ⟨2, [2]⟩, ⟨3, [3]⟩, ⟨4, [4]⟩, ⟨5, [5]⟩, ⟨6, [6]⟩],
   [⟨2, [2]⟩, ⟨3, [3]⟩, ⟨4, [4]⟩, ⟨5, [5]⟩, ⟨6, [6]⟩, ⟨7, [7]⟩, ⟨8, [8]⟩, ⟨9, [9]⟩, ⟨1, [1]⟩],
   [⟨5, [5]⟩, ⟨6, [6]⟩, ⟨7, [7]⟩, ⟨8, [8]⟩, ⟨9, [1, 2, 3, 4, 5, 6, 7, 8, 9]⟩, ⟨1, [1]⟩, ⟨2, [2]⟩,
    ⟨3, [3]⟩, ⟨4, [4]⟩],
   [⟨8, [8]⟩, ⟨9, [9]⟩, ⟨1, [1]⟩, ⟨2, [2]⟩, ⟨3, [3]⟩, ⟨4, [4]⟩, ⟨5, [5]⟩, ⟨6, [6]⟩, ⟨7, [7]⟩],
   [⟨3, [3]⟩, ⟨4, [4]⟩, ⟨5, [5]⟩, ⟨6, [6]⟩, ⟨7, [7]⟩, ⟨8, [8]⟩, ⟨9, [9]⟩, ⟨1, [1]⟩, ⟨2, [2]⟩],
   [⟨6, [6]⟩, ⟨7, [7]⟩, ⟨8, [8]⟩, ⟨9, [9]⟩, ⟨1, [1]⟩, ⟨2, [2]⟩, ⟨3, [3]⟩, ⟨4, [4]⟩, ⟨5, [5]⟩],
   [⟨9, [9]⟩, ⟨1, [1]⟩, ⟨2, [2]⟩, ⟨3, [3]⟩, ⟨4, [4]⟩, ⟨5, [5]⟩, ⟨6, [6]⟩, ⟨7, [7]⟩, ⟨8, [8]⟩]]

/-- Number of candidates of a cell, `board[row][col].d.size()`. -/
def remaining (board : Board) (rc : Nat × Nat) : Int :=
  ((board rc.1 rc.2).d.length : Int)

/-- Number of in-grid edges adjacent to `(row, col)` whose label is 1 or 2. -/
def labelledEdges (k : Constraints) (row col : Nat) : Nat :=
  (if 0 < row ∧ (k.vConstraints (row - 1) col = 1 ∨ k.vConstraints (row - 1) col = 2)
    then 1 else 0) +
  (if row < 8 ∧ (k.vConstraints row col = 1 ∨ k.vConstraints row col = 2) then 1 else 0) +
  (if 0 < col ∧ (k.hConstraints row (col - 1) = 1 ∨ k.hConstraints row (col - 1) = 2)
    then 1 else 0) +
  (if col < 8 ∧ (k.hConstraints row col = 1 ∨ k.hConstraints row col = 2) then 1 else 0)

/-- The degree of a cell as the design words it: the unassigned cells of its box that
differ from it in both row and column, the other unassigned cells of its row, the other
unassigned cells of its column, and its labelled in-grid edges. -/
def degreeSpec (k : Constraints) (board : Board) (row col : Nat) : Nat :=
  (allCells.filter (fun rc => rc.1 / 3 = row / 3 ∧ rc.2 / 3 = col / 3 ∧
      rc.1 ≠ row ∧ rc.2 ≠ col ∧ (board rc.1 rc.2).value = 0)).length +
  ((List.range 9).filter (fun j => j ≠ col ∧ (board row j).value = 0)).length +
  ((List.range 9).filter (fun i => i ≠ row ∧ (board i col).value = 0)).length +
  labelledEdges k row col

/-! ## Evaluation on tables

The functions that write the board, restated on a board kept as a table of cells. They are
proved below to compute the same boards as `forward_check`, `tryValues` and
`backtracking_search`; concrete runs are evaluated on them. -/

/-- Apply `f` at position `n` of a list, extending the list with `dflt` when it is too
short. -/
def padSet {α : Type} (dflt : α) : List α → Nat → (α → α) → List α
  | [], 0, f => [f dflt]
  | [], n + 1, f => dflt :: padSet dflt [] n f
  | a :: l, 0, f => f a :: l
  | a :: l, n + 1, f => a :: padSet dflt l n f

/-- Apply `f` to the cell `(r, c)` of a table. -/
def modifyCell (t : List (List Cell)) (r c : Nat) (f : Cell → Cell) : List (List Cell) :=
  padSet [] t r (fun row => padSet blankCell row c f)

/-- `pruneCells` on a table. -/
def pruneCellsT (val : Int) : List (Nat × Nat) → List (List Cell) → Bool × List (List Cell)
  | [], t => (true, t)
  | rc :: rest, t =>
    if (boardOf t rc.1 rc.2).value = 0 then
      let t1 := modifyCell t rc.1 rc.2 (fun x => { x with d := x.d.filter (fun y => y != val) })
      if (boardOf t1 rc.1 rc.2).d.isEmpty then (false, t1)
      else pruneCellsT val rest t1
    else pruneCellsT val rest t

/-- `pushBack` on a table. -/
def pushBackT (val : Int) (neighbors : List (Nat × Nat)) (t : List (List Cell)) :
    List (List Cell) :=
  neighbors.foldl (fun b rc => modifyCell b rc.1 rc.2 (fun x => { x with d := x.d ++ [val] })) t

/-- `tryValues` on a table. -/
def tryValuesT (k : Constraints) (search : List (List Cell) → Option (Bool × List (List Cell)))
    (row col : Nat) : List Int → List (List Cell) → Option (Bool × List (List Cell))
  | [], t => some (false, t)
  | val :: rest, t =>
    if validate k (boardOf t) row col val then
      let fc := pruneCellsT val (lineCells row col ++ boxCells row col) t
      if fc.1 then
        let t1 := modifyCell fc.2 row col (fun x => { x with value := val })
        let neighbors := collectNeighbors (boardOf t1) row col
        match search t1 with
        | none => none
        | some (true, t2) => some (true, t2)
        | some (false, t2) =>
          tryValuesT k search row col rest
            (pushBackT val neighbors (modifyCell t2 row col (fun x => { x with value := 0 })))
      else
        tryValuesT k search row col rest
          (modifyCell fc.2 row col (fun x => { x with value := 0 }))
    else tryValuesT k search row col rest t

/-- `backtracking_search` on a table. -/
def searchT (k : Constraints) : Nat → List (List Cell) → Option (Bool × List (List Cell))
  | 0, _ => none
  | fuel + 1, t =>
    match find_next k (boardOf t) with
    | none => some (true, t)
    | some coord =>
      tryValuesT k (searchT k fuel) coord.1 coord.2 (boardOf t coord.1 coord.2).d t

/-- A board state with three unassigned cells in row 0: (0,0) with candidates [1], (0,1)
with candidates [1, 2] and (0,2) with candidates [1]; the other cells hold `solvedGrid`. -/
def narrowRowTable : List (List Cell) :=
  modifyCell (modifyCell (modifyCell (cellsOf solvedGrid)
    0 0 (fun _ => { value := 0, d := [1] }))
    0 1 (fun _ => { value := 0, d := [1, 2] }))
    0 2 (fun _ => { value := 0, d := [1] })

/-- The state `narrowRowTable` after `backtracking_search`: (0,1) and (0,2) have lost the
candidate 1. -/
def narrowRowAfter : List (List Cell) :=
  modifyCell (modifyCell narrowRowTable
    0 1 (fun _ => { value := 0, d := [2] }))
    0 2 (fun _ => { value := 0, d := [] })

/-! ## The invariants of the design -/

/-- The grid of values of a board. -/
def values (board : Board) : Nat → Nat → Int :=
  fun i j => (board i j).value

/-- Two cells share a row, a column or a 3x3 box. -/
def sharesUnit (r1 c1 r2 c2 : Nat) : Prop :=
  r1 = r2 ∨ c1 = c2 ∨ (r1 / 3 = r2 / 3 ∧ c1 / 3 = c2 / 3)

/-- Invariant 1: no two cells sharing a row, a column or a box hold the same nonzero
value. -/
def Invariant1 (v : Nat → Nat → Int) : Prop :=
  ∀ r1 c1 r2 c2, r1 < 9 → c1 < 9 → r2 < 9 → c2 < 9 → ¬ (r1 = r2 ∧ c1 = c2) →
    sharesUnit r1 c1 r2 c2 → v r1 c1 ≠ 0 → v r1 c1 ≠ v r2 c2

/-- Invariant 2: every edge whose two endpoints are assigned satisfies the relation of its
label. -/
def Invariant2 (k : Constraints) (v : Nat → Nat → Int) : Prop :=
  (∀ r c, r < 9 → c < 8 → v r c ≠ 0 → v r (c + 1) ≠ 0 →
    edgeOK (k.hConstraints r c) (v r c) (v r (c + 1))) ∧
  (∀ r c, r < 8 → c < 9 → v r c ≠ 0 → v (r + 1) c ≠ 0 →
    edgeOK (k.vConstraints r c) (v r c) (v (r + 1) c))

/-- Invariants 1 and 2 together. -/
def Consistent (k : Constraints) (v : Nat → Nat → Int) : Prop :=
  Invariant1 v ∧ Invariant2 k v

/-- A solution of the puzzle with givens `g`: every cell holds a value in 1..9, the givens
are kept, and invariants 1 and 2 hold. -/
def IsSolution (k : Constraints) (g s : Nat → Nat → Int) : Prop :=
  (∀ r c, r < 9 → c < 9 → 1 ≤ s r c ∧ s r c ≤ 9 ∧ (g r c ≠ 0 → s r c = g r c)) ∧
  Consistent k s

instance (r1 c1 r2 c2 : Nat) : Decidable (sharesUnit r1 c1 r2 c2) := by
  unfold sharesUnit; infer_instance

instance (label a b : Int) : Decidable (edgeOK label a b) := by
  unfold edgeOK; infer_instance

/-- The shape of an input the claims speak of: givens in 0..9 and edge labels in
{0, 1, 2}. -/
def InputShape (k : Constraints) (g : Nat → Nat → Int) : Prop :=
  (∀ r, r < 9 → ∀ c, c < 9 → 0 ≤ g r c ∧ g r c ≤ 9) ∧
  (∀ r, r < 9 → ∀ c, c < 8 →
    k.hConstraints r c = 0 ∨ k.hConstraints r c = 1 ∨ k.hConstraints r c = 2) ∧
  (∀ r, r < 8 → ∀ c, c < 9 →
    k.vConstraints r c = 0 ∨ k.vConstraints r c = 1 ∨ k.vConstraints r c = 2)

instance (k : Constraints) (g : Nat → Nat → Int) : Decidable (InputShape k g) := by
  unfold InputShape; infer_instance

/-- Number of unassigned cells of the grid. -/
def unassigned (v : Nat → Nat → Int) : Nat :=
  allCells.countP (fun rc => v rc.1 rc.2 = 0)

/-- The cell `(i, j)` is another cell of the grid that shares the row, the column or the 3x3
box with `(row, col)`. -/
def isPeer (row col i j : Nat) : Prop :=
  i < 9 ∧ j < 9 ∧ ¬ (i = row ∧ j = col) ∧ sharesUnit row col i j

instance (row col i j : Nat) : Decidable (isPeer row col i j) := by
  unfold isPeer; infer_instance

/-- The distinct other unassigned cells that share the row, the column or the box with
`(row, col)`, each listed once, in the order of `allCells`. -/
def unassignedPeers (board : Board) (row col : Nat) : List (Nat × Nat) :=
  allCells.filter (fun rc => isPeer row col rc.1 rc.2 ∧ (board rc.1 rc.2).value = 0)

/-- The `for (int val : board[row][col].d)` loop of `backtracking_search` read from the live
vector: each iteration reads the entry at position `pos` of `board[row][col].d` as the board
is at that moment, and the loop ends when `pos` is past the end of that vector. The body is
the body of `tryValues`; `n` bounds the number of iterations and `none` is returned when it
runs out or when the recursive call did not return. -/
def tryValuesLive (k : Constraints) (search : Board → Option (Bool × Board)) (row col : Nat) :
    Nat → Nat → Board → Option (Bool × Board)
  | 0, _, _ => none
  | n + 1, pos, board =>
    match (board row col).d.get? pos with
    | none => some (false, board)
    | some val =>
      if validate k board row col val then
        let fc := forward_check board row col val
        if fc.1 then
          let board1 := setValue fc.2 row col val
          let neighbors := collectNeighbors board1 row col
          match search board1 with
          | none => none
          | some (true, board2) => some (true, board2)
          | some (false, board2) =>
            tryValuesLive k search row col n (pos + 1)
              (pushBack val neighbors (setValue board2 row col 0))
        else
          tryValuesLive k search row col n (pos + 1) (setValue fc.2 row col 0)
      else tryValuesLive k search row col n (pos + 1) board

/-- The range invariant of the design on one cell: the value is in 0..9 and every entry of
the candidate list is in 1..9. -/
def cellInRange (c : Cell) : Prop :=
  0 ≤ c.value ∧ c.value ≤ 9 ∧ ∀ x ∈ c.d, 1 ≤ x ∧ x ≤ 9

instance (c : Cell) : Decidable (cellInRange c) := by
  unfold cellInRange; infer_instance

/-- The range invariant on every cell of the grid. -/
def RangeOK (board : Board) : Prop :=
  ∀ r c, r < 9 → c < 9 → cellInRange (board r c)

/-- The boards on which the candidate loop of `backtracking_search` makes its recursive
calls, in the order of the calls: the body is the body of `tryValues`, and each call
`search board1` is recorded. The loop goes on after a call only when the call returned
false. -/
def callArgs (k : Constraints) (search : Board → Option (Bool × Board)) (row col : Nat) :
    List Int → Board → List Board
  | [], _ => []
  | val :: rest, board =>
    if validate k board row col val then
      let fc := forward_check board row col val
      if fc.1 then
        let board1 := setValue fc.2 row col val
        let neighbors := collectNeighbors board1 row col
        board1 :: (match search board1 with
          | some (false, board2) =>
            callArgs k search row col rest (pushBack val neighbors (setValue board2 row col 0))
          | _ => [])
      else
        callArgs k search row col rest (setValue fc.2 row col 0)
    else callArgs k search row col rest board

/-- The boards on which one call of `backtracking_search` on `board` calls itself directly. -/
def recursiveCalls (k : Constraints) : Nat → Board → List Board
  | 0, _ => []
  | fuel + 1, board =>
    match find_next k board with
    | none => []
    | some coord =>
      callArgs k (backtracking_search k fuel) coord.1 coord.2 (board coord.1 coord.2).d board

/-- Number of assigned cells of the grid. -/
def assigned (v : Nat → Nat → Int) : Nat :=
  allCells.countP (fun rc => v rc.1 rc.2 ≠ 0)
/-- Givens of a solvable puzzle on which the search answers false (0 = blank). -/
def leakGrid : List (List Int) :=
  [[0, 0, 0, 0, 0, 2, 0, 7, 0],
   [0, 0, 2, 0, 0, 0, 0, 0, 0],
   [7, 1, 0, 6, 0, 9, 0, 0, 2],
   [0, 0, 0, 0, 0, 0, 0, 0, 0],
   [0, 6, 4, 0, 0, 1, 7, 9, 5],
   [0, 0, 0, 0, 7, 0, 6, 0, 0],
   [5, 0, 0, 4, 0, 0, 0, 1, 0],
   [0, 0, 0, 1, 0, 0, 3, 5, 7],
   [0, 0, 0, 0, 0, 0, 0, 4, 6]]

/-- Horizontal labels of the puzzle `leakGrid`. -/
def leakH : List (List Int) :=
  [[1, 0, 1, 2, 2, 0, 0, 0],
   [2, 2, 0, 0, 0, 0, 1, 0],
   [0, 0, 2, 1, 0, 0, 2, 0],
   [0, 0, 0, 0, 0, 2, 0, 0],
   [0, 0, 1, 0, 0, 0, 0, 0],
   [0, 0, 0, 0, 0, 1, 0, 2],
   [0, 0, 0, 0, 0, 0, 1, 0],
   [0, 0, 0, 1, 0, 0, 0, 0],
   [1, 0, 0, 0, 0, 0, 0, 0]]

/-- Vertical labels of the puzzle `leakGrid`. -/
def leakV : List (List Int) :=
  [[0, 1, 0, 1, 0, 1, 0, 0, 0],
   [1, 0, 1, 1, 0, 0, 1, 0, 0],
   [0, 0, 0, 0, 1, 0, 2, 0, 1],
   [0, 1, 1, 1, 0, 0, 0, 0, 0],
   [1, 0, 0, 0, 1, 0, 1, 0, 0],
   [0, 0, 0, 0, 0, 1, 0, 1, 2],
   [1, 0, 1, 0, 0, 0, 1, 0, 1],
   [0, 0, 0, 0, 1, 1, 0, 1, 1]]

/-- The label arrays of the puzzle `leakGrid`. -/
def leakLabels : Constraints :=
  { hConstraints := gridOf leakH, vConstraints := gridOf leakV }

/-- A complete grid that extends the givens `leakGrid`. -/
def leakSolution : List (List Int) :=
  [[6, 5, 9, 8, 4, 2, 1, 7, 3],
   [8, 4, 2, 7, 1, 3, 5, 6, 9],
   [7, 1, 3, 6, 5, 9, 4, 8, 2],
   [9, 7, 5, 2, 6, 4, 8, 3, 1],
   [2, 6, 4, 3, 8, 1, 7, 9, 5],
   [3, 8, 1, 9, 7, 5, 6, 2, 4],
   [5, 3, 7, 4, 9, 6, 2, 1, 8],
   [4, 9, 6, 1, 2, 8, 3, 5, 7],
   [1, 2, 8, 5, 3, 7, 9, 4, 6]]

/-- The board on which the search started from `leakGrid` ends. -/
def leakFinal : List (List Cell) :=
  [[⟨0, [1, 2, 6, 7, 9, 3, 5, 8, 4]⟩, ⟨0, [1, 2, 3, 5, 6, 7, 9, 8, 4]⟩,
    ⟨0, [1, 2, 7, 9, 3, 6, 5, 8, 4]⟩, ⟨0, [1, 2, 4, 7, 8, 9, 3, 6, 5]⟩,
    ⟨0, [1, 2, 4, 7, 8, 9, 3, 6, 5]⟩, ⟨2, [2]⟩, ⟨0, [1, 2, 7, 4, 8, 9, 3, 6, 5]⟩, ⟨7, [7]⟩,
    ⟨0, [2, 7, 1, 4, 8, 9, 3, 6, 5]⟩],
   [⟨0, [1, 2, 3, 5, 6, 7, 8, 9, 4]⟩, ⟨0, [1, 2, 3, 4, 5, 6, 7, 8, 9]⟩, ⟨2, [2]⟩,
    ⟨0, [1, 2, 3, 7, 6, 5, 9, 4, 8, 8, 4]⟩, ⟨0, [1, 2, 3, 7, 6, 5, 9, 4, 8, 8, 4]⟩,
    ⟨0, [1, 2, 3, 7, 6, 5, 9, 4, 8, 8, 4]⟩, ⟨0, [2, 5, 6, 7, 9, 3, 1, 8, 4]⟩,
    ⟨0, [2, 6, 7, 5, 9, 3, 1, 8, 4]⟩, ⟨0, [2, 7, 6, 5, 9, 3, 1, 8, 4]⟩],
   [⟨7, [7]⟩, ⟨1, [1]⟩, ⟨0, [1, 2, 7, 9, 3, 6, 5, 8, 4]⟩, ⟨6, [6]⟩,
    ⟨0, [2, 5, 6, 9, 1, 3, 7, 4, 8, 3]⟩, ⟨9, [9]⟩, ⟨0, [2, 4, 7, 8, 5, 6, 5, 9, 3, 1, 3]⟩,
    ⟨0, [2, 7, 8, 4, 5, 6, 5, 9, 3, 1, 3]⟩, ⟨2, [2]⟩],
   [⟨0, [3, 9, 4, 1, 5, 7, 2, 8, 6, 6, 8]⟩, ⟨0, [1, 7, 9, 3, 2, 8, 6, 5, 4]⟩,
    ⟨0, [1, 4, 5, 7, 2, 8, 6, 9, 3]⟩, ⟨0, [3, 9, 4, 1, 7, 2, 5, 8, 6, 7, 8]⟩,
    ⟨0, [2, 3, 6, 7, 8, 9, 5, 1, 4]⟩, ⟨0, [4, 9, 1, 7, 2, 5, 8, 6, 3]⟩,
    ⟨0, [2, 3, 7, 8, 6, 4, 5, 9, 1]⟩, ⟨0, [9, 4, 1, 5, 7, 2, 8, 6, 8, 6]⟩,
    ⟨0, [1, 4, 5, 7, 2, 8, 6, 9, 3]⟩],
   [⟨0, [1, 2, 4, 3, 9, 5, 7, 6, 8]⟩, ⟨6, [6]⟩, ⟨4, [4]⟩, ⟨0, [1, 4, 2, 5, 6, 7, 8]⟩,
    ⟨0, [3, 7, 8, 9, 4, 2, 5, 6, 5, 1, 4]⟩, ⟨1, [1]⟩, ⟨7, [7]⟩, ⟨9, [9]⟩, ⟨5, [5]⟩],
   [⟨0, [1, 4, 3, 9, 7, 2, 5, 6, 8]⟩, ⟨0, [1, 6, 8, 3, 9, 7, 2, 5, 5, 4]⟩,
    ⟨0, [1, 4, 6, 8, 9, 7, 2, 5, 9, 3]⟩, ⟨0, [1, 2, 5, 4, 6, 7, 8]⟩, ⟨7, [7]⟩,
    ⟨0, [1, 7, 8, 9, 4, 2, 5, 6, 3]⟩, ⟨6, [6]⟩, ⟨0, [3, 4, 7, 9, 1, 2, 5, 8, 8, 6]⟩,
    ⟨0, [4, 6, 7, 1, 2, 5, 8, 9, 3]⟩],
   [⟨5, [5]⟩, ⟨0, [1, 2, 6, 8, 9, 3, 7, 5, 4]⟩, ⟨0, [1, 2, 4, 6, 7, 8, 5, 9, 3]⟩, ⟨4, [4]⟩,
    ⟨0, [2, 3, 7, 8, 9, 6, 5, 1, 4]⟩, ⟨0, [1, 2, 5, 6, 7, 8, 9, 4, 3]⟩,
    ⟨0, [3, 6, 7, 2, 8, 4, 5, 9, 1]⟩, ⟨1, [1]⟩, ⟨0, [2, 4, 5, 6, 7, 8, 1, 9, 3]⟩],
   [⟨0, [1, 2, 4, 5, 7, 3, 9, 6, 8]⟩, ⟨0, [1, 2, 6, 8, 9, 3, 7, 5, 4]⟩,
    ⟨0, [1, 2, 4, 6, 7, 8, 5, 9, 3]⟩, ⟨1, [1]⟩, ⟨0, [2, 3, 7, 8, 9, 6, 5, 1, 4]⟩,
    ⟨0, [1, 2, 5, 6, 7, 8, 9, 4, 3]⟩, ⟨3, [3]⟩, ⟨5, [5]⟩, ⟨7, [7]⟩],
   [⟨0, [1, 2, 4, 5, 7, 3, 9, 6, 8]⟩, ⟨0, [1, 2, 6, 8, 9, 3, 7, 5, 4]⟩,
    ⟨0, [1, 2, 4, 6, 7, 8, 5, 9, 3]⟩, ⟨0, [1, 3, 4, 6, 9, 2, 5, 7, 8]⟩,
    ⟨0, [2, 3, 7, 8, 9, 6, 5, 1, 4]⟩, ⟨0, [1, 2, 5, 6, 7, 8, 9, 4, 3]⟩,
    ⟨0, [3, 6, 7, 2, 8, 4, 5, 9, 1]⟩, ⟨4, [4]⟩, ⟨6, [6]⟩]]

/-- Givens of a puzzle on which the search answers true with a cell left blank (0 = blank). -/
def unfilledGrid : List (List Int) :=
  [[4, 8, 7, 9, 9, 0, 0, 3, 3],
   [3, 9, 9, 7, 7, 0, 0, 8, 4],
   [1, 2, 5, 8, 4, 3, 9, 7, 9],
   [6, 7, 4, 2, 5, 9, 3, 1, 8],
   [9, 3, 2, 1, 6, 8, 4, 5, 7],
   [5, 1, 8, 4, 3, 7, 9, 6, 2],
   [2, 4, 3, 6, 1, 7, 8, 9, 5],
   [8, 5, 1, 3, 2, 9, 7, 4, 6],
   [7, 6, 9, 5, 8, 4, 3, 2, 1]]

/-- Horizontal labels of the puzzle `unfilledGrid`. -/
def unfilledH : List (List Int) :=
  [[0, 0, 0, 0, 0, 1, 0, 0],
   [0, 0, 0, 0, 0, 0, 2, 0],
   [0, 0, 0, 0, 0, 0, 0, 0],
   [0, 0, 0, 0, 0, 0, 0, 0],
   [0, 0, 0, 0, 0, 0, 0, 0],
   [0, 0, 0, 0, 0, 0, 0, 0],
   [0, 0, 0, 0, 0, 0, 0, 0],
   [0, 0, 0, 0, 0, 0, 0, 0],
   [0, 0, 0, 0, 0, 0, 0, 0]]

/-- Vertical labels of the puzzle `unfilledGrid`. -/
def unfilledV : List (List Int) :=
  [[0, 0, 0, 0, 0, 1, 0, 0, 0],
   [0, 0, 0, 0, 0, 0, 0, 0, 0],
   [0, 0, 0, 0, 0, 0, 0, 0, 0],
   [0, 0, 0, 0, 0, 0, 0, 0, 0],
   [0, 0, 0, 0, 0, 0, 0, 0, 0],
   [0, 0, 0, 0, 0, 0, 0, 0, 0],
   [0, 0, 0, 0, 0, 0, 0, 0, 0],
   [0, 0, 0, 0, 0, 0, 0, 0, 0]]

/-- The label arrays of the puzzle `unfilledGrid`. -/
def unfilledLabels : Constraints :=
  { hConstraints := gridOf unfilledH, vConstraints := gridOf unfilledV }

/-- The board on which the search started from `unfilledGrid` ends. -/
def unfilledFinal : List (List Cell) :=
  [[⟨4, [4]⟩, ⟨8, [8]⟩, ⟨7, [7]⟩, ⟨9, [9]⟩, ⟨9, [9]⟩, ⟨6, [1, 2, 3, 4, 5, 6, 7, 8, 9]⟩,
    ⟨5, [3, 4, 7, 8, 9, 1, 2, 5]⟩, ⟨3, [3]⟩, ⟨3, [3]⟩],
   [⟨3, [3]⟩, ⟨9, [9]⟩, ⟨9, [9]⟩, ⟨7, [7]⟩, ⟨7, [7]⟩, ⟨5, [3, 4, 7, 8, 9, 1, 2, 5]⟩,
    ⟨0, [3, 4, 7, 8, 9, 2, 2, 1, 1, 6, 6]⟩, ⟨8, [8]⟩, ⟨4, [4]⟩],
   [⟨1, [1]⟩, ⟨2, [2]⟩, ⟨5, [5]⟩, ⟨8, [8]⟩, ⟨4, [4]⟩, ⟨3, [3]⟩, ⟨9, [9]⟩, ⟨7, [7]⟩, ⟨9, [9]⟩],
   [⟨6, [6]⟩, ⟨7, [7]⟩, ⟨4, [4]⟩, ⟨2, [2]⟩, ⟨5, [5]⟩, ⟨9, [9]⟩, ⟨3, [3]⟩, ⟨1, [1]⟩, ⟨8, [8]⟩],
   [⟨9, [9]⟩, ⟨3, [3]⟩, ⟨2, [2]⟩, ⟨1, [1]⟩, ⟨6, [6]⟩, ⟨8, [8]⟩, ⟨4, [4]⟩, ⟨5, [5]⟩, ⟨7, [7]⟩],
   [⟨5, [5]⟩, ⟨1, [1]⟩, ⟨8, [8]⟩, ⟨4, [4]⟩, ⟨3, [3]⟩, ⟨7, [7]⟩, ⟨9, [9]⟩, ⟨6, [6]⟩, ⟨2, [2]⟩],
   [⟨2, [2]⟩, ⟨4, [4]⟩, ⟨3, [3]⟩, ⟨6, [6]⟩, ⟨1, [1]⟩, ⟨7, [7]⟩, ⟨8, [8]⟩, ⟨9, [9]⟩, ⟨5, [5]⟩],
   [⟨8, [8]⟩, ⟨5, [5]⟩, ⟨1, [1]⟩, ⟨3, [3]⟩, ⟨2, [2]⟩, ⟨9, [9]⟩, ⟨7, [7]⟩, ⟨4, [4]⟩, ⟨6, [6]⟩],
   [⟨7, [7]⟩, ⟨6, [6]⟩, ⟨9, [9]⟩, ⟨5, [5]⟩, ⟨8, [8]⟩, ⟨4, [4]⟩, ⟨3, [3]⟩, ⟨2, [2]⟩, ⟨1, [1]⟩]]


/-- The all-blank input grid. -/
def emptyGrid : List (List Int) :=
  List.replicate 9 (List.replicate 9 0)


/-- The board on which the search started from the all-blank grid with no labels ends. -/
def emptyFinal : List (List Cell) :=
  [[⟨1, [1, 2, 3, 4, 5, 6, 7, 8, 9]⟩, ⟨2, [2, 3, 4, 5, 6, 7, 8, 9]⟩, ⟨3, [3, 4, 5, 6, 7, 8, 9]⟩,
    ⟨4, [4, 5, 6, 7, 8, 9]⟩, ⟨5, [5, 6, 7, 8, 9]⟩, ⟨6, [6, 7, 8, 9]⟩, ⟨7, [7, 8, 9]⟩,
    ⟨8, [8, 9]⟩, ⟨9, [9]⟩],
   [⟨4, [4, 5, 6, 7, 8, 9]⟩, ⟨5, [5, 6, 7, 8, 9]⟩, ⟨6, [6, 7, 8, 9]⟩, ⟨7, [7, 8, 9]⟩,
    ⟨8, [8, 9]⟩, ⟨9, [9]⟩, ⟨1, [1, 2, 3]⟩, ⟨2, [2, 3]⟩, ⟨3, [3]⟩],
   [⟨7, [7, 8, 9]⟩, ⟨8, [8, 9]⟩, ⟨9, [9]⟩, ⟨1, [1, 2, 3]⟩, ⟨2, [2, 3]⟩, ⟨3, [3]⟩,
    ⟨4, [4, 5, 6]⟩, ⟨5, [5, 6]⟩, ⟨6, [6]⟩],
   [⟨2, [2, 3, 5, 6, 8, 9]⟩, ⟨6, [6]⟩, ⟨1, [1, 4, 5, 7, 8]⟩, ⟨8, [8]⟩, ⟨9, [9]⟩,
    ⟨4, [4, 5, 7, 8]⟩, ⟨3, [3]⟩, ⟨7, [7]⟩, ⟨5, [5, 7, 8]⟩],
   [⟨8, [8]⟩, ⟨9, [9]⟩, ⟨4, [4, 5, 7, 8]⟩, ⟨5, [5]⟩, ⟨3, [3, 6, 9]⟩, ⟨7, [7, 8]⟩, ⟨2, [2]⟩,
    ⟨6, [6, 9]⟩, ⟨1, [1, 2, 7, 8]⟩],
   [⟨3, [3]⟩, ⟨7, [7]⟩, ⟨5, [5, 7, 8]⟩, ⟨2, [2]⟩, ⟨6, [6, 9]⟩, ⟨1, [1, 2, 7]⟩, ⟨9, [9]⟩,
    ⟨4, [4]⟩, ⟨8, [8]⟩],
   [⟨5, [5]⟩, ⟨1, [1, 3]⟩, ⟨2, [2, 7, 8]⟩, ⟨3, [3]⟩, ⟨7, [7]⟩, ⟨8, [8]⟩, ⟨6, [6]⟩, ⟨9, [9]⟩,
    ⟨4, [4, 7, 8]⟩],
   [⟨9, [9, 6]⟩, ⟨4, [4, 3]⟩, ⟨7, [7, 8]⟩, ⟨6, [3, 6]⟩, ⟨1, [1]⟩, ⟨5, [5, 8]⟩, ⟨8, [6, 8]⟩,
    ⟨3, [3]⟩, ⟨2, [2, 8]⟩],
   [⟨6, [6]⟩, ⟨3, [3]⟩, ⟨8, [8]⟩, ⟨9, [9]⟩, ⟨4, [4]⟩, ⟨2, [2]⟩, ⟨5, [5]⟩, ⟨1, [1]⟩, ⟨7, [7]⟩]]

/-- A complete valid Sudoku grid: every cell holds a value in 1..9 and every row, every
column and every 3x3 box contains each of 1..9 exactly once. Box `b` consists of the cells
`(3 * (b / 3) + i / 3, 3 * (b % 3) + i % 3)` for `i < 9`. -/
def ValidSudoku (v : Nat → Nat → Int) : Prop :=
  (∀ r, r < 9 → ∀ c, c < 9 → 1 ≤ v r c ∧ v r c ≤ 9) ∧
  (∀ r, r < 9 → ∀ n : Nat, n < 9 →
    ((List.range 9).map (fun c => v r c)).count ((n : Int) + 1) = 1) ∧
  (∀ c, c < 9 → ∀ n : Nat, n < 9 →
    ((List.range 9).map (fun r => v r c)).count ((n : Int) + 1) = 1) ∧
  (∀ b, b < 9 → ∀ n : Nat, n < 9 →
    ((List.range 9).map (fun i => v (3 * (b / 3) + i / 3) (3 * (b % 3) + i % 3))).count
      ((n : Int) + 1) = 1)

instance (v : Nat → Nat → Int) : Decidable (ValidSudoku v) := by
  unfold ValidSudoku; infer_instance

/-- The labels of the Consecutive-edge scenario: the edge between (0,0) and (0,1) is
labelled 1, every other label is 0. -/
def consecLabels : Constraints :=
  { hConstraints := fun r c => if r = 0 ∧ c = 0 then 1 else 0, vConstraints := fun _ _ => 0 }

/-- The puzzle of the scenario: 9 at (0,0), every other cell blank. -/
def nineOnlyGrid : List (List Int) :=
  [[9, 0, 0, 0, 0, 0, 0, 0, 0],
   [0, 0, 0, 0, 0, 0, 0, 0, 0],
   [0, 0, 0, 0, 0, 0, 0, 0, 0],
   [0, 0, 0, 0, 0, 0, 0, 0, 0],
   [0, 0, 0, 0, 0, 0, 0, 0, 0],
   [0, 0, 0, 0, 0, 0, 0, 0, 0],
   [0, 0, 0, 0, 0, 0, 0, 0, 0],
   [0, 0, 0, 0, 0, 0, 0, 0, 0],
   [0, 0, 0, 0, 0, 0, 0, 0, 0]]

/-- The board on which the search started from `nineOnlyGrid` with the labels `consecLabels`
ends. -/
def nineOnlyFinal : List (List Cell) :=
  [[⟨9, [9]⟩, ⟨8, [1, 2, 3, 4, 5, 6, 7, 8, 9]⟩, ⟨1, [1, 2, 3]⟩, ⟨2, [2]⟩, ⟨4, [4, 7]⟩, ⟨7, [7]⟩,
    ⟨3, [3, 5, 6]⟩, ⟨5, [5, 6]⟩, ⟨6, [6]⟩],
   [⟨4, [4, 5, 9]⟩, ⟨6, [6, 7]⟩, ⟨2, [2, 3]⟩, ⟨1, [1, 3, 5, 8, 9, 7]⟩, ⟨3, [3, 5, 8, 9, 7]⟩,
    ⟨5, [5, 8, 9, 7]⟩, ⟨8, [8, 9, 7]⟩, ⟨9, [9, 7]⟩, ⟨7, [7]⟩],
   [⟨5, [5, 9]⟩, ⟨7, [7]⟩, ⟨3, [3]⟩, ⟨6, [6, 9]⟩, ⟨9, [9]⟩, ⟨8, [8]⟩, ⟨1, [1, 2, 4, 6]⟩,
    ⟨2, [2, 4, 6]⟩, ⟨4, [4, 6]⟩],
   [⟨6, [6, 7, 8]⟩, ⟨1, [1, 2, 3, 4, 5, 6, 7, 9]⟩, ⟨4, [4, 5, 6, 7, 8, 9]⟩, ⟨9, [9]⟩,
    ⟨5, [5, 7]⟩, ⟨2, [2, 7]⟩, ⟨7, [7]⟩, ⟨3, [3, 8, 7]⟩, ⟨8, [8]⟩],
   [⟨7, [7, 8]⟩, ⟨2, [2, 3, 4, 5, 6, 7, 9]⟩, ⟨5, [5, 6, 7, 8, 9]⟩, ⟨3, [3, 8]⟩, ⟨8, [8]⟩,
    ⟨1, [1]⟩, ⟨4, [4, 9, 6]⟩, ⟨6, [6]⟩, ⟨9, [9, 8]⟩],
   [⟨8, [8]⟩, ⟨3, [3, 4, 5, 6, 7, 9]⟩, ⟨9, [6, 7, 8, 9]⟩, ⟨7, [7]⟩, ⟨6, [6]⟩, ⟨4, [4]⟩,
    ⟨5, [5]⟩, ⟨1, [1, 6]⟩, ⟨2, [2]⟩],
   [⟨1, [1, 2, 3]⟩, ⟨4, [4, 5, 6, 7, 9]⟩, ⟨6, [6, 7, 8]⟩, ⟨8, [8]⟩, ⟨2, [2, 5]⟩, ⟨3, [3]⟩,
    ⟨9, [9]⟩, ⟨7, [7, 8]⟩, ⟨5, [5]⟩],
   [⟨2, [2, 3]⟩, ⟨5, [5, 6, 7, 9]⟩, ⟨7, [7, 8]⟩, ⟨4, [4, 9]⟩, ⟨1, [1, 9]⟩, ⟨9, [9]⟩,
    ⟨6, [6, 9]⟩, ⟨8, [8]⟩, ⟨3, [3]⟩],
   [⟨3, [3]⟩, ⟨9, [6, 7, 9]⟩, ⟨8, [8]⟩, ⟨5, [5]⟩, ⟨7, [7]⟩, ⟨6, [6]⟩, ⟨2, [2]⟩, ⟨4, [4]⟩,
    ⟨1, [1]⟩]]

/-- A puzzle with 9 at (0,0) and (0,1) blank whose other givens conflict with each other
(0 = blank). -/
def consecBlankGrid : List (List Int) :=
  [[9, 0, 1, 7, 0, 6, 3, 8, 3],
   [0, 8, 4, 6, 1, 6, 3, 6, 8],
   [8, 6, 6, 9, 8, 1, 3, 1, 8],
   [3, 1, 5, 8, 3, 8, 7, 5, 7],
   [6, 1, 7, 9, 4, 2, 7, 6, 1],
   [1, 8, 6, 7, 3, 8, 8, 5, 6],
   [1, 3, 1, 2, 6, 5, 8, 8, 5],
   [0, 3, 0, 3, 0, 4, 4, 3, 4],
   [0, 0, 8, 1, 8, 1, 4, 9, 3]]

/-- The board on which the search started from `consecBlankGrid` with the labels
`consecLabels` ends. -/
def consecBlankFinal : List (List Cell) :=
  [[⟨9, [9]⟩, ⟨0, [1, 3, 4, 6, 8, 9, 7, 7, 5, 5, 5]⟩, ⟨1, [1]⟩, ⟨7, [7]⟩,
    ⟨2, [1, 2, 3, 4, 5, 6, 8, 9]⟩, ⟨6, [6]⟩, ⟨3, [3]⟩, ⟨8, [8]⟩, ⟨3, [3]⟩],
   [⟨2, [1, 3, 4, 6, 8, 9, 2]⟩, ⟨8, [8]⟩, ⟨4, [4]⟩, ⟨6, [6]⟩, ⟨1, [1]⟩, ⟨6, [6]⟩, ⟨3, [3]⟩,
    ⟨6, [6]⟩, ⟨8, [8]⟩],
   [⟨8, [8]⟩, ⟨6, [6]⟩, ⟨6, [6]⟩, ⟨9, [9]⟩, ⟨8, [8]⟩, ⟨1, [1]⟩, ⟨3, [3]⟩, ⟨1, [1]⟩, ⟨8, [8]⟩],
   [⟨3, [3]⟩, ⟨1, [1]⟩, ⟨5, [5]⟩, ⟨8, [8]⟩, ⟨3, [3]⟩, ⟨8, [8]⟩, ⟨7, [7]⟩, ⟨5, [5]⟩, ⟨7, [7]⟩],
   [⟨6, [6]⟩, ⟨1, [1]⟩, ⟨7, [7]⟩, ⟨9, [9]⟩, ⟨4, [4]⟩, ⟨2, [2]⟩, ⟨7, [7]⟩, ⟨6, [6]⟩, ⟨1, [1]⟩],
   [⟨1, [1]⟩, ⟨8, [8]⟩, ⟨6, [6]⟩, ⟨7, [7]⟩, ⟨3, [3]⟩, ⟨8, [8]⟩, ⟨8, [8]⟩, ⟨5, [5]⟩, ⟨6, [6]⟩],
   [⟨1, [1]⟩, ⟨3, [3]⟩, ⟨1, [1]⟩, ⟨2, [2]⟩, ⟨6, [6]⟩, ⟨5, [5]⟩, ⟨8, [8]⟩, ⟨8, [8]⟩, ⟨5, [5]⟩],
   [⟨5, [1, 2, 3, 4, 5, 6, 7, 8, 9]⟩, ⟨3, [3]⟩, ⟨9, [1, 3, 4, 6, 7, 8, 9, 2]⟩, ⟨3, [3]⟩,
    ⟨7, [1, 3, 4, 6, 7, 8, 2]⟩, ⟨4, [4]⟩, ⟨4, [4]⟩, ⟨3, [3]⟩, ⟨4, [4]⟩],
   [⟨7, [1, 3, 4, 6, 7, 8, 2]⟩, ⟨2, [1, 3, 4, 6, 8, 2]⟩, ⟨8, [8]⟩, ⟨1, [1]⟩, ⟨8, [8]⟩, ⟨1, [1]⟩,
    ⟨4, [4]⟩, ⟨9, [9]⟩, ⟨3, [3]⟩]]

end Kropki

/-!
# A* path search (`Project1Fixed.cpp`): the move cost

`calcMoveCost` prices one move of the robot. The eight moves of `MOVES` are numbered 0..7
counter-clockwise in steps of 45 degrees, and `-1` stands for "no previous move". C++ `int`
is modelled by `Int`, with `%` truncating toward zero (`Int.tmod`); the executions described
are those without signed overflow, among them all calls with facings in -1..7. C++ `double`
is modelled by `ℚ` with exact arithmetic, and the `double` that `sqrt(2)` returns is a
parameter; the program rounds its products and sums, so the statements below about
`turnCost` and `calcMoveCost` are kept to the case in which the program adds `0.0`, which
is exact in `double` too.
-/

namespace AStar

/-- The local `int jumps` of `calcMoveCost`. -/
def jumps (oldFace newFace : Int) : Int :=
  if (newFace - oldFace + 8).tmod 8 > 4 then 8 - (newFace - oldFace + 8).tmod 8
  else (newFace - oldFace + 8).tmod 8

/-- The local `double turnCost` of `calcMoveCost` when the function returns. -/
def turnCost (oldFace newFace : Int) (k : ℚ) : ℚ :=
  if oldFace ≠ -1 then k * (jumps oldFace newFace : ℚ) / 4 else 0

/-- The local `double moveCost` of `calcMoveCost`; `sqrt2` is the value of `sqrt(2)`. -/
def moveCost (sqrt2 : ℚ) (newFace : Int) : ℚ :=
  if newFace.tmod 2 = 0 then 1 else sqrt2

/-- The function `calcMoveCost`; `sqrt2` is the value of `sqrt(2)`. The coordinates are
parameters that the body does not read. -/
def calcMoveCost (sqrt2 : ℚ) (n_x n_y g_x g_y oldFace newFace : Int) (k : ℚ) : ℚ :=
  turnCost oldFace newFace k + moveCost sqrt2 newFace

/-- One 45-degree turn from the facing `f`: to the next facing of `MOVES` when `ccw` is
true, to the previous one otherwise; facing 7 is followed by facing 0. -/
def turn (f : Int) (ccw : Bool) : Int :=
  if ccw then (f + 1) % 8 else (f + 7) % 8

/-- The facing reached from `f` by the turns `ts`, made one after the other. -/
def rotate (f : Int) (ts : List Bool) : Int :=
  ts.foldl turn f

end AStar

namespace Kropki

/-! ## Theorems -/

/-! ### `validate` -/

theorem ite_false_eq (a b : Bool) : (if a = true then false else b) = (!a && b) := by
  cases a <;> rfl

theorem any_range_eq_false (n : Nat) (p : Nat → Bool) :
    (List.range n).any p = false ↔ ∀ i, i < n → p i = false := by
  simp [List.any_eq_false, List.mem_range]

theorem edgeFails_eq_false_iff (label n val : Int) :
    edgeFails label n val = false ↔ edgeOK label n val := by
  unfold edgeFails edgeOK
  by_cases h1 : label = 1 <;> by_cases h2 : label = 2 <;> simp [h1, h2]
  all_goals omega

theorem guard_false_iff (g : Prop) [Decidable g] (n label val : Int) :
    (decide g && (decide (n ≠ 0) && edgeFails label n val)) = false ↔
      (g → n ≠ 0 → edgeOK label n val) := by
  rw [← edgeFails_eq_false_iff]
  by_cases hg : g <;> by_cases hn : n = 0 <;> simp [hg, hn]

/-- The rows `row - row % 3 + i`, `i < 3`, are exactly the rows of the band of `row`. -/
theorem band_iff (row r : Nat) :
    (∃ i, i < 3 ∧ r = row - row % 3 + i) ↔ r / 3 = row / 3 := by
  constructor
  · rintro ⟨i, hi, rfl⟩; omega
  · intro h; exact ⟨r % 3, Nat.mod_lt _ (by decide), by omega⟩

/-- What `validate` computes, check by check, over the cells that its loops visit. -/
theorem validate_true_iff (k : Constraints) (board : Board) (row col : Nat) (val : Int) :
    validate k board row col val = true ↔
      (∀ i, i < 3 → ∀ j, j < 3 →
        (board (row - row % 3 + i) (col - col % 3 + j)).value ≠ val) ∧
      (∀ i, i < 9 → (board row i).value ≠ val ∧ (board i col).value ≠ val) ∧
      (0 < row → (board (row - 1) col).value ≠ 0 →
        edgeOK (k.vConstraints (row - 1) col) (board (row - 1) col).value val) ∧
      (row < 8 → (board (row + 1) col).value ≠ 0 →
        edgeOK (k.vConstraints row col) (board (row + 1) col).value val) ∧
      (0 < col → (board row (col - 1)).value ≠ 0 →
        edgeOK (k.hConstraints row (col - 1)) (board row (col - 1)).value val) ∧
      (col < 8 → (board row (col + 1)).value ≠ 0 →
        edgeOK (k.hConstraints row col) (board row (col + 1)).value val) := by
  have hv : validate k board row col val =
      (!((List.range 3).any (fun i => (List.range 3).any (fun j =>
        (board (row - row % 3 + i) (col - col % 3 + j)).value == val))) &&
      (!((List.range 9).any (fun i =>
        (board row i).value == val || (board i col).value == val)) &&
      (!(decide (row > 0) && (decide ((board (row - 1) col).value ≠ 0) &&
        edgeFails (k.vConstraints (row - 1) col) (board (row - 1) col).value val)) &&
      (!(decide (row < 8) && (decide ((board (row + 1) col).value ≠ 0) &&
        edgeFails (k.vConstraints row col) (board (row + 1) col).value val)) &&
      (!(decide (col > 0) && (decide ((board row (col - 1)).value ≠ 0) &&
        edgeFails (k.hConstraints row (col - 1)) (board row (col - 1)).value val)) &&
      !(decide (col < 8) && (decide ((board row (col + 1)).value ≠ 0) &&
        edgeFails (k.hConstraints row col) (board row (col + 1)).value val))))))) := by
    simp only [validate, SIZE, ite_false_eq, Bool.and_true]
  rw [hv]
  simp only [Bool.and_eq_true, Bool.not_eq_true', guard_false_iff, any_range_eq_false]
  simp only [Bool.or_eq_false_iff, beq_eq_false_iff_ne, ne_eq, gt_iff_lt]

/-- The box scan of the program visits exactly the cells of the 3x3 box. -/
theorem box_scan_iff (board : Board) (row col : Nat) (val : Int) :
    (∀ i, i < 3 → ∀ j, j < 3 →
        (board (row - row % 3 + i) (col - col % 3 + j)).value ≠ val) ↔
      (∀ r c, r / 3 = row / 3 → c / 3 = col / 3 → (board r c).value ≠ val) := by
  constructor
  · intro h r c hr hc
    obtain ⟨i, hi, rfl⟩ := (band_iff row r).mpr hr
    obtain ⟨j, hj, rfl⟩ := (band_iff col c).mpr hc
    exact h i hi j hj
  · intro h i hi j hj
    exact h _ _ ((band_iff row _).mp ⟨i, hi, rfl⟩) ((band_iff col _).mp ⟨j, hj, rfl⟩)

/-- C8: for `row`, `col` in 0..8 and any `val`, `validate` returns true exactly when no cell
of the box, the row or the column holds `val` and every assigned in-grid orthogonal
neighbour satisfies the relation of the label toward it (1: difference 1, 2: one the double
of the other); unassigned neighbours, domains and other labels impose nothing. -/
theorem validate_iff_spec (k : Constraints) (board : Board) (row col : Nat) (val : Int)
    (hrow : row < 9) (hcol : col < 9) :
    validate k board row col val = true ↔ validateSpec k board row col val := by
  rw [validate_true_iff, box_scan_iff]
  unfold validateSpec
  constructor
  · rintro ⟨h1, h2⟩
    exact ⟨fun r c _ _ hr hc => h1 r c hr hc, h2⟩
  · rintro ⟨h1, h2⟩
    refine ⟨fun r c hr hc => h1 r c ?_ ?_ hr hc, h2⟩ <;> omega

/-- Witness of C8 on the board built from `threeBlanksGrid`: 2 is accepted at (0,1). -/
theorem validate_iff_spec_witness :
    validate noLabels (mainBoard (gridOf threeBlanksGrid)) 0 1 2 = true ∧
    validateSpec noLabels (mainBoard (gridOf threeBlanksGrid)) 0 1 2 :=
  ⟨by decide!, (validate_iff_spec noLabels (mainBoard (gridOf threeBlanksGrid)) 0 1 2
    (by decide) (by decide)).mp (by decide!)⟩

/-! ### `find_next` -/

theorem mem_allCells (rc : Nat × Nat) : rc ∈ allCells ↔ rc.1 < 9 ∧ rc.2 < 9 := by
  obtain ⟨r, c⟩ := rc
  simp only [allCells, SIZE, List.mem_flatMap, List.mem_range, List.mem_map, Prod.mk.injEq]
  constructor
  · rintro ⟨a, ha, b, hb, rfl, rfl⟩; exact ⟨ha, hb⟩
  · rintro ⟨h1, h2⟩; exact ⟨r, h1, c, h2, rfl, rfl⟩

theorem foldl_count {α : Type} (p : α → Prop) [DecidablePred p] (l : List α) (a : Int) :
    l.foldl (fun acc i => if p i then acc + 1 else acc) a = a + (l.countP p : Int) := by
  induction l generalizing a with
  | nil => simp
  | cons x l ih =>
    by_cases h : p x
    · simp only [List.foldl_cons, ih, h, if_true, List.countP_cons_of_pos, decide_True]
      push_cast; omega
    · simp only [List.foldl_cons, ih, h, if_false, decide_False, Bool.false_eq_true,
        not_false_eq_true, List.countP_cons_of_neg]

theorem foldl_add {α : Type} (f : α → Int) (l : List α) (a : Int) :
    l.foldl (fun acc i => acc + f i) a = a + (l.map f).sum := by
  induction l generalizing a with
  | nil => simp
  | cons x l ih => simp only [List.foldl_cons, ih, List.map_cons, List.sum_cons]; omega

theorem foldl_count2 {α : Type} (p q : α → Prop) [DecidablePred p] [DecidablePred q]
    (l : List α) (a : Int) :
    l.foldl (fun acc i =>
        let acc1 := if p i then acc + 1 else acc
        if q i then acc1 + 1 else acc1) a
      = a + (l.countP p : Int) + (l.countP q : Int) := by
  induction l generalizing a with
  | nil => simp
  | cons x l ih =>
    by_cases h : p x <;> by_cases h2 : q x <;>
      simp [List.foldl_cons, ih, h, h2] <;> omega

theorem labelDegree_eq (label : Int) :
    labelDegree label = if label = 1 ∨ label = 2 then 1 else 0 := by
  unfold labelDegree
  by_cases h1 : label = 1
  · subst h1; simp
  · by_cases h2 : label = 2
    · subst h2; simp
    · simp [h1, h2]

theorem box_filter (a b : Nat) (ha : a < 3) (hb : b < 3) :
    allCells.filter (fun rc => decide (rc.1 / 3 = a ∧ rc.2 / 3 = b)) =
      (List.range 3).flatMap (fun i => (List.range 3).map (fun j => (3 * a + i, 3 * b + j))) := by
  interval_cases a <;> interval_cases b <;> decide

theorem box_count (board : Board) (row col : Nat) (hrow : row < 9) (hcol : col < 9) :
    (List.range 3).foldl (fun acc i => (List.range 3).foldl (fun acc j =>
      if row - row % 3 + i ≠ row ∧ col - col % 3 + j ≠ col ∧
        (board (row - row % 3 + i) (col - col % 3 + j)).value = 0
      then acc + 1 else acc) acc) (0 : Int) =
    ((allCells.filter (fun rc => rc.1 / 3 = row / 3 ∧ rc.2 / 3 = col / 3 ∧
      rc.1 ≠ row ∧ rc.2 ≠ col ∧ (board rc.1 rc.2).value = 0)).length : Int) := by
  have h1 : row - row % 3 = 3 * (row / 3) := by omega
  have h2 : col - col % 3 = 3 * (col / 3) := by omega
  have hf : allCells.filter (fun rc => decide (rc.1 / 3 = row / 3 ∧ rc.2 / 3 = col / 3 ∧
      rc.1 ≠ row ∧ rc.2 ≠ col ∧ (board rc.1 rc.2).value = 0)) =
      (allCells.filter (fun rc => decide (rc.1 / 3 = row / 3 ∧ rc.2 / 3 = col / 3))).filter
        (fun rc => decide (rc.1 ≠ row ∧ rc.2 ≠ col ∧ (board rc.1 rc.2).value = 0)) := by
    rw [List.filter_filter]
    congr 1
    funext rc
    simp only [Bool.decide_and, Bool.and_assoc, Bool.and_comm, Bool.and_left_comm]
  rw [hf, box_filter _ _ (by omega) (by omega), h1, h2]
  simp only [foldl_count, foldl_add, ← List.countP_eq_length_filter, List.countP_flatMap,
    List.countP_map, Function.comp_def]
  simp only [List.range_succ, List.range_zero, List.nil_append, List.cons_append, List.map_cons,
    List.map_nil, List.sum_cons, List.sum_nil, decide_not, Bool.decide_and]
  push_cast
  omega

theorem edge_term (g : Prop) [Decidable g] (l x : Int) :
    (if g then x + (if l = 1 ∨ l = 2 then 1 else 0) else x) =
      x + (((if g ∧ (l = 1 ∨ l = 2) then 1 else 0 : Nat)) : Int) := by
  by_cases hg : g <;> by_cases hl : l = 1 ∨ l = 2 <;> simp [hg, hl]

/-- The degree computed by `find_next` is the degree of the design. -/
theorem degree_eq_spec (k : Constraints) (board : Board) (row col : Nat)
    (hrow : row < 9) (hcol : col < 9) :
    degree k board row col = (degreeSpec k board row col : Int) := by
  unfold degree degreeSpec labelledEdges
  simp only [SIZE, foldl_count2, box_count board row col hrow hcol, labelDegree_eq,
    ← List.countP_eq_length_filter, edge_term, gt_iff_lt, Nat.reduceSub]
  push_cast
  ring

theorem degree_nonneg (k : Constraints) (board : Board) (row col : Nat)
    (hrow : row < 9) (hcol : col < 9) : 0 ≤ degree k board row col := by
  rw [degree_eq_spec k board row col hrow hcol]
  exact Int.natCast_nonneg _

/-- The update test of `find_next`: the cell `rc` replaces the current choice `p`. -/
theorem pickStep_eq (k : Constraints) (board : Board) (p : Pick) (rc : Nat × Nat) :
    pickStep k board p rc =
      if (board rc.1 rc.2).value = 0 ∧
          (remaining board rc < p.min_remaining ∨
            (remaining board rc = p.min_remaining ∧ degree k board rc.1 rc.2 > p.max_degree))
      then { min_remaining := remaining board rc, max_degree := degree k board rc.1 rc.2,
             selected := some rc }
      else p := by
  unfold pickStep remaining
  by_cases h : (board rc.1 rc.2).value = 0 <;> simp [h]

/-- Invariant of the scan of `find_next` over a list of cells `l` started in state `p`:
either no unassigned cell of `l` passes the update test against `p` and the state is
unchanged, or the state holds a cell `s` of `l` that passes the test against `p`, beats
every unassigned cell before it strictly, and is not beaten by any unassigned cell after
it. -/
theorem scan_spec (k : Constraints) (board : Board) (l : List (Nat × Nat)) (p : Pick) :
    (l.foldl (pickStep k board) p = p ∧
      ∀ rc ∈ l, (board rc.1 rc.2).value = 0 →
        ¬ (remaining board rc < p.min_remaining ∨
          (remaining board rc = p.min_remaining ∧ degree k board rc.1 rc.2 > p.max_degree))) ∨
    (∃ l1 s l2, l = l1 ++ s :: l2 ∧ (board s.1 s.2).value = 0 ∧
      (remaining board s < p.min_remaining ∨
        (remaining board s = p.min_remaining ∧ degree k board s.1 s.2 > p.max_degree)) ∧
      l.foldl (pickStep k board) p =
        { min_remaining := remaining board s, max_degree := degree k board s.1 s.2,
          selected := some s } ∧
      (∀ rc ∈ l1, (board rc.1 rc.2).value = 0 →
        remaining board s < remaining board rc ∨
          (remaining board s = remaining board rc ∧
            degree k board rc.1 rc.2 < degree k board s.1 s.2)) ∧
      (∀ rc ∈ l2, (board rc.1 rc.2).value = 0 →
        remaining board s < remaining board rc ∨
          (remaining board s = remaining board rc ∧
            degree k board rc.1 rc.2 ≤ degree k board s.1 s.2))) := by
  induction l generalizing p with
  | nil => left; simp
  | cons a l ih =>
    rw [List.foldl_cons, pickStep_eq]
    split_ifs with ha
    · -- `a` replaces the current choice
      right
      rcases ih { min_remaining := remaining board a, max_degree := degree k board a.1 a.2,
                  selected := some a } with ⟨hq, hall⟩ | ⟨l1, s, l2, hl, hs0, hsb, hq, h1, h2⟩
      · refine ⟨[], a, l, rfl, ha.1, ha.2, hq, by simp, ?_⟩
        intro rc hrc h0
        have := hall rc hrc h0
        simp only at this
        omega
      · refine ⟨a :: l1, s, l2, by simp [hl], hs0, ?_, hq, ?_, h2⟩
        · simp only at hsb
          have := ha.2
          omega
        · intro rc hrc h0
          simp only at hsb
          rcases List.mem_cons.mp hrc with rfl | hrc
          · omega
          · have := h1 rc hrc h0
            exact this
    · rcases ih p with ⟨hq, hall⟩ | ⟨l1, s, l2, hl, hs0, hsb, hq, h1, h2⟩
      · left
        refine ⟨hq, ?_⟩
        intro rc hrc h0
        rcases List.mem_cons.mp hrc with rfl | hrc
        · intro hb; exact ha ⟨h0, hb⟩
        · exact hall rc hrc h0
      · right
        refine ⟨a :: l1, s, l2, by simp [hl], hs0, hsb, hq, ?_, h2⟩
        intro rc hrc h0
        rcases List.mem_cons.mp hrc with rfl | hrc
        · have hna : ¬ (remaining board rc < p.min_remaining ∨
              (remaining board rc = p.min_remaining ∧
                degree k board rc.1 rc.2 > p.max_degree)) := fun hb => ha ⟨h0, hb⟩
          omega
        · exact h1 rc hrc h0

theorem allCells_sorted :
    allCells.Pairwise (fun a b => a.1 < b.1 ∨ (a.1 = b.1 ∧ a.2 < b.2)) := by
  decide

/-- `find_next` returns `{-1, -1}` exactly when every unassigned cell of the grid has more
than 10 candidates. -/
theorem find_next_none_iff (k : Constraints) (board : Board) :
    find_next k board = none ↔
      ∀ r c, r < 9 → c < 9 → (board r c).value = 0 → 10 < (board r c).d.length := by
  unfold find_next
  rcases scan_spec k board allCells { min_remaining := 10, max_degree := -1, selected := none }
    with ⟨hq, hall⟩ | ⟨l1, s, l2, hl, hs0, hsb, hq, _, _⟩
  · rw [hq]
    simp only [true_iff]
    intro r c hr hc h0
    have h := hall (r, c) ((mem_allCells _).mpr ⟨hr, hc⟩) h0
    have hd := degree_nonneg k board r c hr hc
    simp only [remaining] at h
    omega
  · rw [hq]
    simp only [false_iff, reduceCtorEq]
    intro h
    have hm : s ∈ allCells := by rw [hl]; simp
    have hm2 := (mem_allCells s).mp hm
    have := h s.1 s.2 hm2.1 hm2.2 hs0
    simp only [remaining] at hsb
    omega

/-- What `find_next` returns when it returns a cell: an unassigned cell of the grid with at
most 10 candidates that beats every unassigned cell scanned before it strictly and is not
beaten by any unassigned cell scanned after it. -/
theorem find_next_some (k : Constraints) (board : Board) (s : Nat × Nat)
    (h : find_next k board = some s) :
    s.1 < 9 ∧ s.2 < 9 ∧ (board s.1 s.2).value = 0 ∧ (board s.1 s.2).d.length ≤ 10 ∧
    ∀ r c, r < 9 → c < 9 → (board r c).value = 0 →
      remaining board s < remaining board (r, c) ∨
      (remaining board s = remaining board (r, c) ∧
        (degree k board r c < degree k board s.1 s.2 ∨
          (degree k board r c = degree k board s.1 s.2 ∧
            (s.1 < r ∨ (s.1 = r ∧ s.2 ≤ c))))) := by
  unfold find_next at h
  rcases scan_spec k board allCells { min_remaining := 10, max_degree := -1, selected := none }
    with ⟨hq, _⟩ | ⟨l1, t, l2, hl, hs0, hsb, hq, h1, h2⟩
  · rw [hq] at h; simp at h
  · rw [hq] at h
    simp only [Option.some.injEq] at h
    subst h
    have hm : t ∈ allCells := by rw [hl]; simp
    have hm2 := (mem_allCells t).mp hm
    have hsort := allCells_sorted
    rw [hl, List.pairwise_append] at hsort
    have hafter := (List.pairwise_cons.mp hsort.2.1).1
    refine ⟨hm2.1, hm2.2, hs0, ?_, ?_⟩
    · simp only [remaining] at hsb; omega
    · intro r c hr hc h0
      have hmem : (r, c) ∈ l1 ++ t :: l2 := by rw [← hl]; exact (mem_allCells _).mpr ⟨hr, hc⟩
      rcases List.mem_append.mp hmem with hin | hin
      · have := h1 (r, c) hin h0
        simp only at this
        omega
      · rcases List.mem_cons.mp hin with heq | hin
        · right
          rw [← heq]
          simp
        · have hb := h2 (r, c) hin h0
          have ho := hafter (r, c) hin
          simp only at hb ho
          omega

/-- A statement about all cells of the grid, from its row-by-row form. -/
theorem grid_forall {P : Nat → Nat → Prop} (h : ∀ r, r < 9 → ∀ c, c < 9 → P r c) :
    ∀ r c, r < 9 → c < 9 → P r c :=
  fun r c hr hc => h r hr c hc

/-- C9: on a board with at least one unassigned cell in which every unassigned cell has at
most 9 candidates, `find_next` returns an unassigned cell of the grid whose candidate count
is minimal among the unassigned cells; among those of minimal count its degree (box cells
off its row and column, other cells of its row, other cells of its column, all unassigned,
plus its labelled in-grid edges) is maximal; among those tied on both it is the first in
row-major order. -/
theorem find_next_mrv_degree (k : Constraints) (board : Board)
    (hex : ∃ r c, r < 9 ∧ c < 9 ∧ (board r c).value = 0)
    (hlen : ∀ r c, r < 9 → c < 9 → (board r c).value = 0 → (board r c).d.length ≤ 9) :
    ∃ row col, find_next k board = some (row, col) ∧ row < 9 ∧ col < 9 ∧
      (board row col).value = 0 ∧
      (∀ r c, r < 9 → c < 9 → (board r c).value = 0 →
        (board row col).d.length ≤ (board r c).d.length) ∧
      (∀ r c, r < 9 → c < 9 → (board r c).value = 0 →
        (board r c).d.length = (board row col).d.length →
        degreeSpec k board r c ≤ degreeSpec k board row col) ∧
      (∀ r c, r < 9 → c < 9 → (board r c).value = 0 →
        (board r c).d.length = (board row col).d.length →
        degreeSpec k board r c = degreeSpec k board row col →
        row < r ∨ (row = r ∧ col ≤ c)) := by
  cases hfn : find_next k board with
  | none =>
    obtain ⟨r, c, hr, hc, h0⟩ := hex
    have := (find_next_none_iff k board).mp hfn r c hr hc h0
    have := hlen r c hr hc h0
    omega
  | some s =>
    obtain ⟨hs1, hs2, hs0, _, hbest⟩ := find_next_some k board s hfn
    refine ⟨s.1, s.2, rfl, hs1, hs2, hs0, ?_, ?_, ?_⟩
    · intro r c hr hc h0
      have := hbest r c hr hc h0
      simp only [remaining] at this
      omega
    · intro r c hr hc h0 hlen'
      have := hbest r c hr hc h0
      rw [degree_eq_spec k board r c hr hc, degree_eq_spec k board s.1 s.2 hs1 hs2] at this
      simp only [remaining] at this
      omega
    · intro r c hr hc h0 hlen' hdeg
      have := hbest r c hr hc h0
      rw [degree_eq_spec k board r c hr hc, degree_eq_spec k board s.1 s.2 hs1 hs2] at this
      simp only [remaining] at this
      omega

/-- Witness of C9 on the board built from `threeBlanksGrid`: the cell returned is (0,0). -/
theorem find_next_mrv_degree_witness :
    find_next noLabels (mainBoard (gridOf threeBlanksGrid)) = some (0, 0) ∧
    ∃ row col, find_next noLabels (mainBoard (gridOf threeBlanksGrid)) = some (row, col) ∧
      row < 9 ∧ col < 9 ∧
      (mainBoard (gridOf threeBlanksGrid) row col).value = 0 ∧
      (∀ r c, r < 9 → c < 9 → (mainBoard (gridOf threeBlanksGrid) r c).value = 0 →
        (mainBoard (gridOf threeBlanksGrid) row col).d.length ≤
          (mainBoard (gridOf threeBlanksGrid) r c).d.length) ∧
      (∀ r c, r < 9 → c < 9 → (mainBoard (gridOf threeBlanksGrid) r c).value = 0 →
        (mainBoard (gridOf threeBlanksGrid) r c).d.length =
          (mainBoard (gridOf threeBlanksGrid) row col).d.length →
        degreeSpec noLabels (mainBoard (gridOf threeBlanksGrid)) r c ≤
          degreeSpec noLabels (mainBoard (gridOf threeBlanksGrid)) row col) ∧
      (∀ r c, r < 9 → c < 9 → (mainBoard (gridOf threeBlanksGrid) r c).value = 0 →
        (mainBoard (gridOf threeBlanksGrid) r c).d.length =
          (mainBoard (gridOf threeBlanksGrid) row col).d.length →
        degreeSpec noLabels (mainBoard (gridOf threeBlanksGrid)) r c =
          degreeSpec noLabels (mainBoard (gridOf threeBlanksGrid)) row col →
        row < r ∨ (row = r ∧ col ≤ c)) :=
  ⟨by decide!, find_next_mrv_degree noLabels (mainBoard (gridOf threeBlanksGrid))
    ⟨0, 0, by decide, by decide, by decide!⟩ (grid_forall (by decide!))⟩

/-- C10 as stated fails: on `longDomainBoard` the cell (0,0) is unassigned, yet `find_next`
returns `{-1, -1}`. -/
theorem find_next_none_with_blank :
    find_next noLabels longDomainBoard = none ∧ (longDomainBoard 0 0).value = 0 ∧
    ¬ (find_next noLabels longDomainBoard = none ↔
        ∀ r c, r < 9 → c < 9 → (longDomainBoard r c).value ≠ 0) := by
  have h1 : find_next noLabels longDomainBoard = none := by decide!
  have h2 : (longDomainBoard 0 0).value = 0 := by decide!
  refine ⟨h1, h2, ?_⟩
  intro h
  exact (h.mp h1) 0 0 (by decide) (by decide) h2

/-- C10, amended: on a board in which every unassigned cell has at most 10 candidates,
`find_next` returns `{-1, -1}` exactly when no cell of the grid has value 0; and on every
board, a cell that it returns is a cell of the grid whose value is 0. -/
theorem find_next_completion (k : Constraints) (board : Board)
    (hlen : ∀ r c, r < 9 → c < 9 → (board r c).value = 0 → (board r c).d.length ≤ 10) :
    (find_next k board = none ↔ ∀ r c, r < 9 → c < 9 → (board r c).value ≠ 0) ∧
    (∀ s, find_next k board = some s → s.1 < 9 ∧ s.2 < 9 ∧ (board s.1 s.2).value = 0) := by
  constructor
  · rw [find_next_none_iff]
    constructor
    · intro h r c hr hc h0
      have := h r c hr hc h0
      have := hlen r c hr hc h0
      omega
    · intro h r c hr hc h0
      exact absurd h0 (h r c hr hc)
  · intro s hs
    obtain ⟨h1, h2, h3, _⟩ := find_next_some k board s hs
    exact ⟨h1, h2, h3⟩

/-- Witness of the amended C10 on the solved grid (no cell left) and its consequence. -/
theorem find_next_completion_witness :
    find_next noLabels (mainBoard (gridOf solvedGrid)) = none ∧
    ((find_next noLabels (mainBoard (gridOf solvedGrid)) = none ↔
        ∀ r c, r < 9 → c < 9 → (mainBoard (gridOf solvedGrid) r c).value ≠ 0) ∧
      (∀ s, find_next noLabels (mainBoard (gridOf solvedGrid)) = some s →
        s.1 < 9 ∧ s.2 < 9 ∧ (mainBoard (gridOf solvedGrid) s.1 s.2).value = 0)) :=
  ⟨by decide!, find_next_completion noLabels (mainBoard (gridOf solvedGrid))
    (grid_forall (by decide!))⟩

/-! ### The state changes of the search -/

@[simp] theorem setValue_value (board : Board) (r c : Nat) (v : Int) (i j : Nat) :
    (setValue board r c v i j).value = if i = r ∧ j = c then v else (board i j).value := by
  unfold setValue; split_ifs <;> rfl

@[simp] theorem setValue_d (board : Board) (r c : Nat) (v : Int) (i j : Nat) :
    (setValue board r c v i j).d = (board i j).d := by
  unfold setValue; split_ifs <;> rfl

@[simp] theorem setDomain_value (board : Board) (r c : Nat) (d : List Int) (i j : Nat) :
    (setDomain board r c d i j).value = (board i j).value := by
  unfold setDomain; split_ifs <;> rfl

@[simp] theorem setDomain_d (board : Board) (r c : Nat) (d : List Int) (i j : Nat) :
    (setDomain board r c d i j).d = if i = r ∧ j = c then d else (board i j).d := by
  unfold setDomain; split_ifs <;> rfl

theorem setValue_other (board : Board) (r c : Nat) (v : Int) (i j : Nat)
    (h : ¬ (i = r ∧ j = c)) : setValue board r c v i j = board i j := by
  unfold setValue; rw [if_neg h]

theorem setDomain_other (board : Board) (r c : Nat) (d : List Int) (i j : Nat)
    (h : ¬ (i = r ∧ j = c)) : setDomain board r c d i j = board i j := by
  unfold setDomain; rw [if_neg h]

theorem eraseVal_value (board : Board) (r c : Nat) (val : Int) (i j : Nat) :
    (eraseVal board r c val i j).value = (board i j).value := by
  unfold eraseVal; simp

theorem pruneCells_cons (val : Int) (rc : Nat × Nat) (rest : List (Nat × Nat))
    (board : Board) :
    pruneCells val (rc :: rest) board =
      if (board rc.1 rc.2).value = 0 then
        if ((eraseVal board rc.1 rc.2 val) rc.1 rc.2).d.isEmpty then
          (false, eraseVal board rc.1 rc.2 val)
        else pruneCells val rest (eraseVal board rc.1 rc.2 val)
      else pruneCells val rest board := rfl

/-- `forward_check` never writes a value. -/
theorem pruneCells_value (val : Int) (l : List (Nat × Nat)) (board : Board) (i j : Nat) :
    ((pruneCells val l board).2 i j).value = (board i j).value := by
  induction l generalizing board with
  | nil => rfl
  | cons rc rest ih =>
    rw [pruneCells_cons]
    split_ifs with h0 he
    · exact eraseVal_value _ _ _ _ _ _
    · rw [ih]; exact eraseVal_value _ _ _ _ _ _
    · exact ih _

/-- `forward_check` leaves every assigned cell as it is. -/
theorem pruneCells_assigned (val : Int) (l : List (Nat × Nat)) (board : Board) (i j : Nat)
    (h : (board i j).value ≠ 0) : (pruneCells val l board).2 i j = board i j := by
  induction l generalizing board with
  | nil => rfl
  | cons rc rest ih =>
    have hne : ∀ (_ : (board rc.1 rc.2).value = 0), ¬ (i = rc.1 ∧ j = rc.2) := by
      rintro h0 ⟨rfl, rfl⟩; exact h h0
    rw [pruneCells_cons]
    split_ifs with h0 he
    · exact setDomain_other _ _ _ _ _ _ (hne h0)
    · rw [ih]
      · exact setDomain_other _ _ _ _ _ _ (hne h0)
      · rw [eraseVal_value]; exact h
    · exact ih _ h

theorem forward_check_value (board : Board) (row col : Nat) (val : Int) (i j : Nat) :
    ((forward_check board row col val).2 i j).value = (board i j).value :=
  pruneCells_value _ _ _ _ _

theorem forward_check_assigned (board : Board) (row col : Nat) (val : Int) (i j : Nat)
    (h : (board i j).value ≠ 0) : (forward_check board row col val).2 i j = board i j :=
  pruneCells_assigned _ _ _ _ _ h

/-- The undo loop never writes a value. -/
theorem pushBack_value (val : Int) (l : List (Nat × Nat)) (board : Board) (i j : Nat) :
    ((pushBack val l board) i j).value = (board i j).value := by
  unfold pushBack
  induction l generalizing board with
  | nil => rfl
  | cons rc rest ih => rw [List.foldl_cons, ih]; simp

/-- The undo loop leaves the cells outside `neighbors` as they are. -/
theorem pushBack_other (val : Int) (l : List (Nat × Nat)) (board : Board) (i j : Nat)
    (h : (i, j) ∉ l) : (pushBack val l board) i j = board i j := by
  unfold pushBack
  induction l generalizing board with
  | nil => rfl
  | cons rc rest ih =>
    rw [List.foldl_cons, ih _ (fun hm => h (List.mem_cons_of_mem _ hm))]
    apply setDomain_other
    rintro ⟨rfl, rfl⟩
    exact h (List.mem_cons_self _ _)

theorem mem_collectNeighbors (board : Board) (row col : Nat) (rc : Nat × Nat)
    (h : rc ∈ collectNeighbors board row col) : (board rc.1 rc.2).value = 0 := by
  unfold collectNeighbors at h
  have := (List.mem_filter.mp h).2
  simpa using this

theorem tryValues_cons (k : Constraints) (search : Board → Option (Bool × Board))
    (row col : Nat) (val : Int) (rest : List Int) (board : Board) :
    tryValues k search row col (val :: rest) board =
      if validate k board row col val then
        if (forward_check board row col val).1 then
          match search (setValue (forward_check board row col val).2 row col val) with
          | none => none
          | some (true, board2) => some (true, board2)
          | some (false, board2) =>
            tryValues k search row col rest
              (pushBack val
                (collectNeighbors (setValue (forward_check board row col val).2 row col val)
                  row col)
                (setValue board2 row col 0))
        else
          tryValues k search row col rest
            (setValue (forward_check board row col val).2 row col 0)
      else tryValues k search row col rest board := rfl

/-- Rule induction over the executions of the candidate loop: `S` is the property wanted of
the recursive calls, `T` the property wanted of the loop run over the remaining values. -/
theorem tryValues_induction (k : Constraints) (search : Board → Option (Bool × Board))
    (row col : Nat)
    (S : Board → Bool → Board → Prop) (T : List Int → Board → Bool → Board → Prop)
    (hS : ∀ b res b', search b = some (res, b') → S b res b')
    (done : ∀ b, (b row col).value = 0 → T [] b false b)
    (skip : ∀ val rest b res b', (b row col).value = 0 →
      validate k b row col val = false → T rest b res b' → T (val :: rest) b res b')
    (fcfail : ∀ val rest b res b', (b row col).value = 0 →
      validate k b row col val = true → (forward_check b row col val).1 = false →
      T rest (setValue (forward_check b row col val).2 row col 0) res b' →
      T (val :: rest) b res b')
    (success : ∀ val rest b b', (b row col).value = 0 →
      validate k b row col val = true → (forward_check b row col val).1 = true →
      S (setValue (forward_check b row col val).2 row col val) true b' →
      T (val :: rest) b true b')
    (backtrack : ∀ val rest b board2 res b', (b row col).value = 0 →
      validate k b row col val = true → (forward_check b row col val).1 = true →
      S (setValue (forward_check b row col val).2 row col val) false board2 →
      T rest (pushBack val
        (collectNeighbors (setValue (forward_check b row col val).2 row col val) row col)
        (setValue board2 row col 0)) res b' →
      T (val :: rest) b res b') :
    ∀ vals b res b', (b row col).value = 0 →
      tryValues k search row col vals b = some (res, b') → T vals b res b' := by
  intro vals
  induction vals with
  | nil =>
    intro b res b' h0 h
    simp only [tryValues, Option.some.injEq, Prod.mk.injEq] at h
    obtain ⟨rfl, rfl⟩ := h
    exact done b h0
  | cons val rest ih =>
    intro b res b' h0 h
    rw [tryValues_cons] at h
    by_cases hv : validate k b row col val = true
    · rw [if_pos hv] at h
      by_cases hf : (forward_check b row col val).1 = true
      · rw [if_pos hf] at h
        cases hs : search (setValue (forward_check b row col val).2 row col val) with
        | none => rw [hs] at h; simp at h
        | some p =>
          obtain ⟨r2, board2⟩ := p
          rw [hs] at h
          cases r2 with
          | true =>
            simp only [Option.some.injEq, Prod.mk.injEq] at h
            obtain ⟨rfl, rfl⟩ := h
            exact success val rest b board2 h0 hv hf (hS _ _ _ hs)
          | false =>
            simp only at h
            refine backtrack val rest b board2 res b' h0 hv hf (hS _ _ _ hs) (ih _ _ _ ?_ h)
            rw [pushBack_value]; simp
      · rw [if_neg hf] at h
        refine fcfail val rest b res b' h0 hv (by simpa using hf) (ih _ _ _ ?_ h)
        simp
    · rw [if_neg hv] at h
      exact skip val rest b res b' h0 (by simpa using hv) (ih _ _ _ h0 h)

/-- Rule induction over the executions of `backtracking_search`. -/
theorem search_induction (k : Constraints)
    (S : Board → Bool → Board → Prop)
    (T : Nat → Nat → List Int → Board → Bool → Board → Prop)
    (solved : ∀ b, find_next k b = none → S b true b)
    (branch : ∀ b s res b', find_next k b = some s → s.1 < 9 → s.2 < 9 →
      (b s.1 s.2).value = 0 → T s.1 s.2 (b s.1 s.2).d b res b' → S b res b')
    (done : ∀ row col b, row < 9 → col < 9 → (b row col).value = 0 → T row col [] b false b)
    (skip : ∀ row col val rest b res b', row < 9 → col < 9 → (b row col).value = 0 →
      validate k b row col val = false → T row col rest b res b' →
      T row col (val :: rest) b res b')
    (fcfail : ∀ row col val rest b res b', row < 9 → col < 9 → (b row col).value = 0 →
      validate k b row col val = true → (forward_check b row col val).1 = false →
      T row col rest (setValue (forward_check b row col val).2 row col 0) res b' →
      T row col (val :: rest) b res b')
    (success : ∀ row col val rest b b', row < 9 → col < 9 → (b row col).value = 0 →
      validate k b row col val = true → (forward_check b row col val).1 = true →
      S (setValue (forward_check b row col val).2 row col val) true b' →
      T row col (val :: rest) b true b')
    (backtrack : ∀ row col val rest b board2 res b', row < 9 → col < 9 →
      (b row col).value = 0 →
      validate k b row col val = true → (forward_check b row col val).1 = true →
      S (setValue (forward_check b row col val).2 row col val) false board2 →
      T row col rest (pushBack val
        (collectNeighbors (setValue (forward_check b row col val).2 row col val) row col)
        (setValue board2 row col 0)) res b' →
      T row col (val :: rest) b res b') :
    ∀ fuel b res b', backtracking_search k fuel b = some (res, b') → S b res b' := by
  intro fuel
  induction fuel with
  | zero => intro b res b' h; simp [backtracking_search] at h
  | succ fuel ih =>
    intro b res b' h
    unfold backtracking_search at h
    cases hfn : find_next k b with
    | none =>
      rw [hfn] at h
      simp only [Option.some.injEq, Prod.mk.injEq] at h
      obtain ⟨rfl, rfl⟩ := h
      exact solved b hfn
    | some s =>
      rw [hfn] at h
      simp only at h
      obtain ⟨hs1, hs2, hs0, _⟩ := find_next_some k b s hfn
      refine branch b s res b' hfn hs1 hs2 hs0 ?_
      exact tryValues_induction k (backtracking_search k fuel) s.1 s.2 S (T s.1 s.2) ih
        (done s.1 s.2 · hs1 hs2) (skip s.1 s.2 · · · · · hs1 hs2)
        (fcfail s.1 s.2 · · · · · hs1 hs2) (success s.1 s.2 · · · · hs1 hs2)
        (backtrack s.1 s.2 · · · · · · hs1 hs2) _ b res b' hs0 h

/-! ### Frame properties of `backtracking_search` -/

/-- A failed search leaves every value as it was. -/
theorem search_fail_value (k : Constraints) :
    ∀ fuel b res b', backtracking_search k fuel b = some (res, b') →
      res = false → ∀ i j, (b' i j).value = (b i j).value := by
  refine search_induction k (fun b res b' => res = false → ∀ i j, (b' i j).value = (b i j).value)
    (fun _ _ _ b res b' => res = false → ∀ i j, (b' i j).value = (b i j).value)
    ?_ ?_ ?_ ?_ ?_ ?_ ?_
  · intro b _ h; simp at h
  · intro b s res b' _ _ _ _ h; exact h
  · intro row col b _ _ _ _ i j; rfl
  · intro row col val rest b res b' _ _ _ _ h; exact h
  · intro row col val rest b res b' _ _ h0 _ _ h hres i j
    rw [h hres i j, setValue_value, forward_check_value]
    split_ifs with hc
    · rw [hc.1, hc.2, h0]
    · rfl
  · intro row col val rest b b' _ _ _ _ _ _ h; simp at h
  · intro row col val rest b board2 res b' _ _ h0 _ _ hS h hres i j
    rw [h hres i j, pushBack_value, setValue_value]
    split_ifs with hc
    · rw [hc.1, hc.2, h0]
    · rw [hS rfl i j, setValue_value, if_neg hc, forward_check_value]

/-- A search leaves every cell that was assigned before it as it was. -/
theorem search_assigned_frame (k : Constraints) :
    ∀ fuel b res b', backtracking_search k fuel b = some (res, b') →
      ∀ i j, (b i j).value ≠ 0 → b' i j = b i j := by
  refine search_induction k (fun b _ b' => ∀ i j, (b i j).value ≠ 0 → b' i j = b i j)
    (fun _ _ _ b _ b' => ∀ i j, (b i j).value ≠ 0 → b' i j = b i j)
    ?_ ?_ ?_ ?_ ?_ ?_ ?_
  · intro b _ i j _; rfl
  · intro b s res b' _ _ _ _ h; exact h
  · intro row col b _ _ _ i j _; rfl
  · intro row col val rest b res b' _ _ _ _ h; exact h
  · intro row col val rest b res b' _ _ h0 _ _ h i j hij
    have hne : ¬ (i = row ∧ j = col) := by rintro ⟨rfl, rfl⟩; exact hij h0
    have e1 : setValue (forward_check b row col val).2 row col 0 i j = b i j := by
      rw [setValue_other _ _ _ _ _ _ hne, forward_check_assigned _ _ _ _ _ _ hij]
    rw [h i j (by rw [e1]; exact hij), e1]
  · intro row col val rest b b' _ _ h0 _ _ h i j hij
    have hne : ¬ (i = row ∧ j = col) := by rintro ⟨rfl, rfl⟩; exact hij h0
    have e1 : setValue (forward_check b row col val).2 row col val i j = b i j := by
      rw [setValue_other _ _ _ _ _ _ hne, forward_check_assigned _ _ _ _ _ _ hij]
    rw [h i j (by rw [e1]; exact hij), e1]
  · intro row col val rest b board2 res b' _ _ h0 _ _ hS h i j hij
    have hne : ¬ (i = row ∧ j = col) := by rintro ⟨rfl, rfl⟩; exact hij h0
    have e1 : setValue (forward_check b row col val).2 row col val i j = b i j := by
      rw [setValue_other _ _ _ _ _ _ hne, forward_check_assigned _ _ _ _ _ _ hij]
    have e2 : board2 i j = b i j := by rw [hS i j (by rw [e1]; exact hij), e1]
    have e3 : pushBack val
        (collectNeighbors (setValue (forward_check b row col val).2 row col val) row col)
        (setValue board2 row col 0) i j = b i j := by
      rw [pushBack_other, setValue_other _ _ _ _ _ _ hne, e2]
      intro hm
      have := mem_collectNeighbors _ _ _ _ hm
      simp only at this
      rw [e1] at this
      exact hij this
    rw [h i j (by rw [e3]; exact hij), e3]

/-! ### Evaluation on tables computes the functions of the program -/

theorem getD_padSet {α : Type} (dflt : α) (l : List α) (n : Nat) (f : α → α) (m : Nat) :
    (padSet dflt l n f).getD m dflt = if m = n then f (l.getD n dflt) else l.getD m dflt := by
  induction l generalizing n m with
  | nil =>
    induction n generalizing m with
    | zero => cases m <;> simp [padSet]
    | succ n ih =>
      cases m with
      | zero => simp [padSet]
      | succ m => simpa [padSet] using ih m
  | cons a l ih =>
    cases n with
    | zero => cases m <;> simp [padSet]
    | succ n =>
      cases m with
      | zero => simp [padSet]
      | succ m => simpa [padSet] using ih n m

theorem boardOf_modifyCell (t : List (List Cell)) (r c : Nat) (f : Cell → Cell) :
    boardOf (modifyCell t r c f) =
      fun i j => if i = r ∧ j = c then f (boardOf t i j) else boardOf t i j := by
  funext i j
  unfold boardOf modifyCell
  rw [getD_padSet]
  by_cases hi : i = r
  · subst hi
    rw [if_pos rfl, getD_padSet]
    by_cases hj : j = c
    · subst hj; simp
    · simp [hj]
  · simp [hi]

theorem boardOf_setValue (t : List (List Cell)) (r c : Nat) (v : Int) :
    boardOf (modifyCell t r c (fun x => { x with value := v })) = setValue (boardOf t) r c v := by
  rw [boardOf_modifyCell]; rfl

theorem boardOf_eraseVal (t : List (List Cell)) (r c : Nat) (val : Int) :
    boardOf (modifyCell t r c (fun x => { x with d := x.d.filter (fun y => y != val) })) =
      eraseVal (boardOf t) r c val := by
  rw [boardOf_modifyCell]
  funext i j
  unfold eraseVal setDomain
  by_cases h : i = r ∧ j = c
  · obtain ⟨rfl, rfl⟩ := h; simp
  · simp [h]

theorem boardOf_pushOne (t : List (List Cell)) (r c : Nat) (val : Int) :
    boardOf (modifyCell t r c (fun x => { x with d := x.d ++ [val] })) =
      setDomain (boardOf t) r c ((boardOf t r c).d ++ [val]) := by
  rw [boardOf_modifyCell]
  funext i j
  unfold setDomain
  by_cases h : i = r ∧ j = c
  · obtain ⟨rfl, rfl⟩ := h; simp
  · simp [h]

theorem pruneCellsT_eq (val : Int) (l : List (Nat × Nat)) (t : List (List Cell)) :
    ((pruneCellsT val l t).1, boardOf (pruneCellsT val l t).2) =
      pruneCells val l (boardOf t) := by
  induction l generalizing t with
  | nil => rfl
  | cons rc rest ih =>
    rw [pruneCells_cons]
    unfold pruneCellsT
    simp only [boardOf_eraseVal]
    split_ifs with h0 he
    · simp only [boardOf_eraseVal]
    · rw [ih, boardOf_eraseVal]
    · exact ih t

theorem pushBackT_eq (val : Int) (l : List (Nat × Nat)) (t : List (List Cell)) :
    boardOf (pushBackT val l t) = pushBack val l (boardOf t) := by
  unfold pushBackT pushBack
  induction l generalizing t with
  | nil => rfl
  | cons rc rest ih => rw [List.foldl_cons, List.foldl_cons, ih, boardOf_pushOne]

/-- The board part of a result on tables, read as a board. -/
theorem tryValuesT_eq (k : Constraints)
    (searchT' : List (List Cell) → Option (Bool × List (List Cell)))
    (search : Board → Option (Bool × Board))
    (hs : ∀ t, (searchT' t).map (fun p => (p.1, boardOf p.2)) = search (boardOf t))
    (row col : Nat) (vals : List Int) (t : List (List Cell)) :
    (tryValuesT k searchT' row col vals t).map (fun p => (p.1, boardOf p.2)) =
      tryValues k search row col vals (boardOf t) := by
  induction vals generalizing t with
  | nil => rfl
  | cons val rest ih =>
    rw [tryValues_cons]
    unfold tryValuesT
    have hfc := pruneCellsT_eq val (lineCells row col ++ boxCells row col) t
    have hfc1 : (pruneCellsT val (lineCells row col ++ boxCells row col) t).1 =
        (forward_check (boardOf t) row col val).1 := congrArg Prod.fst hfc
    have hfc2 : boardOf (pruneCellsT val (lineCells row col ++ boxCells row col) t).2 =
        (forward_check (boardOf t) row col val).2 := congrArg Prod.snd hfc
    simp only [hfc1]
    split_ifs with hv hf
    · have hb : boardOf (modifyCell (pruneCellsT val (lineCells row col ++ boxCells row col) t).2
          row col (fun x => { x with value := val })) =
          setValue (forward_check (boardOf t) row col val).2 row col val := by
        rw [boardOf_setValue, hfc2]
      rw [← hb, ← hs]
      cases hst : searchT' (modifyCell (pruneCellsT val (lineCells row col ++ boxCells row col) t).2
          row col (fun x => { x with value := val })) with
      | none => simp
      | some p =>
        obtain ⟨r2, t2⟩ := p
        cases r2 with
        | true => simp
        | false =>
          simp only [Option.map_some']
          rw [ih, pushBackT_eq]
          simp only [boardOf_setValue]
    · rw [ih, boardOf_setValue, hfc2]
    · exact ih t

theorem searchT_eq (k : Constraints) (fuel : Nat) (t : List (List Cell)) :
    (searchT k fuel t).map (fun p => (p.1, boardOf p.2)) =
      backtracking_search k fuel (boardOf t) := by
  induction fuel generalizing t with
  | zero => rfl
  | succ fuel ih =>
    unfold searchT backtracking_search
    cases hfn : find_next k (boardOf t) with
    | none => simp
    | some s =>
      simp only
      exact tryValuesT_eq k (searchT k fuel) (backtracking_search k fuel) ih _ _ _ t

/-- A run evaluated on tables is a run of `backtracking_search`. -/
theorem search_of_searchT (k : Constraints) (fuel : Nat) (t t' : List (List Cell)) (res : Bool)
    (h : searchT k fuel t = some (res, t')) :
    backtracking_search k fuel (boardOf t) = some (res, boardOf t') := by
  rw [← searchT_eq, h]; rfl

theorem mainBoard_gridOf (l : List (List Int)) : mainBoard (gridOf l) = boardOf (cellsOf l) := by
  funext i j
  have h1 : ∀ (row : List Int) (j : Nat),
      (row.map inputCell).getD j blankCell = inputCell (row.getD j 0) := by
    intro row
    induction row with
    | nil => intro j; simp [inputCell]
    | cons a row ih =>
      intro j
      cases j with
      | zero => rfl
      | succ j => simp only [List.map_cons, List.getD_cons_succ]; exact ih j
  have h2 : ∀ (l : List (List Int)) (i : Nat),
      ((l.map (fun row => row.map inputCell)).getD i []) = (l.getD i []).map inputCell := by
    intro l
    induction l with
    | nil => intro i; simp
    | cons a l ih =>
      intro i
      cases i with
      | zero => rfl
      | succ i => simp only [List.map_cons, List.getD_cons_succ]; exact ih i
  unfold mainBoard gridOf boardOf cellsOf
  rw [h2, h1]
  unfold inputCell blankCell
  rfl

/-! ### Soundness -/

theorem edgeOK_symm (label a b : Int) (h : edgeOK label a b) : edgeOK label b a := by
  unfold edgeOK at *
  refine ⟨fun h1 => ?_, fun h2 => ?_⟩
  · have := h.1 h1
    rw [abs_sub_comm]; exact this
  · exact (h.2 h2).symm

/-- Writing a value that `validate` accepts into an unassigned cell keeps invariants 1 and
2. -/
theorem consistent_assign (k : Constraints) (board : Board) (row col : Nat) (val : Int)
    (hrow : row < 9) (hcol : col < 9)
    (hv : validate k board row col val = true)
    (hc : Consistent k (values board)) :
    Consistent k (fun i j => if i = row ∧ j = col then val else values board i j) := by
  rw [validate_true_iff, box_scan_iff] at hv
  obtain ⟨hbox, hline, hup, hdown, hleft, hright⟩ := hv
  have hpeer : ∀ r c, r < 9 → c < 9 → sharesUnit row col r c → (board r c).value ≠ val := by
    intro r c hr hc' hs
    rcases hs with h | h | h
    · subst h; exact (hline c hc').1
    · subst h; exact (hline r hr).2
    · exact hbox r c h.1.symm h.2.symm
  constructor
  · intro r1 c1 r2 c2 h1 h2 h3 h4 hne hs hnz
    simp only at hnz ⊢
    by_cases e1 : r1 = row ∧ c1 = col
    · obtain ⟨rfl, rfl⟩ := e1
      rw [if_pos ⟨rfl, rfl⟩]
      have e2 : ¬ (r2 = r1 ∧ c2 = c1) := fun h => hne ⟨h.1.symm, h.2.symm⟩
      rw [if_neg e2]
      exact fun h => hpeer r2 c2 h3 h4 hs h.symm
    · rw [if_neg e1] at hnz ⊢
      by_cases e2 : r2 = row ∧ c2 = col
      · obtain ⟨rfl, rfl⟩ := e2
        rw [if_pos ⟨rfl, rfl⟩]
        have hs' : sharesUnit r2 c2 r1 c1 := by
          rcases hs with h | h | h
          · exact Or.inl h.symm
          · exact Or.inr (Or.inl h.symm)
          · exact Or.inr (Or.inr ⟨h.1.symm, h.2.symm⟩)
        exact hpeer r1 c1 h1 h2 hs'
      · rw [if_neg e2]
        exact hc.1 r1 c1 r2 c2 h1 h2 h3 h4 hne hs hnz
  · constructor
    · intro r c hr hc' hnz1 hnz2
      simp only at hnz1 hnz2 ⊢
      by_cases e1 : r = row ∧ c = col
      · obtain ⟨rfl, rfl⟩ := e1
        have e2 : ¬ (r = r ∧ c + 1 = c) := by omega
        have f1 : (if r = r ∧ c = c then val else values board r c) = val := if_pos ⟨rfl, rfl⟩
        have f2 : (if r = r ∧ c + 1 = c then val else values board r (c + 1)) =
            values board r (c + 1) := if_neg e2
        rw [f2] at hnz2
        rw [f1, f2]
        exact edgeOK_symm _ _ _ (hright hc' hnz2)
      · by_cases e2 : r = row ∧ c + 1 = col
        · obtain ⟨rfl, rfl⟩ := e2
          rw [if_neg e1, if_pos ⟨rfl, rfl⟩] at *
          have := hleft (by omega) (by simpa [values] using hnz1)
          simpa [values] using this
        · rw [if_neg e1, if_neg e2] at *
          exact hc.2.1 r c hr hc' hnz1 hnz2
    · intro r c hr hc' hnz1 hnz2
      simp only at hnz1 hnz2 ⊢
      by_cases e1 : r = row ∧ c = col
      · obtain ⟨rfl, rfl⟩ := e1
        have e2 : ¬ (r + 1 = r ∧ c = c) := by omega
        have f1 : (if r = r ∧ c = c then val else values board r c) = val := if_pos ⟨rfl, rfl⟩
        have f2 : (if r + 1 = r ∧ c = c then val else values board (r + 1) c) =
            values board (r + 1) c := if_neg e2
        rw [f2] at hnz2
        rw [f1, f2]
        exact edgeOK_symm _ _ _ (hdown hr hnz2)
      · by_cases e2 : r + 1 = row ∧ c = col
        · obtain ⟨rfl, rfl⟩ := e2
          rw [if_neg e1, if_pos ⟨rfl, rfl⟩] at *
          have := hup (by omega) (by simpa [values] using hnz1)
          simpa [values] using this
        · rw [if_neg e1, if_neg e2] at *
          exact hc.2.2 r c hr hc' hnz1 hnz2

/-- Resetting a cell to 0 keeps invariants 1 and 2. -/
theorem consistent_unassign (k : Constraints) (v : Nat → Nat → Int) (row col : Nat)
    (hc : Consistent k v) :
    Consistent k (fun i j => if i = row ∧ j = col then 0 else v i j) := by
  constructor
  · intro r1 c1 r2 c2 h1 h2 h3 h4 hne hs hnz
    simp only at hnz ⊢
    by_cases e1 : r1 = row ∧ c1 = col
    · rw [if_pos e1] at hnz; exact absurd rfl hnz
    · rw [if_neg e1] at hnz ⊢
      by_cases e2 : r2 = row ∧ c2 = col
      · rw [if_pos e2]; exact hnz
      · rw [if_neg e2]; exact hc.1 r1 c1 r2 c2 h1 h2 h3 h4 hne hs hnz
  · constructor
    · intro r c hr hc' hnz1 hnz2
      simp only at hnz1 hnz2 ⊢
      by_cases e1 : r = row ∧ c = col
      · rw [if_pos e1] at hnz1; exact absurd rfl hnz1
      · by_cases e2 : r = row ∧ c + 1 = col
        · rw [if_pos e2] at hnz2; exact absurd rfl hnz2
        · rw [if_neg e1, if_neg e2] at *
          exact hc.2.1 r c hr hc' hnz1 hnz2
    · intro r c hr hc' hnz1 hnz2
      simp only at hnz1 hnz2 ⊢
      by_cases e1 : r = row ∧ c = col
      · rw [if_pos e1] at hnz1; exact absurd rfl hnz1
      · by_cases e2 : r + 1 = row ∧ c = col
        · rw [if_pos e2] at hnz2; exact absurd rfl hnz2
        · rw [if_neg e1, if_neg e2] at *
          exact hc.2.2 r c hr hc' hnz1 hnz2

theorem values_setValue (board : Board) (r c : Nat) (v : Int) :
    values (setValue board r c v) = fun i j => if i = r ∧ j = c then v else values board i j := by
  funext i j; simp [values]

theorem values_forward_check (board : Board) (row col : Nat) (val : Int) :
    values (forward_check board row col val).2 = values board := by
  funext i j; simp [values, forward_check_value]

theorem values_pushBack (val : Int) (l : List (Nat × Nat)) (board : Board) :
    values (pushBack val l board) = values board := by
  funext i j; simp [values, pushBack_value]

theorem values_reset (board : Board) (row col : Nat) (h0 : (board row col).value = 0) :
    (fun i j => if i = row ∧ j = col then 0 else values board i j) = values board := by
  funext i j
  by_cases e : i = row ∧ j = col
  · obtain ⟨rfl, rfl⟩ := e; simp [values, h0]
  · simp [e]

/-- A search started on a board that satisfies invariants 1 and 2 ends on such a board. -/
theorem search_consistent (k : Constraints) :
    ∀ fuel b res b', backtracking_search k fuel b = some (res, b') →
      Consistent k (values b) → Consistent k (values b') := by
  refine search_induction k
    (fun b _ b' => Consistent k (values b) → Consistent k (values b'))
    (fun _ _ _ b _ b' => Consistent k (values b) → Consistent k (values b'))
    ?_ ?_ ?_ ?_ ?_ ?_ ?_
  · intro b _ h; exact h
  · intro b s res b' _ _ _ _ h; exact h
  · intro row col b _ _ _ h; exact h
  · intro row col val rest b res b' _ _ _ _ h; exact h
  · intro row col val rest b res b' _ _ h0 _ _ h hc
    apply h
    rw [values_setValue, values_forward_check, values_reset b row col h0]
    exact hc
  · intro row col val rest b b' hr hcl _ hv _ h hc
    apply h
    rw [values_setValue, values_forward_check]
    exact consistent_assign k b row col val hr hcl hv hc
  · intro row col val rest b board2 res b' hr hcl _ hv _ hS h hc
    apply h
    rw [values_pushBack, values_setValue]
    apply consistent_unassign
    apply hS
    rw [values_setValue, values_forward_check]
    exact consistent_assign k b row col val hr hcl hv hc

/-! ### The search returns -/

theorem allCells_nodup : allCells.Nodup := by decide

theorem countP_change_one {α : Type} [DecidableEq α] (p q : α → Bool) (x : α) :
    ∀ l : List α, l.Nodup → x ∈ l → p x = true → q x = false →
      (∀ y, y ≠ x → p y = q y) → l.countP q + 1 = l.countP p := by
  intro l
  induction l with
  | nil => intro _ hx; simp at hx
  | cons a l ih =>
    intro hnd hx hp hq hrest
    have hnd' := List.nodup_cons.mp hnd
    by_cases hax : a = x
    · subst hax
      have hsame : l.countP q = l.countP p := by
        apply List.countP_congr
        intro y hy
        have hne : y ≠ a := fun h => hnd'.1 (h ▸ hy)
        rw [hrest y hne]
      rw [List.countP_cons_of_pos _ _ hp, List.countP_cons_of_neg _ _ (by simp [hq]), hsame]
    · have hx' : x ∈ l := by
        rcases List.mem_cons.mp hx with h | h
        · exact absurd h.symm hax
        · exact h
      have := ih hnd'.2 hx' hp hq hrest
      simp only [List.countP_cons, hrest a hax]
      omega

/-- A value accepted by `validate` for an unassigned cell is not 0. -/
theorem validate_ne_zero (k : Constraints) (board : Board) (row col : Nat) (val : Int)
    (hcol : col < 9) (h0 : (board row col).value = 0)
    (hv : validate k board row col val = true) : val ≠ 0 := by
  have := ((validate_true_iff k board row col val).mp hv).2.1 col hcol
  intro h
  exact this.1 (by rw [h0, h])

/-- Assigning a nonzero value to an unassigned cell of the grid leaves one unassigned cell
fewer. -/
theorem unassigned_assign (v : Nat → Nat → Int) (row col : Nat) (val : Int)
    (hrow : row < 9) (hcol : col < 9) (h0 : v row col = 0) (hval : val ≠ 0) :
    unassigned (fun i j => if i = row ∧ j = col then val else v i j) + 1 = unassigned v := by
  unfold unassigned
  apply countP_change_one _ _ (row, col) allCells allCells_nodup
    ((mem_allCells _).mpr ⟨hrow, hcol⟩)
  · simp [h0]
  · simp [hval]
  · intro y hy
    have : ¬ (y.1 = row ∧ y.2 = col) := fun h => hy (Prod.ext h.1 h.2)
    simp [this]

/-- With more fuel than unassigned cells, `backtracking_search` returns. -/
theorem search_returns (k : Constraints) :
    ∀ fuel b, unassigned (values b) < fuel →
      ∃ res b', backtracking_search k fuel b = some (res, b') := by
  intro fuel
  induction fuel with
  | zero => intro b h; omega
  | succ fuel ih =>
    intro b hb
    unfold backtracking_search
    cases hfn : find_next k b with
    | none => exact ⟨true, b, rfl⟩
    | some s =>
      simp only
      obtain ⟨hs1, hs2, hs0, _⟩ := find_next_some k b s hfn
      have loop : ∀ vals b1, values b1 = values b →
          ∃ res b', tryValues k (backtracking_search k fuel) s.1 s.2 vals b1 = some (res, b') := by
        intro vals
        induction vals with
        | nil => intro b1 _; exact ⟨false, b1, rfl⟩
        | cons val rest ihl =>
          intro b1 hb1
          have h10 : (b1 s.1 s.2).value = 0 := by
            have := congrFun (congrFun hb1 s.1) s.2
            simp only [values] at this
            rw [this]; exact hs0
          rw [tryValues_cons]
          by_cases hv : validate k b1 s.1 s.2 val = true
          · rw [if_pos hv]
            by_cases hf : (forward_check b1 s.1 s.2 val).1 = true
            · rw [if_pos hf]
              have hval := validate_ne_zero k b1 s.1 s.2 val hs2 h10 hv
              have hcnt : unassigned
                  (values (setValue (forward_check b1 s.1 s.2 val).2 s.1 s.2 val)) < fuel := by
                rw [values_setValue, values_forward_check]
                have := unassigned_assign (values b1) s.1 s.2 val hs1 hs2 h10 hval
                rw [hb1] at this ⊢
                omega
              obtain ⟨r2, board2, hs⟩ := ih _ hcnt
              rw [hs]
              cases r2 with
              | true => exact ⟨true, board2, rfl⟩
              | false =>
                simp only
                apply ihl
                rw [values_pushBack, values_setValue]
                have h2 : values board2 =
                    values (setValue (forward_check b1 s.1 s.2 val).2 s.1 s.2 val) := by
                  funext i j
                  exact search_fail_value k fuel _ false board2 hs rfl i j
                rw [h2, values_setValue, values_forward_check, ← hb1]
                funext i j
                by_cases e : i = s.1 ∧ j = s.2
                · obtain ⟨rfl, rfl⟩ := e; simp [values, h10]
                · simp [e]
            · rw [if_neg hf]
              apply ihl
              rw [values_setValue, values_forward_check, values_reset b1 s.1 s.2 h10, hb1]
          · rw [if_neg hv]
            exact ihl b1 hb1
      exact loop _ b rfl

/-- With fuel 82, `backtracking_search` returns on every board. -/
theorem search_returns_82 (k : Constraints) (b : Board) :
    ∃ res b', backtracking_search k 82 b = some (res, b') := by
  apply search_returns
  unfold unassigned
  have h := List.countP_le_length (fun rc : Nat × Nat => decide (values b rc.1 rc.2 = 0))
    (l := allCells)
  have hl : allCells.length = 81 := by decide
  omega

/-- A result of the candidate loop is kept when the recursive call is replaced by one that
returns at least the same results. -/
theorem tryValues_mono (k : Constraints) (search search' : Board → Option (Bool × Board))
    (h : ∀ b r, search b = some r → search' b = some r) (row col : Nat) :
    ∀ vals b r, tryValues k search row col vals b = some r →
      tryValues k search' row col vals b = some r := by
  intro vals
  induction vals with
  | nil => intro b r hr; exact hr
  | cons val rest ih =>
    intro b r hr
    rw [tryValues_cons] at hr ⊢
    split_ifs at hr ⊢ with hv hf
    · cases hs : search (setValue (forward_check b row col val).2 row col val) with
      | none => rw [hs] at hr; simp at hr
      | some p =>
        rw [hs] at hr
        rw [h _ _ hs]
        obtain ⟨r2, board2⟩ := p
        cases r2 with
        | true => exact hr
        | false => exact ih _ _ hr
    · exact ih _ _ hr
    · exact ih _ _ hr

/-- A result of `backtracking_search` does not depend on the fuel that was enough for it. -/
theorem search_fuel_succ (k : Constraints) :
    ∀ fuel b r, backtracking_search k fuel b = some r →
      backtracking_search k (fuel + 1) b = some r := by
  intro fuel
  induction fuel with
  | zero => intro b r h; simp [backtracking_search] at h
  | succ fuel ih =>
    intro b r h
    unfold backtracking_search at h ⊢
    cases hfn : find_next k b with
    | none => rw [hfn] at h; exact h
    | some s =>
      rw [hfn] at h
      simp only at h ⊢
      exact tryValues_mono k _ _ ih _ _ _ _ _ h

/-! ### Concrete runs -/

theorem values_mainBoard (g : Nat → Nat → Int) : values (mainBoard g) = g := by
  funext i j
  unfold values mainBoard
  by_cases h : g i j = 0
  · simp [h]
  · simp [h]

/-- A run on a puzzle given as a table, from its evaluation on tables. -/
theorem run_of_table (k : Constraints) (fuel : Nat) (l : List (List Int))
    (t' : List (List Cell)) (res : Bool) (h : searchT k fuel (cellsOf l) = some (res, t')) :
    backtracking_search k fuel (mainBoard (gridOf l)) = some (res, boardOf t') := by
  rw [mainBoard_gridOf]; exact search_of_searchT k fuel _ _ res h

theorem threeBlanks_run :
    backtracking_search noLabels 82 (mainBoard (gridOf threeBlanksGrid)) =
      some (true, boardOf threeBlanksFinal) :=
  run_of_table _ _ _ _ _ (by decide!)

theorem twoOnes_run :
    backtracking_search noLabels 82 (mainBoard (gridOf twoOnesGrid)) =
      some (true, boardOf (cellsOf twoOnesGrid)) :=
  run_of_table _ _ _ _ _ (by decide!)

theorem twoNines_run :
    backtracking_search noLabels 82 (mainBoard (gridOf twoNinesGrid)) =
      some (true, boardOf twoNinesFinal) :=
  run_of_table _ _ _ _ _ (by decide!)

theorem leak_run :
    backtracking_search leakLabels 82 (mainBoard (gridOf leakGrid)) =
      some (false, boardOf leakFinal) :=
  run_of_table _ _ _ _ _ (by decide!)

theorem unfilled_run :
    backtracking_search unfilledLabels 82 (mainBoard (gridOf unfilledGrid)) =
      some (true, boardOf unfilledFinal) :=
  run_of_table _ _ _ _ _ (by decide!)

/-- Invariants 1 and 2 from a form that is decidable on a concrete grid. -/
theorem consistent_of_check (k : Constraints) (v : Nat → Nat → Int)
    (h1 : ∀ a ∈ allCells, ∀ b ∈ allCells, ¬ (a.1 = b.1 ∧ a.2 = b.2) →
      sharesUnit a.1 a.2 b.1 b.2 → v a.1 a.2 ≠ 0 → v a.1 a.2 ≠ v b.1 b.2)
    (h2 : ∀ r, r < 9 → ∀ c, c < 8 → v r c ≠ 0 → v r (c + 1) ≠ 0 →
      edgeOK (k.hConstraints r c) (v r c) (v r (c + 1)))
    (h3 : ∀ r, r < 8 → ∀ c, c < 9 → v r c ≠ 0 → v (r + 1) c ≠ 0 →
      edgeOK (k.vConstraints r c) (v r c) (v (r + 1) c)) :
    Consistent k v :=
  ⟨fun r1 c1 r2 c2 a b c d =>
      h1 (r1, c1) ((mem_allCells _).mpr ⟨a, b⟩) (r2, c2) ((mem_allCells _).mpr ⟨c, d⟩),
   fun r c a b => h2 r a c b, fun r c a b => h3 r a c b⟩

theorem threeBlanks_consistent : Consistent noLabels (gridOf threeBlanksGrid) :=
  consistent_of_check _ _ (by decide!) (by decide!) (by decide!)

theorem leak_consistent : Consistent leakLabels (gridOf leakGrid) :=
  consistent_of_check _ _ (by decide!) (by decide!) (by decide!)

theorem leakSolution_isSolution :
    IsSolution leakLabels (gridOf leakGrid) (gridOf leakSolution) :=
  ⟨grid_forall (by decide!), consistent_of_check _ _ (by decide!) (by decide!) (by decide!)⟩

/-- One step that shows how a pruning is lost. On `narrowRowTable` the search selects (0,0)
and tries 1; `forward_check` removes 1 from (0,1), then empties (0,2) and returns false.
Nothing was recorded in `neighbors`, so nothing is put back, and the search returns false
with both domains changed. -/
theorem narrowRow_run :
    backtracking_search noLabels 82 (boardOf narrowRowTable) =
      some (false, boardOf narrowRowAfter) ∧
    (boardOf narrowRowTable 0 1).d = [1, 2] ∧ (boardOf narrowRowAfter 0 1).d = [2] ∧
    (boardOf narrowRowTable 0 2).d = [1] ∧ (boardOf narrowRowAfter 0 2).d = [] :=
  ⟨search_of_searchT _ _ _ _ _ (by decide!), by decide!, by decide!, by decide!, by decide!⟩

/-! ### The claims on `backtracking_search` -/

/-- C1 as stated fails: on the grid `twoOnesGrid`, which has no blank cell and two 1s given
in row 0, `backtracking_search` returns true and the resulting grid violates invariant 1. -/
theorem sound_fails_on_conflicting_givens :
    InputShape noLabels (gridOf twoOnesGrid) ∧
    backtracking_search noLabels 82 (mainBoard (gridOf twoOnesGrid)) =
      some (true, boardOf (cellsOf twoOnesGrid)) ∧
    ¬ Invariant1 (values (boardOf (cellsOf twoOnesGrid))) := by
  refine ⟨by decide!, twoOnes_run, fun h => ?_⟩
  exact h 0 0 0 1 (by decide) (by decide) (by decide) (by decide) (by decide)
    (Or.inl rfl) (by decide!) (by decide!)

/-- C1, amended: for every puzzle whose givens satisfy invariants 1 and 2 among
themselves, if `backtracking_search` returns true on the board built by `main` then in the
resulting grid no two cells sharing a row, a column or a box hold the same nonzero value and
every edge with both endpoints assigned satisfies the relation of its label. -/
theorem search_sound (k : Constraints) (g : Nat → Nat → Int) (fuel : Nat) (b' : Board)
    (hg : Consistent k g)
    (h : backtracking_search k fuel (mainBoard g) = some (true, b')) :
    Invariant1 (values b') ∧ Invariant2 k (values b') :=
  search_consistent k fuel (mainBoard g) true b' h (by rw [values_mainBoard]; exact hg)

/-- Witness of the amended C1 on the puzzle `threeBlanksGrid`. -/
theorem search_sound_witness :
    Invariant1 (values (boardOf threeBlanksFinal)) ∧
      Invariant2 noLabels (values (boardOf threeBlanksFinal)) :=
  search_sound noLabels (gridOf threeBlanksGrid) 82 (boardOf threeBlanksFinal)
    threeBlanks_consistent threeBlanks_run

/-- C2 fails on the puzzle `unfilledGrid`, an input of the stated shape: the search
returns true and the cell (1,6) of the resulting grid is still 0; it holds 11 candidates,
more than `find_next` looks at. -/
theorem search_true_with_blank :
    InputShape unfilledLabels (gridOf unfilledGrid) ∧
    backtracking_search unfilledLabels 82 (mainBoard (gridOf unfilledGrid)) =
      some (true, boardOf unfilledFinal) ∧
    (boardOf unfilledFinal 1 6).value = 0 ∧ (boardOf unfilledFinal 1 6).d.length = 11 :=
  ⟨by decide!, unfilled_run, by decide!, by decide!⟩

/-- C3 fails on the puzzle `leakGrid`, whose givens satisfy invariants 1 and 2: the search
returns false, yet `leakSolution` gives every blank a value in 1..9, keeps the givens and
satisfies invariants 1 and 2. -/
theorem search_false_on_solvable :
    InputShape leakLabels (gridOf leakGrid) ∧ Consistent leakLabels (gridOf leakGrid) ∧
    backtracking_search leakLabels 82 (mainBoard (gridOf leakGrid)) =
      some (false, boardOf leakFinal) ∧
    IsSolution leakLabels (gridOf leakGrid) (gridOf leakSolution) :=
  ⟨by decide!, leak_consistent, leak_run, leakSolution_isSolution⟩

/-- C4 as stated fails: the puzzle `twoNinesGrid` has the given 9 twice in row 0, at (0,0)
and (0,8), and `backtracking_search` returns true on it. -/
theorem equal_givens_reported_solved :
    InputShape noLabels (gridOf twoNinesGrid) ∧
    gridOf twoNinesGrid 0 0 = 9 ∧ gridOf twoNinesGrid 0 8 = 9 ∧
    backtracking_search noLabels 82 (mainBoard (gridOf twoNinesGrid)) =
      some (true, boardOf twoNinesFinal) :=
  ⟨by decide!, by decide!, by decide!, twoNines_run⟩

/-- Two equal givens of one row are kept: whatever `backtracking_search` returns, both
cells still hold that value in the resulting grid, which therefore violates invariant 1. -/
theorem equal_givens_kept (k : Constraints) (g : Nat → Nat → Int) (fuel : Nat)
    (res : Bool) (b' : Board) (r c1 c2 : Nat)
    (hr : r < 9) (hc1 : c1 < 9) (hc2 : c2 < 9) (hne : c1 ≠ c2)
    (hnz : g r c1 ≠ 0) (heq : g r c1 = g r c2)
    (h : backtracking_search k fuel (mainBoard g) = some (res, b')) :
    (b' r c1).value = g r c1 ∧ (b' r c2).value = g r c1 ∧ ¬ Invariant1 (values b') := by
  have hv : ∀ c, g r c ≠ 0 → (b' r c).value = g r c := by
    intro c hc
    have h0 : (mainBoard g r c).value = g r c := congrFun (congrFun (values_mainBoard g) r) c
    rw [search_assigned_frame k fuel (mainBoard g) res b' h r c (by rw [h0]; exact hc), h0]
  have e1 := hv c1 hnz
  have e2 := hv c2 (by rw [← heq]; exact hnz)
  refine ⟨e1, by rw [e2, heq], fun hinv => ?_⟩
  refine hinv r c1 r c2 hr hc1 hr hc2 (fun hh => hne hh.2) (Or.inl rfl) ?_ ?_
  · simp only [values]; rw [e1]; exact hnz
  · simp only [values]; rw [e1, e2, heq]

/-- C5 fails on the puzzle `leakGrid`: the search as a whole returns false, and of the
cells that were blank with candidates 1..9 before the call, (4,3) has lost the candidates 3
and 9 after it and (2,4) holds the candidate 3 twice. -/
theorem candidates_not_restored :
    backtracking_search leakLabels 82 (mainBoard (gridOf leakGrid)) =
      some (false, boardOf leakFinal) ∧
    (mainBoard (gridOf leakGrid) 4 3).d = [1, 2, 3, 4, 5, 6, 7, 8, 9] ∧
    (boardOf leakFinal 4 3).d = [1, 4, 2, 5, 6, 7, 8] ∧
    (mainBoard (gridOf leakGrid) 2 4).d = [1, 2, 3, 4, 5, 6, 7, 8, 9] ∧
    (boardOf leakFinal 2 4).d = [2, 5, 6, 9, 1, 3, 7, 4, 8, 3] ∧
    ¬ (∀ r c, r < 9 → c < 9 → ∀ x : Int,
        (boardOf leakFinal r c).d.count x = (mainBoard (gridOf leakGrid) r c).d.count x) := by
  refine ⟨leak_run, by decide!, by decide!, by decide!, by decide!, fun h => ?_⟩
  exact absurd (h 4 3 (by decide) (by decide) 3) (by decide!)

/-- C6: if `backtracking_search` returns false, every cell's value after the call equals
its value before the call. -/
theorem values_restored_on_failure (k : Constraints) (fuel : Nat) (b b' : Board)
    (h : backtracking_search k fuel b = some (false, b')) :
    ∀ i j, (b' i j).value = (b i j).value :=
  search_fail_value k fuel b false b' h rfl

/-- Witness of C6 on the failed search of the puzzle `leakGrid`. -/
theorem values_restored_on_failure_witness :
    backtracking_search leakLabels 82 (mainBoard (gridOf leakGrid)) =
      some (false, boardOf leakFinal) ∧
    ∀ i j, (boardOf leakFinal i j).value = (mainBoard (gridOf leakGrid) i j).value :=
  ⟨leak_run, values_restored_on_failure leakLabels 82 _ _ leak_run⟩

/-- C7: every cell whose value is nonzero before `backtracking_search` is called has the
same value and the same candidate list after the call, whatever the call returns. -/
theorem assigned_cells_untouched (k : Constraints) (fuel : Nat) (b b' : Board) (res : Bool)
    (h : backtracking_search k fuel b = some (res, b')) :
    ∀ i j, (b i j).value ≠ 0 →
      (b' i j).value = (b i j).value ∧ (b' i j).d = (b i j).d := by
  intro i j hij
  rw [search_assigned_frame k fuel b res b' h i j hij]
  exact ⟨rfl, rfl⟩

/-- Witness of C7 on the search of the puzzle `unfilledGrid`, which returns true. -/
theorem assigned_cells_untouched_witness :
    backtracking_search unfilledLabels 82 (mainBoard (gridOf unfilledGrid)) =
      some (true, boardOf unfilledFinal) ∧
    ∀ i j, (mainBoard (gridOf unfilledGrid) i j).value ≠ 0 →
      (boardOf unfilledFinal i j).value = (mainBoard (gridOf unfilledGrid) i j).value ∧
      (boardOf unfilledFinal i j).d = (mainBoard (gridOf unfilledGrid) i j).d :=
  ⟨unfilled_run, assigned_cells_untouched unfilledLabels 82 _ _ true unfilled_run⟩

/-! ### `forward_check` -/

theorem mem_lineCells (row col i j : Nat) :
    (i, j) ∈ lineCells row col ↔
      (i = row ∧ j < 9 ∧ j ≠ col) ∨ (j = col ∧ i < 9 ∧ i ≠ row) := by
  simp only [lineCells, SIZE, List.mem_flatMap, List.mem_range, List.mem_append]
  constructor
  · rintro ⟨a, ha, h | h⟩
    · split_ifs at h with hc
      · simp only [List.mem_singleton, Prod.mk.injEq] at h
        obtain ⟨rfl, rfl⟩ := h
        exact Or.inl ⟨rfl, ha, hc⟩
      · simp at h
    · split_ifs at h with hc
      · simp only [List.mem_singleton, Prod.mk.injEq] at h
        obtain ⟨rfl, rfl⟩ := h
        exact Or.inr ⟨rfl, ha, hc⟩
      · simp at h
  · rintro (⟨rfl, hj, hne⟩ | ⟨rfl, hi, hne⟩)
    · exact ⟨j, hj, Or.inl (by simp [hne])⟩
    · exact ⟨i, hi, Or.inr (by simp [hne])⟩

theorem mem_boxCells (row col i j : Nat) :
    (i, j) ∈ boxCells row col ↔
      i / 3 = row / 3 ∧ j / 3 = col / 3 ∧ i ≠ row ∧ j ≠ col := by
  simp only [boxCells, List.mem_flatMap, List.mem_range]
  constructor
  · rintro ⟨a, ha, b, hb, h⟩
    split_ifs at h with hc
    · simp only [List.mem_singleton, Prod.mk.injEq] at h
      obtain ⟨rfl, rfl⟩ := h
      exact ⟨(band_iff row _).mp ⟨a, ha, rfl⟩, (band_iff col _).mp ⟨b, hb, rfl⟩, hc.1, hc.2⟩
    · simp at h
  · rintro ⟨hi, hj, h1, h2⟩
    obtain ⟨a, ha, rfl⟩ := (band_iff row i).mpr hi
    obtain ⟨b, hb, rfl⟩ := (band_iff col j).mpr hj
    exact ⟨a, ha, b, hb, by simp [h1, h2]⟩

/-- The cells that `forward_check` visits are the peers of `(row, col)`. -/
theorem mem_peerCells (row col i j : Nat) (hrow : row < 9) (hcol : col < 9) :
    (i, j) ∈ lineCells row col ++ boxCells row col ↔ isPeer row col i j := by
  rw [List.mem_append, mem_lineCells, mem_boxCells]
  unfold isPeer sharesUnit
  constructor
  · rintro ((⟨rfl, hj, hne⟩ | ⟨rfl, hi, hne⟩) | ⟨h1, h2, h3, h4⟩)
    · exact ⟨hrow, hj, fun h => hne h.2, Or.inl rfl⟩
    · exact ⟨hi, hcol, fun h => hne h.1, Or.inr (Or.inl rfl)⟩
    · exact ⟨by omega, by omega, fun h => h3 h.1, Or.inr (Or.inr ⟨h1.symm, h2.symm⟩)⟩
  · rintro ⟨hi, hj, hne, h | h | h⟩
    · subst h
      exact Or.inl (Or.inl ⟨rfl, hj, fun h => hne ⟨rfl, h⟩⟩)
    · subst h
      exact Or.inl (Or.inr ⟨rfl, hi, fun h => hne ⟨h, rfl⟩⟩)
    · by_cases e1 : i = row
      · subst e1
        exact Or.inl (Or.inl ⟨rfl, hj, fun h => hne ⟨rfl, h⟩⟩)
      · by_cases e2 : j = col
        · subst e2
          exact Or.inl (Or.inr ⟨rfl, hi, e1⟩)
        · exact Or.inr ⟨h.1.symm, h.2.symm, e1, e2⟩

theorem filter_ne_idem (val : Int) (l : List Int) :
    (l.filter (fun x => x != val)).filter (fun x => x != val) = l.filter (fun x => x != val) := by
  rw [List.filter_filter]; simp

/-- When the loops of `forward_check` run to their end over the cells `l`, every unassigned
cell of `l` has lost `val` and no other candidate list has changed. -/
theorem pruneCells_true (val : Int) (l : List (Nat × Nat)) (board : Board)
    (h : (pruneCells val l board).1 = true) (i j : Nat) :
    ((pruneCells val l board).2 i j).d =
      if (i, j) ∈ l ∧ (board i j).value = 0 then (board i j).d.filter (fun x => x != val)
      else (board i j).d := by
  induction l generalizing board with
  | nil => simp [pruneCells]
  | cons rc rest ih =>
    rw [pruneCells_cons] at h ⊢
    by_cases h0 : (board rc.1 rc.2).value = 0
    · rw [if_pos h0] at h ⊢
      by_cases he : ((eraseVal board rc.1 rc.2 val) rc.1 rc.2).d.isEmpty = true
      · rw [if_pos he] at h; simp at h
      · rw [if_neg he] at h ⊢
        rw [ih _ h]
        by_cases e : i = rc.1 ∧ j = rc.2
        · obtain ⟨rfl, rfl⟩ := e
          simp [eraseVal, h0, filter_ne_idem]
        · have e' : ¬ ((i, j) = rc) := fun hh => e ⟨congrArg Prod.fst hh, congrArg Prod.snd hh⟩
          simp only [eraseVal, setDomain_value, List.mem_cons, e', false_or,
            setDomain_other _ _ _ _ _ _ e]
    · rw [if_neg h0] at h ⊢
      rw [ih _ h]
      by_cases e : (i, j) = rc
      · subst e
        simp [h0]
      · simp [List.mem_cons, e]

/-- The loops of `forward_check` over the cells `l` return false exactly when some
unassigned cell of `l` has no candidate other than `val`. -/
theorem pruneCells_false_iff (val : Int) (l : List (Nat × Nat)) (board : Board) :
    (pruneCells val l board).1 = false ↔
      ∃ rc ∈ l, (board rc.1 rc.2).value = 0 ∧
        (board rc.1 rc.2).d.filter (fun x => x != val) = [] := by
  induction l generalizing board with
  | nil => simp [pruneCells]
  | cons rc rest ih =>
    rw [pruneCells_cons]
    by_cases h0 : (board rc.1 rc.2).value = 0
    · rw [if_pos h0]
      by_cases he : ((eraseVal board rc.1 rc.2 val) rc.1 rc.2).d.isEmpty = true
      · rw [if_pos he]
        simp only [true_iff]
        refine ⟨rc, List.mem_cons_self _ _, h0, ?_⟩
        simpa [eraseVal, List.isEmpty_iff] using he
      · rw [if_neg he, ih]
        have hne : ¬ ((board rc.1 rc.2).d.filter (fun x => x != val) = []) := by
          simpa [eraseVal, List.isEmpty_iff] using he
        have key : ∀ p : Nat × Nat,
            (((eraseVal board rc.1 rc.2 val) p.1 p.2).value = 0 ∧
              ((eraseVal board rc.1 rc.2 val) p.1 p.2).d.filter (fun x => x != val) = []) ↔
            ((board p.1 p.2).value = 0 ∧ (board p.1 p.2).d.filter (fun x => x != val) = []) := by
          intro p
          by_cases e : p.1 = rc.1 ∧ p.2 = rc.2
          · rw [e.1, e.2]
            simp [eraseVal, filter_ne_idem]
          · simp only [eraseVal, setDomain_value, setDomain_other _ _ _ _ _ _ e]
        constructor
        · rintro ⟨p, hp, hq⟩
          exact ⟨p, List.mem_cons_of_mem _ hp, (key p).mp hq⟩
        · rintro ⟨p, hp, hq⟩
          rcases List.mem_cons.mp hp with rfl | hp
          · exact absurd hq.2 hne
          · exact ⟨p, hp, (key p).mpr hq⟩
    · rw [if_neg h0, ih]
      constructor
      · rintro ⟨p, hp, hq⟩
        exact ⟨p, List.mem_cons_of_mem _ hp, hq⟩
      · rintro ⟨p, hp, hq⟩
        rcases List.mem_cons.mp hp with rfl | hp
        · exact absurd hq.1 h0
        · exact ⟨p, hp, hq⟩

/-! ### Claims C11 and C12: the effect and the result of `forward_check` -/

/-- C11: for `row, col < 9`, when `forward_check board row col val` returns true, every
cell keeps its value, every unassigned peer of `(row, col)` (another cell of its row, column
or 3x3 box) has as candidate list its previous list with every occurrence of `val` removed,
in the same order, and the candidate list of every other cell (the cell itself, assigned
cells, non-peers) is unchanged. -/
theorem forward_check_prunes_peers (board : Board) (row col : Nat) (val : Int)
    (hrow : row < 9) (hcol : col < 9)
    (h : (forward_check board row col val).1 = true) (i j : Nat) :
    ((forward_check board row col val).2 i j).value = (board i j).value ∧
    ((forward_check board row col val).2 i j).d =
      if isPeer row col i j ∧ (board i j).value = 0 then
        (board i j).d.filter (fun x => x != val)
      else (board i j).d := by
  refine ⟨forward_check_value board row col val i j, ?_⟩
  unfold forward_check at h ⊢
  rw [pruneCells_true val _ board h i j]
  simp only [mem_peerCells row col i j hrow hcol]

/-- Witness of C11: on the all-blank board, trying 1 at (0,0) leaves (0,1) with the
candidates 2..9. -/
theorem forward_check_prunes_peers_witness :
    ((forward_check (mainBoard (fun _ _ => 0)) 0 0 1).2 0 1).value =
      (mainBoard (fun _ _ => 0) 0 1).value ∧
    ((forward_check (mainBoard (fun _ _ => 0)) 0 0 1).2 0 1).d =
      if isPeer 0 0 0 1 ∧ (mainBoard (fun _ _ => 0) 0 1).value = 0 then
        (mainBoard (fun _ _ => 0) 0 1).d.filter (fun x => x != 1)
      else (mainBoard (fun _ _ => 0) 0 1).d :=
  forward_check_prunes_peers (mainBoard (fun _ _ => 0)) 0 0 1 (by decide) (by decide)
    (by decide!) 0 1

/-- C12: for `row, col < 9`, `forward_check board row col val` returns false if and only if
some unassigned peer of `(row, col)` has a candidate list that is empty once `val` is
removed from it, that is, a list all of whose entries equal `val`. -/
theorem forward_check_false_iff (board : Board) (row col : Nat) (val : Int)
    (hrow : row < 9) (hcol : col < 9) :
    (forward_check board row col val).1 = false ↔
      ∃ i j, isPeer row col i j ∧ (board i j).value = 0 ∧
        (board i j).d.filter (fun x => x != val) = [] ∧ ∀ x ∈ (board i j).d, x = val := by
  unfold forward_check
  rw [pruneCells_false_iff]
  have key : ∀ l : List Int, l.filter (fun x => x != val) = [] → ∀ x ∈ l, x = val := by
    intro l hl x hx
    by_contra hne
    have : x ∈ l.filter (fun x => x != val) := by
      rw [List.mem_filter]; exact ⟨hx, by simpa using hne⟩
    rw [hl] at this
    exact absurd this (List.not_mem_nil _)
  constructor
  · rintro ⟨rc, hrc, h0, he⟩
    exact ⟨rc.1, rc.2, (mem_peerCells row col rc.1 rc.2 hrow hcol).mp hrc, h0, he, key _ he⟩
  · rintro ⟨i, j, hp, h0, he, _⟩
    exact ⟨(i, j), (mem_peerCells row col i j hrow hcol).mpr hp, h0, he⟩

/-- Witness of C12 on the board `narrowRowTable`. -/
theorem forward_check_false_iff_witness :
    (forward_check (boardOf narrowRowTable) 0 0 1).1 = false ↔
      ∃ i j, isPeer 0 0 i j ∧ (boardOf narrowRowTable i j).value = 0 ∧
        (boardOf narrowRowTable i j).d.filter (fun x => x != 1) = [] ∧
        ∀ x ∈ (boardOf narrowRowTable i j).d, x = 1 :=
  forward_check_false_iff (boardOf narrowRowTable) 0 0 1 (by decide) (by decide)
/-! ### Claim C19: the degree counts every peer once -/

theorem countP_grid_row (L C : List Nat) (P : Nat → Bool) (row : Nat) (hL : L.Nodup) :
    (L.flatMap (fun r => C.map (fun c => (r, c)))).countP
        (fun rc => decide (rc.1 = row) && P rc.2) =
      if row ∈ L then C.countP P else 0 := by
  induction L with
  | nil => simp
  | cons r L ih =>
    rw [List.flatMap_cons, List.countP_append, ih (List.nodup_cons.mp hL).2, List.countP_map]
    by_cases e : r = row
    · subst e
      have hn : r ∉ L := (List.nodup_cons.mp hL).1
      simp [hn, Function.comp_def]
    · have e' : ¬ row = r := fun h => e h.symm
      simp [e, e', Function.comp_def]

theorem countP_grid_col (L C : List Nat) (P : Nat → Bool) (col : Nat) (hC : C.Nodup)
    (hcol : col ∈ C) :
    (L.flatMap (fun r => C.map (fun c => (r, c)))).countP
        (fun rc => decide (rc.2 = col) && P rc.1) = L.countP P := by
  have h1 : C.countP (fun c => decide (c = col)) = 1 := by
    have := List.count_eq_one_of_mem hC hcol
    rw [List.count] at this
    rw [← this]
    apply List.countP_congr
    intro x _
    simp
  induction L with
  | nil => simp
  | cons r L ih =>
    rw [List.flatMap_cons, List.countP_append, ih, List.countP_map, List.countP_cons]
    by_cases hp : P r = true
    · simp only [Function.comp_def, hp, Bool.and_true, h1, if_true]
      omega
    · simp [Function.comp_def, hp]

theorem countP_three {α : Type} (s p q r : α → Bool) (l : List α)
    (hs : ∀ x ∈ l, s x = true ↔ (p x = true ∨ q x = true ∨ r x = true))
    (hpq : ∀ x ∈ l, p x = true → q x = false)
    (hpr : ∀ x ∈ l, p x = true → r x = false)
    (hqr : ∀ x ∈ l, q x = true → r x = false) :
    l.countP s = l.countP p + l.countP q + l.countP r := by
  induction l with
  | nil => simp
  | cons x l ih =>
    have ih1 := ih (fun y hy => hs y (List.mem_cons_of_mem _ hy))
      (fun y hy => hpq y (List.mem_cons_of_mem _ hy))
      (fun y hy => hpr y (List.mem_cons_of_mem _ hy))
      (fun y hy => hqr y (List.mem_cons_of_mem _ hy))
    have a := hs x (List.mem_cons_self _ _)
    have b := hpq x (List.mem_cons_self _ _)
    have c := hpr x (List.mem_cons_self _ _)
    have d := hqr x (List.mem_cons_self _ _)
    simp only [List.countP_cons, ih1]
    cases hp : p x <;> cases hq : q x <;> cases hr : r x <;> cases hsx : s x <;>
      simp_all <;> omega

/-- The three counts of the design add up to the number of distinct unassigned peers. -/
theorem degreeSpec_eq_peers (k : Constraints) (board : Board) (row col : Nat)
    (hrow : row < 9) (hcol : col < 9) :
    degreeSpec k board row col = (unassignedPeers board row col).length + labelledEdges k row col := by
  unfold degreeSpec unassignedPeers
  congr 1
  simp only [← List.countP_eq_length_filter]
  have hB : ((List.range 9).countP (fun j => decide (j ≠ col ∧ (board row j).value = 0))) =
      allCells.countP (fun rc => decide (rc.1 = row) &&
        decide (rc.2 ≠ col ∧ (board row rc.2).value = 0)) := by
    unfold allCells SIZE
    rw [countP_grid_row _ _ (fun j => decide (j ≠ col ∧ (board row j).value = 0)) row
      (List.nodup_range 9), if_pos (List.mem_range.mpr hrow)]
  have hC : ((List.range 9).countP (fun i => decide (i ≠ row ∧ (board i col).value = 0))) =
      allCells.countP (fun rc => decide (rc.2 = col) &&
        decide (rc.1 ≠ row ∧ (board rc.1 col).value = 0)) := by
    unfold allCells SIZE
    rw [countP_grid_col _ _ (fun i => decide (i ≠ row ∧ (board i col).value = 0)) col
      (List.nodup_range 9) (List.mem_range.mpr hcol)]
  rw [hB, hC]
  symm
  apply countP_three
  · rintro ⟨i, j⟩ hx
    have hb := (mem_allCells (i, j)).mp hx
    simp only [isPeer, sharesUnit, decide_eq_true_eq, Bool.and_eq_true, ne_eq]
    constructor
    · rintro ⟨⟨hi, hj, hne, hs⟩, h0⟩
      by_cases e1 : i = row
      · subst e1
        exact Or.inr (Or.inl ⟨rfl, fun h => hne ⟨rfl, h⟩, h0⟩)
      · by_cases e2 : j = col
        · subst e2
          exact Or.inr (Or.inr ⟨rfl, e1, h0⟩)
        · rcases hs with h | h | h
          · exact absurd h.symm e1
          · exact absurd h.symm e2
          · exact Or.inl ⟨h.1.symm, h.2.symm, e1, e2, h0⟩
    · rintro (⟨h1, h2, h3, h4, h0⟩ | ⟨h1, h2, h0⟩ | ⟨h1, h2, h0⟩)
      · exact ⟨⟨hb.1, hb.2, fun h => h3 h.1, Or.inr (Or.inr ⟨h1.symm, h2.symm⟩)⟩, h0⟩
      · subst h1
        exact ⟨⟨hb.1, hb.2, fun h => h2 h.2, Or.inl rfl⟩, h0⟩
      · subst h1
        exact ⟨⟨hb.1, hb.2, fun h => h2 h.1, Or.inr (Or.inl rfl)⟩, h0⟩
  · rintro ⟨i, j⟩ _ h
    simp only [decide_eq_true_eq, Bool.and_eq_true, ne_eq, Bool.and_eq_false_imp] at h ⊢
    intro e
    exact absurd e h.2.2.1
  · rintro ⟨i, j⟩ _ h
    simp only [decide_eq_true_eq, Bool.and_eq_true, ne_eq, Bool.and_eq_false_imp] at h ⊢
    intro e
    exact absurd e h.2.2.2.1
  · rintro ⟨i, j⟩ _ h
    simp only [decide_eq_true_eq, Bool.and_eq_true, ne_eq, Bool.and_eq_false_imp] at h ⊢
    intro e
    simp only [decide_eq_false_iff_not, not_and]
    intro hne
    exact absurd h.1 hne

/-- C19: for a cell `(row, col)` of the grid, the degree that `find_next` computes equals
the number of distinct other unassigned cells sharing its row, its column or its 3x3 box
(the list `unassignedPeers` holds each such cell exactly once) plus the number of its
in-grid adjacent edges labelled 1 or 2. -/
theorem degree_counts_peers_once (k : Constraints) (board : Board) (row col : Nat)
    (hrow : row < 9) (hcol : col < 9) :
    degree k board row col =
      ((unassignedPeers board row col).length : Int) + (labelledEdges k row col : Int) ∧
    (unassignedPeers board row col).Nodup ∧
    ∀ i j, (i, j) ∈ unassignedPeers board row col ↔
      (isPeer row col i j ∧ (board i j).value = 0) := by
  refine ⟨?_, List.Nodup.filter _ allCells_nodup, fun i j => ?_⟩
  · rw [degree_eq_spec k board row col hrow hcol, degreeSpec_eq_peers k board row col hrow hcol]
    push_cast
    rfl
  · simp only [unassignedPeers, List.mem_filter, decide_eq_true_eq, mem_allCells]
    constructor
    · rintro ⟨_, h⟩; exact h
    · rintro h; exact ⟨⟨h.1.1, h.1.2.1⟩, h⟩

/-- Witness of C19 on the all-blank board with the labels of `leakLabels`: the cell (4,4)
has 20 unassigned peers. -/
theorem degree_counts_peers_once_witness :
    (degree leakLabels (mainBoard (fun _ _ => 0)) 4 4 =
      ((unassignedPeers (mainBoard (fun _ _ => 0)) 4 4).length : Int) +
        (labelledEdges leakLabels 4 4 : Int) ∧
    (unassignedPeers (mainBoard (fun _ _ => 0)) 4 4).Nodup ∧
    ∀ i j, (i, j) ∈ unassignedPeers (mainBoard (fun _ _ => 0)) 4 4 ↔
      (isPeer 4 4 i j ∧ (mainBoard (fun _ _ => 0) i j).value = 0)) ∧
    (unassignedPeers (mainBoard (fun _ _ => 0)) 4 4).length = 20 :=
  ⟨degree_counts_peers_once leakLabels (mainBoard (fun _ _ => 0)) 4 4 (by decide) (by decide),
    by decide!⟩

/-! ### Claim C20: the list being iterated is never modified -/

/-- The loops of `forward_check` leave the cells outside `l` as they are. -/
theorem pruneCells_other (val : Int) (l : List (Nat × Nat)) (board : Board) (i j : Nat)
    (h : (i, j) ∉ l) : (pruneCells val l board).2 i j = board i j := by
  induction l generalizing board with
  | nil => rfl
  | cons rc rest ih =>
    have hrc : ¬ (i = rc.1 ∧ j = rc.2) := fun e =>
      h (by rw [List.mem_cons]; exact Or.inl (Prod.ext e.1 e.2))
    have hrest : (i, j) ∉ rest := fun e => h (List.mem_cons_of_mem _ e)
    have he : (eraseVal board rc.1 rc.2 val) i j = board i j := by
      unfold eraseVal; exact setDomain_other _ _ _ _ _ _ hrc
    rw [pruneCells_cons]
    split_ifs with c1 c2
    · exact he
    · rw [ih _ hrest, he]
    · exact ih _ hrest

/-- The function `forward_check` leaves the cell `(row, col)` itself as it is. -/
theorem forward_check_self (board : Board) (row col : Nat) (val : Int) :
    (forward_check board row col val).2 row col = board row col := by
  unfold forward_check
  apply pruneCells_other
  rw [List.mem_append, mem_lineCells, mem_boxCells]
  rintro ((h | h) | h)
  · exact h.2.2 rfl
  · exact h.2.2 rfl
  · exact h.2.2.1 rfl

/-- One iteration of the candidate loop on a nonzero `val` leaves the candidate list of the
selected cell as it is: after `forward_check`, after the reset that follows a failed
`forward_check`, after the recursive call and after the undo loop. -/
theorem own_list_step (k : Constraints) (fuel : Nat) (board : Board) (row col : Nat)
    (val : Int) (hne : val ≠ 0) :
    ((forward_check board row col val).2 row col).d = (board row col).d ∧
    ((setValue (forward_check board row col val).2 row col 0) row col).d = (board row col).d ∧
    ∀ res board2,
      backtracking_search k fuel (setValue (forward_check board row col val).2 row col val) =
        some (res, board2) →
      (board2 row col).d = (board row col).d ∧
      ((pushBack val
          (collectNeighbors (setValue (forward_check board row col val).2 row col val) row col)
          (setValue board2 row col 0)) row col).d = (board row col).d := by
  have e1 : ((forward_check board row col val).2 row col).d = (board row col).d := by
    rw [forward_check_self]
  refine ⟨e1, by rw [setValue_d, e1], fun res board2 h => ?_⟩
  have hv1 : ((setValue (forward_check board row col val).2 row col val) row col).value ≠ 0 := by
    simp [setValue, hne]
  have e2 : (board2 row col).d = (board row col).d := by
    rw [search_assigned_frame k fuel _ res board2 h row col hv1, setValue_d, e1]
  refine ⟨e2, ?_⟩
  rw [pushBack_other, setValue_d, e2]
  intro hm
  exact hv1 (mem_collectNeighbors _ row col (row, col) hm)

/-- The loop read from the live vector and the loop over the list as it was when the loop
started return the same: the entries from position `pos` on are visited in their stored
order. -/
theorem tryValuesLive_eq (k : Constraints) (fuel : Nat) (row col : Nat) (hcol : col < 9) :
    ∀ n pos board, (board row col).value = 0 → (board row col).d.length - pos < n →
      tryValuesLive k (backtracking_search k fuel) row col n pos board =
        tryValues k (backtracking_search k fuel) row col ((board row col).d.drop pos) board := by
  intro n
  induction n with
  | zero =>
    intro pos board _ hlen
    omega
  | succ n ih =>
    intro pos board h0 hlen
    unfold tryValuesLive
    cases hg : (board row col).d.get? pos with
    | none =>
      rw [List.drop_eq_nil_of_le (List.get?_eq_none.mp hg)]
      rfl
    | some val =>
      have hlt : pos < (board row col).d.length := by
        by_contra hc
        rw [List.get?_eq_none.mpr (by omega)] at hg
        simp at hg
      have hd : (board row col).d.drop pos = val :: (board row col).d.drop (pos + 1) := by
        rw [List.drop_eq_getElem_cons hlt]
        congr 1
        rw [List.get?_eq_getElem? , List.getElem?_eq_getElem hlt] at hg
        exact Option.some.inj hg
      rw [hd, tryValues_cons]
      simp only
      by_cases hv : validate k board row col val = true
      · have hne : val ≠ 0 := validate_ne_zero k board row col val hcol h0 hv
        obtain ⟨e1, e2, e3⟩ := own_list_step k fuel board row col val hne
        rw [if_pos hv, if_pos hv]
        by_cases hf : (forward_check board row col val).1 = true
        · rw [if_pos hf, if_pos hf]
          cases hs : backtracking_search k fuel
              (setValue (forward_check board row col val).2 row col val) with
          | none => rfl
          | some p =>
            obtain ⟨res, board2⟩ := p
            cases res with
            | true => rfl
            | false =>
              simp only
              rw [ih _ _ (by rw [pushBack_value]; simp [setValue])
                (by rw [(e3 false board2 hs).2]; omega), (e3 false board2 hs).2]
        · rw [if_neg hf, if_neg hf]
          rw [ih _ _ (by simp [setValue]) (by rw [e2]; omega), e2]
      · rw [if_neg hv, if_neg hv]
        exact ih _ _ h0 (by omega)

/-- C20: let `(row, col)` be an unassigned cell with `col < 9`, as the cell selected by
`find_next` is at the start of every iteration of the candidate loop. For every `val` that
passes `validate`, the candidate list of `(row, col)` is the same before the iteration,
after `forward_check`, after the reset that follows a failed `forward_check`, after the
recursive call and after the undo loop. Hence the loop read from the live vector visits the
entries of the list as it was when the loop started, in their stored order. -/
theorem own_candidates_never_modified (k : Constraints) (fuel : Nat) (board : Board)
    (row col : Nat) (hcol : col < 9) (h0 : (board row col).value = 0) :
    (∀ val, validate k board row col val = true →
      ((forward_check board row col val).2 row col).d = (board row col).d ∧
      ((setValue (forward_check board row col val).2 row col 0) row col).d =
        (board row col).d ∧
      ∀ res board2,
        backtracking_search k fuel (setValue (forward_check board row col val).2 row col val) =
          some (res, board2) →
        (board2 row col).d = (board row col).d ∧
        ((pushBack val
            (collectNeighbors (setValue (forward_check board row col val).2 row col val)
              row col)
            (setValue board2 row col 0)) row col).d = (board row col).d) ∧
    (∀ n pos, (board row col).d.length - pos < n →
      tryValuesLive k (backtracking_search k fuel) row col n pos board =
        tryValues k (backtracking_search k fuel) row col ((board row col).d.drop pos) board) := by
  exact ⟨fun val hv => own_list_step k fuel board row col val
      (validate_ne_zero k board row col val hcol h0 hv),
    fun n pos hlen => tryValuesLive_eq k fuel row col hcol n pos board h0 hlen⟩

/-- Witness of C20 on the puzzle `threeBlanksGrid` and its blank cell (0,0): the live loop
with room for ten iterations is the loop over the nine candidates. -/
theorem own_candidates_never_modified_witness :
    (mainBoard (gridOf threeBlanksGrid) 0 0).value = 0 ∧
    tryValuesLive noLabels (backtracking_search noLabels 82) 0 0 10 0
        (mainBoard (gridOf threeBlanksGrid)) =
      tryValues noLabels (backtracking_search noLabels 82) 0 0
        ((mainBoard (gridOf threeBlanksGrid) 0 0).d.drop 0) (mainBoard (gridOf threeBlanksGrid)) :=
  ⟨by decide!, (own_candidates_never_modified noLabels 82 (mainBoard (gridOf threeBlanksGrid))
    0 0 (by decide) (by decide!)).2 10 0 (by decide!)⟩

/-! ### Claims C16 and C18: invariants kept by the search -/

theorem pruneCells_mem (val : Int) (l : List (Nat × Nat)) (board : Board) (i j : Nat) (x : Int)
    (h : x ∈ ((pruneCells val l board).2 i j).d) : x ∈ (board i j).d := by
  have he : ∀ (b : Board) (rc : Nat × Nat), x ∈ ((eraseVal b rc.1 rc.2 val) i j).d →
      x ∈ (b i j).d := by
    intro b rc hx
    by_cases e : i = rc.1 ∧ j = rc.2
    · obtain ⟨rfl, rfl⟩ := e
      simp only [eraseVal, setDomain_d, and_self, if_true] at hx
      exact (List.mem_filter.mp hx).1
    · unfold eraseVal at hx
      rw [setDomain_other _ _ _ _ _ _ e] at hx
      exact hx
  induction l generalizing board with
  | nil => exact h
  | cons rc rest ih =>
    rw [pruneCells_cons] at h
    split_ifs at h with c1 c2
    · exact he _ _ h
    · exact he _ _ (ih _ h)
    · exact ih _ h

theorem pushBack_mem (val : Int) (l : List (Nat × Nat)) (board : Board) (i j : Nat) (x : Int)
    (h : x ∈ ((pushBack val l board) i j).d) : x ∈ (board i j).d ∨ x = val := by
  unfold pushBack at h
  induction l generalizing board with
  | nil => exact Or.inl h
  | cons rc rest ih =>
    rw [List.foldl_cons] at h
    rcases ih _ h with h1 | h1
    · by_cases e : i = rc.1 ∧ j = rc.2
      · obtain ⟨rfl, rfl⟩ := e
        simp only [setDomain_d, and_self, if_true, List.mem_append, List.mem_singleton] at h1
        exact h1
      · rw [setDomain_other _ _ _ _ _ _ e] at h1
        exact Or.inl h1
    · exact Or.inr h1

theorem rangeOK_forward_check (board : Board) (row col : Nat) (val : Int)
    (h : RangeOK board) : RangeOK (forward_check board row col val).2 := by
  intro r c hr hc
  obtain ⟨h1, h2, h3⟩ := h r c hr hc
  refine ⟨?_, ?_, fun x hx => h3 x (pruneCells_mem _ _ _ _ _ _ hx)⟩
  · rw [forward_check_value]; exact h1
  · rw [forward_check_value]; exact h2

theorem rangeOK_setValue (board : Board) (row col : Nat) (v : Int)
    (h : RangeOK board) (hv1 : 0 ≤ v) (hv2 : v ≤ 9) : RangeOK (setValue board row col v) := by
  intro r c hr hc
  obtain ⟨h1, h2, h3⟩ := h r c hr hc
  refine ⟨?_, ?_, fun x hx => h3 x (by rw [setValue_d] at hx; exact hx)⟩
  · rw [setValue_value]; split_ifs <;> assumption
  · rw [setValue_value]; split_ifs <;> assumption

theorem rangeOK_pushBack (board : Board) (val : Int) (l : List (Nat × Nat))
    (h : RangeOK board) (hv1 : 1 ≤ val) (hv2 : val ≤ 9) : RangeOK (pushBack val l board) := by
  intro r c hr hc
  obtain ⟨h1, h2, h3⟩ := h r c hr hc
  refine ⟨?_, ?_, fun x hx => ?_⟩
  · rw [pushBack_value]; exact h1
  · rw [pushBack_value]; exact h2
  · rcases pushBack_mem _ _ _ _ _ _ hx with hx | rfl
    · exact h3 x hx
    · exact ⟨hv1, hv2⟩

/-- The search keeps the range invariant. -/
theorem search_range (k : Constraints) :
    ∀ fuel b res b', backtracking_search k fuel b = some (res, b') → RangeOK b → RangeOK b' := by
  refine search_induction k (fun b _ b' => RangeOK b → RangeOK b')
    (fun _ _ vals b _ b' => (∀ v ∈ vals, 1 ≤ v ∧ v ≤ 9) → RangeOK b → RangeOK b')
    ?_ ?_ ?_ ?_ ?_ ?_ ?_
  · intro b _ h; exact h
  · intro b s res b' _ hs1 hs2 _ h hr
    exact h (hr s.1 s.2 hs1 hs2).2.2 hr
  · intro row col b _ _ _ _ h; exact h
  · intro row col val rest b res b' _ _ _ _ h hvals hr
    exact h (fun v hv => hvals v (List.mem_cons_of_mem _ hv)) hr
  · intro row col val rest b res b' _ _ _ _ _ h hvals hr
    exact h (fun v hv => hvals v (List.mem_cons_of_mem _ hv))
      (rangeOK_setValue _ _ _ _ (rangeOK_forward_check _ _ _ _ hr) (le_refl _) (by decide))
  · intro row col val rest b b' _ _ _ _ _ h hvals hr
    obtain ⟨hv1, hv2⟩ := hvals val (List.mem_cons_self _ _)
    exact h (rangeOK_setValue _ _ _ _ (rangeOK_forward_check _ _ _ _ hr) (by omega) hv2)
  · intro row col val rest b board2 res b' _ _ _ _ _ hS hT hvals hr
    obtain ⟨hv1, hv2⟩ := hvals val (List.mem_cons_self _ _)
    have h2 := hS (rangeOK_setValue _ _ _ _ (rangeOK_forward_check _ _ _ _ hr) (by omega) hv2)
    exact hT (fun v hv => hvals v (List.mem_cons_of_mem _ hv))
      (rangeOK_pushBack _ _ _ (rangeOK_setValue _ _ _ _ h2 (le_refl _) (by decide)) hv1 hv2)

/-- C16: from every board state whose assigned cells satisfy invariants 1 and 2,
`backtracking_search` returns (82 levels of recursion suffice), and whenever it returns,
with either result, the resulting board satisfies invariants 1 and 2 again. -/
theorem invariants_preserved (k : Constraints) (b : Board)
    (h1 : Invariant1 (values b)) (h2 : Invariant2 k (values b)) :
    (∃ res b', backtracking_search k 82 b = some (res, b')) ∧
    ∀ fuel res b', backtracking_search k fuel b = some (res, b') →
      Invariant1 (values b') ∧ Invariant2 k (values b') :=
  ⟨search_returns_82 k b, fun fuel res b' h => search_consistent k fuel b res b' h ⟨h1, h2⟩⟩

/-- Witness of C16 on the puzzle `leakGrid`, on which the search returns false. -/
theorem invariants_preserved_witness :
    Invariant1 (values (boardOf leakFinal)) ∧ Invariant2 leakLabels (values (boardOf leakFinal)) :=
  (invariants_preserved leakLabels (mainBoard (gridOf leakGrid))
    (by rw [values_mainBoard]; exact leak_consistent.1)
    (by rw [values_mainBoard]; exact leak_consistent.2)).2 82 false (boardOf leakFinal) leak_run

/-- C18: from every board state in which every cell of the grid has its value in 0..9 and
all its candidates in 1..9, `backtracking_search` returns (82 levels of recursion suffice),
and whenever it returns, with either result, the same holds of the resulting board. -/
theorem range_invariant_preserved (k : Constraints) (b : Board) (hr : RangeOK b) :
    (∃ res b', backtracking_search k 82 b = some (res, b')) ∧
    ∀ fuel res b', backtracking_search k fuel b = some (res, b') → RangeOK b' :=
  ⟨search_returns_82 k b, fun fuel res b' h => search_range k fuel b res b' h hr⟩

/-- Witness of C18 on the puzzle `unfilledGrid`, on which the search returns true. -/
theorem range_invariant_preserved_witness :
    RangeOK (mainBoard (gridOf unfilledGrid)) ∧ RangeOK (boardOf unfilledFinal) :=
  ⟨grid_forall (by decide!),
    (range_invariant_preserved unfilledLabels (mainBoard (gridOf unfilledGrid))
      (grid_forall (by decide!))).2 82 true (boardOf unfilledFinal) unfilled_run⟩

/-! ### Claim C15: termination and depth of the recursion -/

theorem assigned_add_unassigned (v : Nat → Nat → Int) : assigned v + unassigned v = 81 := by
  have h : ∀ l : List (Nat × Nat),
      l.countP (fun rc => decide (v rc.1 rc.2 ≠ 0)) + l.countP (fun rc => decide (v rc.1 rc.2 = 0))
        = l.length := by
    intro l
    induction l with
    | nil => rfl
    | cons a l ih =>
      simp only [ne_eq] at ih ⊢
      by_cases e : v a.1 a.2 = 0
      · simp only [List.countP_cons, e, not_true_eq_false, decide_False, decide_True,
          Bool.false_eq_true, if_false, if_true, List.length_cons]
        omega
      · simp only [List.countP_cons, e, not_false_eq_true, decide_False, decide_True,
          Bool.false_eq_true, if_false, if_true, List.length_cons]
        omega
  have hl : allCells.length = 81 := by decide
  unfold assigned unassigned
  rw [h, hl]

theorem search_fuel_le (k : Constraints) (fuel fuel' : Nat) (hle : fuel ≤ fuel') (b : Board)
    (r : Bool × Board) (h : backtracking_search k fuel b = some r) :
    backtracking_search k fuel' b = some r := by
  induction hle with
  | refl => exact h
  | step _ ih => exact search_fuel_succ k _ b r ih

/-- Every recursive call is made on a board with one unassigned cell fewer. -/
theorem recursiveCalls_unassigned (k : Constraints) (fuel : Nat) (b : Board) :
    ∀ b1 ∈ recursiveCalls k fuel b, unassigned (values b1) + 1 = unassigned (values b) := by
  cases fuel with
  | zero => intro b1 h; simp [recursiveCalls] at h
  | succ fuel =>
    intro b1 hmem
    cases hfn : find_next k b with
    | none => simp [recursiveCalls, hfn] at hmem
    | some s =>
      simp only [recursiveCalls, hfn] at hmem
      obtain ⟨hs1, hs2, hs0, _⟩ := find_next_some k b s hfn
      have loop : ∀ vals b0, values b0 = values b →
          ∀ b1 ∈ callArgs k (backtracking_search k fuel) s.1 s.2 vals b0,
            unassigned (values b1) + 1 = unassigned (values b) := by
        intro vals
        induction vals with
        | nil => intro b0 _ b1 h; simp [callArgs] at h
        | cons val rest ihl =>
          intro b0 hb0 b1 hmem
          have h10 : (b0 s.1 s.2).value = 0 := by
            have := congrFun (congrFun hb0 s.1) s.2
            simp only [values] at this
            rw [this]; exact hs0
          unfold callArgs at hmem
          by_cases hv : validate k b0 s.1 s.2 val = true
          · rw [if_pos hv] at hmem
            simp only at hmem
            by_cases hf : (forward_check b0 s.1 s.2 val).1 = true
            · rw [if_pos hf] at hmem
              have hval := validate_ne_zero k b0 s.1 s.2 val hs2 h10 hv
              rcases List.mem_cons.mp hmem with rfl | hmem
              · rw [values_setValue, values_forward_check]
                have := unassigned_assign (values b0) s.1 s.2 val hs1 hs2 h10 hval
                rw [hb0] at this ⊢
                exact this
              · cases hs : backtracking_search k fuel
                    (setValue (forward_check b0 s.1 s.2 val).2 s.1 s.2 val) with
                | none => rw [hs] at hmem; simp at hmem
                | some p =>
                  obtain ⟨r2, board2⟩ := p
                  rw [hs] at hmem
                  cases r2 with
                  | true => simp at hmem
                  | false =>
                    simp only at hmem
                    refine ihl _ ?_ b1 hmem
                    rw [values_pushBack, values_setValue]
                    have h2 : values board2 =
                        values (setValue (forward_check b0 s.1 s.2 val).2 s.1 s.2 val) := by
                      funext i j
                      exact search_fail_value k fuel _ false board2 hs rfl i j
                    rw [h2, values_setValue, values_forward_check, ← hb0]
                    funext i j
                    by_cases e : i = s.1 ∧ j = s.2
                    · obtain ⟨rfl, rfl⟩ := e; simp [values, h10]
                    · simp [e]
            · rw [if_neg hf] at hmem
              refine ihl _ ?_ b1 hmem
              rw [values_setValue, values_forward_check, values_reset b0 s.1 s.2 h10, hb0]
          · rw [if_neg hv] at hmem
            exact ihl b0 hb0 b1 hmem
      exact loop _ b rfl b1 hmem

/-- C15: `backtracking_search` terminates on every board: a depth of nested recursive calls
equal to the number of unassigned cells of the grid, which is at most 81, is enough for it
to return, and more depth does not change what it returns. Each recursive call is made on
a board with exactly one unassigned cell fewer, that is one assigned cell more, than the
board of its caller. -/
theorem search_terminates (k : Constraints) (b : Board) :
    unassigned (values b) ≤ 81 ∧
    (∃ res b', ∀ fuel, unassigned (values b) < fuel →
      backtracking_search k fuel b = some (res, b')) ∧
    ∀ fuel, ∀ b1 ∈ recursiveCalls k fuel b,
      unassigned (values b1) + 1 = unassigned (values b) ∧
      assigned (values b1) = assigned (values b) + 1 := by
  refine ⟨?_, ?_, fun fuel b1 hb1 => ?_⟩
  · have := assigned_add_unassigned (values b)
    omega
  · obtain ⟨res, b', h⟩ := search_returns k (unassigned (values b) + 1) b (Nat.lt_succ_self _)
    exact ⟨res, b', fun fuel hf => search_fuel_le k _ fuel hf b _ h⟩
  · have h1 := recursiveCalls_unassigned k fuel b b1 hb1
    have h2 := assigned_add_unassigned (values b)
    have h3 := assigned_add_unassigned (values b1)
    exact ⟨h1, by omega⟩
/-- The first recursive call on the puzzle `threeBlanksGrid`: the top call has three
unassigned cells, the board of its first recursive call has two. -/
theorem recursiveCalls_threeBlanks :
    (recursiveCalls noLabels 4 (mainBoard (gridOf threeBlanksGrid))).length = 1 ∧
    unassigned (values (mainBoard (gridOf threeBlanksGrid))) = 3 ∧
    ((recursiveCalls noLabels 4 (mainBoard (gridOf threeBlanksGrid))).map
      (fun b1 => unassigned (values b1))) = [2] := by
  refine ⟨by decide!, by decide!, by decide!⟩

/-! ### Claim C14: the all-blank board -/

theorem getD_replicate {α : Type} (a dflt : α) (n i : Nat) :
    (List.replicate n a).getD i dflt = if i < n then a else dflt := by
  induction n generalizing i with
  | zero => rfl
  | succ n ih =>
    cases i with
    | zero => simp [List.replicate_succ]
    | succ i => simp only [List.replicate_succ, List.getD_cons_succ, ih, Nat.add_lt_add_iff_right]

theorem gridOf_emptyGrid (i j : Nat) : gridOf emptyGrid i j = 0 := by
  unfold gridOf emptyGrid
  rw [getD_replicate]
  split_ifs
  · rw [getD_replicate]
    split_ifs <;> rfl
  · rfl

theorem empty_run :
    backtracking_search noLabels 82 (mainBoard (gridOf emptyGrid)) =
      some (true, boardOf emptyFinal) :=
  run_of_table _ _ _ _ _ (by decide!)

/-- C14: on the board on which every cell is blank with the candidates 1..9 in that order,
with every label 0, `backtracking_search` returns true (at every depth allowance from 82
on), and the resulting grid is a complete valid Sudoku: every cell holds a value in 1..9
and every row, every column and every 3x3 box contains each of 1..9 exactly once. -/
theorem empty_board_solved :
    (∀ i j, mainBoard (gridOf emptyGrid) i j = { value := 0, d := [1, 2, 3, 4, 5, 6, 7, 8, 9] }) ∧
    (∀ i j, noLabels.hConstraints i j = 0 ∧ noLabels.vConstraints i j = 0) ∧
    (∀ fuel, 82 ≤ fuel →
      backtracking_search noLabels fuel (mainBoard (gridOf emptyGrid)) =
        some (true, boardOf emptyFinal)) ∧
    ValidSudoku (values (boardOf emptyFinal)) := by
  refine ⟨fun i j => ?_, fun i j => ⟨rfl, rfl⟩,
    fun fuel hf => search_fuel_le noLabels 82 fuel hf _ _ empty_run, by decide!⟩
  unfold mainBoard
  rw [if_neg (by rw [gridOf_emptyGrid]; simp)]

/-! ### Claim C17: candidate lists do not stay sets -/

theorem mainBoard_nodup (g : Nat → Nat → Int) (i j : Nat) : (mainBoard g i j).d.Nodup := by
  unfold mainBoard
  split_ifs
  · exact List.nodup_singleton _
  · decide

/-- C17 fails on the puzzles `leakGrid` and `unfilledGrid`. On the boards that `main`
builds no candidate list has a repeated value. After the search on `leakGrid`, which
returns false, the list of (2,4) holds 3 twice and has 10 entries; after the search on
`unfilledGrid`, which returns true, the list of (1,6) holds 1, 2 and 6 twice each and has
11 entries. -/
theorem candidate_lists_get_duplicates :
    (∀ i j, (mainBoard (gridOf leakGrid) i j).d.Nodup) ∧
    backtracking_search leakLabels 82 (mainBoard (gridOf leakGrid)) =
      some (false, boardOf leakFinal) ∧
    (boardOf leakFinal 2 4).d = [2, 5, 6, 9, 1, 3, 7, 4, 8, 3] ∧
    ¬ (boardOf leakFinal 2 4).d.Nodup ∧ 9 < (boardOf leakFinal 2 4).d.length ∧
    (∀ i j, (mainBoard (gridOf unfilledGrid) i j).d.Nodup) ∧
    backtracking_search unfilledLabels 82 (mainBoard (gridOf unfilledGrid)) =
      some (true, boardOf unfilledFinal) ∧
    (boardOf unfilledFinal 1 6).d = [3, 4, 7, 8, 9, 2, 2, 1, 1, 6, 6] ∧
    ¬ (boardOf unfilledFinal 1 6).d.Nodup ∧ 9 < (boardOf unfilledFinal 1 6).d.length :=
  ⟨mainBoard_nodup _, leak_run, by decide!, by decide!, by decide!,
    mainBoard_nodup _, unfilled_run, by decide!, by decide!, by decide!⟩

/-! ### Claim C13: the cell next to a 9 across a Consecutive edge -/

/-- With a 9 at (0,0) and the label 1 between (0,0) and (0,1), the search never gives (0,1)
a value other than 8: on a board in range whose cell (0,1) is blank or 8, the cell (0,1) is
blank or 8 when the search returns. -/
theorem search_consecutive (k : Constraints) (hk : k.hConstraints 0 0 = 1) :
    ∀ fuel b res b', backtracking_search k fuel b = some (res, b') →
      (RangeOK b ∧ (b 0 0).value = 9 ∧ ((b 0 1).value = 0 ∨ (b 0 1).value = 8)) →
      (RangeOK b' ∧ (b' 0 0).value = 9 ∧ ((b' 0 1).value = 0 ∨ (b' 0 1).value = 8)) := by
  have hset : ∀ (b : Board) (row col : Nat) (v : Int), (b row col).value = 0 →
      0 ≤ v → v ≤ 9 → (row = 0 → col = 1 → v = 0 ∨ v = 8) →
      (RangeOK b ∧ (b 0 0).value = 9 ∧ ((b 0 1).value = 0 ∨ (b 0 1).value = 8)) →
      (RangeOK (setValue b row col v) ∧ ((setValue b row col v) 0 0).value = 9 ∧
        (((setValue b row col v) 0 1).value = 0 ∨ ((setValue b row col v) 0 1).value = 8)) := by
    intro b row col v h0 hv1 hv2 hv ⟨hr, h9, h8⟩
    refine ⟨rangeOK_setValue _ _ _ _ hr hv1 hv2, ?_, ?_⟩
    · rw [setValue_value, if_neg]
      · exact h9
      · rintro ⟨rfl, rfl⟩
        rw [h0] at h9
        exact absurd h9 (by decide)
    · rw [setValue_value]
      split_ifs with e
      · exact hv e.1.symm e.2.symm
      · exact h8
  have hfc : ∀ (b : Board) (row col : Nat) (val : Int),
      (RangeOK b ∧ (b 0 0).value = 9 ∧ ((b 0 1).value = 0 ∨ (b 0 1).value = 8)) →
      (RangeOK (forward_check b row col val).2 ∧
        ((forward_check b row col val).2 0 0).value = 9 ∧
        (((forward_check b row col val).2 0 1).value = 0 ∨
          ((forward_check b row col val).2 0 1).value = 8)) := by
    intro b row col val ⟨hr, h9, h8⟩
    refine ⟨rangeOK_forward_check _ _ _ _ hr, ?_, ?_⟩
    · rw [forward_check_value]; exact h9
    · rw [forward_check_value]; exact h8
  have hval : ∀ (b : Board) (row col : Nat) (val : Int), (b 0 0).value = 9 →
      validate k b row col val = true → val ≤ 9 → row = 0 → col = 1 → val = 0 ∨ val = 8 := by
    intro b row col val h9 hv hle hrow hcol
    subst hrow hcol
    have h := ((validate_true_iff k b 0 1 val).mp hv).2.2.2.2.1 (by decide)
      (by rw [h9]; decide)
    have h1 := h.1 hk
    rw [show (1 : Nat) - 1 = 0 from rfl, h9] at h1
    right
    rcases abs_eq (by decide : (0 : Int) ≤ 1) |>.mp h1 with h2 | h2 <;> omega
  refine search_induction k
    (fun b _ b' => (RangeOK b ∧ (b 0 0).value = 9 ∧ ((b 0 1).value = 0 ∨ (b 0 1).value = 8)) →
      (RangeOK b' ∧ (b' 0 0).value = 9 ∧ ((b' 0 1).value = 0 ∨ (b' 0 1).value = 8)))
    (fun _ _ vals b _ b' => (∀ v ∈ vals, 1 ≤ v ∧ v ≤ 9) →
      (RangeOK b ∧ (b 0 0).value = 9 ∧ ((b 0 1).value = 0 ∨ (b 0 1).value = 8)) →
      (RangeOK b' ∧ (b' 0 0).value = 9 ∧ ((b' 0 1).value = 0 ∨ (b' 0 1).value = 8)))
    ?_ ?_ ?_ ?_ ?_ ?_ ?_
  · intro b _ h; exact h
  · intro b s res b' _ hs1 hs2 _ h hp
    exact h (hp.1 s.1 s.2 hs1 hs2).2.2 hp
  · intro row col b _ _ _ _ h; exact h
  · intro row col val rest b res b' _ _ _ _ h hvals hp
    exact h (fun v hv => hvals v (List.mem_cons_of_mem _ hv)) hp
  · intro row col val rest b res b' _ _ h0 _ _ h hvals hp
    refine h (fun v hv => hvals v (List.mem_cons_of_mem _ hv))
      (hset _ row col 0 (by rw [forward_check_value]; exact h0) (le_refl _) (by decide)
        (fun _ _ => Or.inl rfl) (hfc b row col val hp))
  · intro row col val rest b b' _ _ h0 hv _ h hvals hp
    obtain ⟨hv1, hv2⟩ := hvals val (List.mem_cons_self _ _)
    exact h (hset _ row col val (by rw [forward_check_value]; exact h0) (by omega) hv2
      (hval b row col val hp.2.1 hv hv2) (hfc b row col val hp))
  · intro row col val rest b board2 res b' _ _ h0 hv _ hS hT hvals hp
    obtain ⟨hv1, hv2⟩ := hvals val (List.mem_cons_self _ _)
    have h2 := hS (hset _ row col val (by rw [forward_check_value]; exact h0) (by omega) hv2
      (hval b row col val hp.2.1 hv hv2) (hfc b row col val hp))
    refine hT (fun v hv => hvals v (List.mem_cons_of_mem _ hv)) ?_
    have h3 : RangeOK (setValue board2 row col 0) ∧ ((setValue board2 row col 0) 0 0).value = 9 ∧
        (((setValue board2 row col 0) 0 1).value = 0 ∨
          ((setValue board2 row col 0) 0 1).value = 8) := by
      refine ⟨rangeOK_setValue _ _ _ _ h2.1 (le_refl _) (by decide), ?_, ?_⟩
      · rw [setValue_value, if_neg]
        · exact h2.2.1
        · rintro ⟨rfl, rfl⟩
          rw [h0] at hp
          exact absurd hp.2.1 (by decide)
      · rw [setValue_value]
        split_ifs with e
        · exact Or.inl rfl
        · exact h2.2.2
    refine ⟨rangeOK_pushBack _ _ _ h3.1 hv1 hv2, ?_, ?_⟩
    · rw [pushBack_value]; exact h3.2.1
    · rw [pushBack_value]; exact h3.2.2

theorem rangeOK_mainBoard (g : Nat → Nat → Int)
    (hg : ∀ r, r < 9 → ∀ c, c < 9 → 0 ≤ g r c ∧ g r c ≤ 9) : RangeOK (mainBoard g) := by
  intro r c hr hc
  obtain ⟨h1, h2⟩ := hg r hr c hc
  unfold mainBoard cellInRange
  split_ifs with h
  · refine ⟨h1, h2, fun x hx => ?_⟩
    rw [List.mem_singleton] at hx
    subst hx
    exact ⟨by omega, h2⟩
  · exact ⟨le_refl _, by decide, by decide⟩

/-- On every puzzle with givens in 0..9, a 9 at (0,0), a blank at (0,1) and the label 1
between them, whatever `backtracking_search` returns, the cell (0,1) of the resulting grid
holds 8 or is still blank. -/
theorem consecutive_cell_blank_or_eight (k : Constraints) (g : Nat → Nat → Int)
    (hg : ∀ r, r < 9 → ∀ c, c < 9 → 0 ≤ g r c ∧ g r c ≤ 9)
    (h9 : g 0 0 = 9) (h0 : g 0 1 = 0) (hk : k.hConstraints 0 0 = 1)
    (fuel : Nat) (res : Bool) (b' : Board)
    (h : backtracking_search k fuel (mainBoard g) = some (res, b')) :
    (b' 0 1).value = 8 ∨ (b' 0 1).value = 0 := by
  have hv := values_mainBoard g
  have e1 : (mainBoard g 0 0).value = 9 := by
    have := congrFun (congrFun hv 0) 0
    simp only [values] at this
    rw [this, h9]
  have e2 : (mainBoard g 0 1).value = 0 := by
    have := congrFun (congrFun hv 0) 1
    simp only [values] at this
    rw [this, h0]
  exact (search_consecutive k hk fuel _ res b' h
    ⟨rangeOK_mainBoard g hg, e1, Or.inl e2⟩).2.2.symm

/-- On the puzzle of the scenario itself, with every cell other than (0,0) blank, the
search returns true. -/
theorem nineOnly_run :
    backtracking_search consecLabels 82 (mainBoard (gridOf nineOnlyGrid)) =
      some (true, boardOf nineOnlyFinal) :=
  run_of_table _ _ _ _ _ (by decide!)

/-- In the grid that the search returns on `nineOnlyGrid`, the cell (0,1) holds 8. -/
theorem nineOnly_value : (boardOf nineOnlyFinal 0 1).value = 8 := by decide!

theorem consecBlank_run :
    backtracking_search consecLabels 82 (mainBoard (gridOf consecBlankGrid)) =
      some (true, boardOf consecBlankFinal) :=
  run_of_table _ _ _ _ _ (by decide!)

/-- C13 fails on the puzzle `consecBlankGrid`: its givens are in 0..9, (0,0) holds 9, (0,1)
is blank, the edge between them is labelled 1 and every other label is 0; the search
returns true, and in the resulting grid (0,1) is still 0, not 8; it holds 11 candidates,
more than `find_next` looks at. -/
theorem consecutive_cell_left_blank :
    InputShape consecLabels (gridOf consecBlankGrid) ∧
    gridOf consecBlankGrid 0 0 = 9 ∧ gridOf consecBlankGrid 0 1 = 0 ∧
    consecLabels.hConstraints 0 0 = 1 ∧
    (∀ r c, ¬ (r = 0 ∧ c = 0) → consecLabels.hConstraints r c = 0) ∧
    (∀ r c, consecLabels.vConstraints r c = 0) ∧
    backtracking_search consecLabels 82 (mainBoard (gridOf consecBlankGrid)) =
      some (true, boardOf consecBlankFinal) ∧
    (boardOf consecBlankFinal 0 1).value = 0 ∧ (boardOf consecBlankFinal 0 1).value ≠ 8 ∧
    (boardOf consecBlankFinal 0 1).d = [1, 3, 4, 6, 8, 9, 7, 7, 5, 5, 5] :=
  ⟨by decide!, by decide!, by decide!, rfl, fun r c h => if_neg h, fun _ _ => rfl,
    consecBlank_run, by decide!, by decide!, by decide!⟩

/-! ### Claim C4: equal givens in one row are not detected -/

/-- When every cell of `l` is assigned, the loops of `forward_check` change nothing and run
to their end. -/
theorem pruneCells_all_assigned (val : Int) (l : List (Nat × Nat)) (board : Board)
    (h : ∀ rc ∈ l, (board rc.1 rc.2).value ≠ 0) : pruneCells val l board = (true, board) := by
  induction l with
  | nil => rfl
  | cons rc rest ih =>
    rw [pruneCells_cons, if_neg (h rc (List.mem_cons_self _ _))]
    exact ih (fun p hp => h p (List.mem_cons_of_mem _ hp))

/-- On a board without an unassigned cell in the grid, `backtracking_search` returns true at
once and leaves the board as it is. -/
theorem search_no_blank (k : Constraints) (board : Board) (fuel : Nat) (hf : 1 ≤ fuel)
    (h : ∀ i j, i < 9 → j < 9 → (board i j).value ≠ 0) :
    backtracking_search k fuel board = some (true, board) := by
  obtain ⟨n, rfl⟩ : ∃ n, fuel = n + 1 := ⟨fuel - 1, by omega⟩
  have hn : find_next k board = none :=
    (find_next_none_iff k board).mpr (fun r c hr hc h0 => absurd h0 (h r c hr hc))
  simp only [backtracking_search, hn]

/-- The candidate loop on a board whose only unassigned cell in the grid is `(r0, c0)`: the
first value that passes `validate` is written and true is returned; when no value passes,
false is returned and the board is as before. -/
theorem tryValues_one_blank (k : Constraints) (board : Board) (r0 c0 : Nat) (fuel : Nat)
    (hf : 1 ≤ fuel) (hr0 : r0 < 9) (hc0 : c0 < 9) (h0 : (board r0 c0).value = 0)
    (h : ∀ i j, i < 9 → j < 9 → ¬ (i = r0 ∧ j = c0) → (board i j).value ≠ 0)
    (vals : List Int) :
    tryValues k (backtracking_search k fuel) r0 c0 vals board =
      match vals.find? (fun val => validate k board r0 c0 val) with
      | some val => some (true, setValue board r0 c0 val)
      | none => some (false, board) := by
  induction vals with
  | nil => rfl
  | cons val rest ih =>
    rw [tryValues_cons, List.find?_cons]
    by_cases hv : validate k board r0 c0 val = true
    · have hfc : forward_check board r0 c0 val = (true, board) := by
        unfold forward_check
        apply pruneCells_all_assigned
        rintro ⟨i, j⟩ hm
        have hp := (mem_peerCells r0 c0 i j hr0 hc0).mp hm
        exact h i j hp.1 hp.2.1 hp.2.2.1
      have hval := validate_ne_zero k board r0 c0 val hc0 h0 hv
      have hs : backtracking_search k fuel (setValue board r0 c0 val) =
          some (true, setValue board r0 c0 val) := by
        apply search_no_blank k _ fuel hf
        intro i j hi hj
        rw [setValue_value]
        split_ifs with e
        · exact hval
        · exact h i j hi hj e
      rw [if_pos hv, hfc]
      simp only [if_true, hs, hv]
    · rw [if_neg hv]
      have hv' : validate k board r0 c0 val = false := by simpa using hv
      simp only [hv']
      exact ih

/-- C4, amended: for every puzzle in which two given cells of one row hold the same nonzero
value, `backtracking_search` returns, and whatever it returns, both cells still hold that
value in the resulting grid, which therefore violates invariant 1. The answer is not
false because of the conflict: when the puzzle has no blank cell the answer is true and the
board is unchanged; when it has exactly one blank cell the answer is true, with the first
value of 1..9 that passes `validate` at that cell written into it, and it is false only
when no value of 1..9 passes `validate` there. -/
theorem equal_givens_undetected (k : Constraints) (g : Nat → Nat → Int) (r c1 c2 : Nat)
    (hr : r < 9) (hc1 : c1 < 9) (hc2 : c2 < 9) (hne : c1 ≠ c2)
    (hnz : g r c1 ≠ 0) (heq : g r c1 = g r c2) :
    (∃ res b', backtracking_search k 82 (mainBoard g) = some (res, b')) ∧
    (∀ fuel res b', backtracking_search k fuel (mainBoard g) = some (res, b') →
      (b' r c1).value = g r c1 ∧ (b' r c2).value = g r c1 ∧ ¬ Invariant1 (values b')) ∧
    ((∀ i j, i < 9 → j < 9 → g i j ≠ 0) →
      ∀ fuel, 1 ≤ fuel → backtracking_search k fuel (mainBoard g) = some (true, mainBoard g)) ∧
    (∀ r0 c0, r0 < 9 → c0 < 9 → g r0 c0 = 0 →
      (∀ i j, i < 9 → j < 9 → ¬ (i = r0 ∧ j = c0) → g i j ≠ 0) →
      ∀ fuel, 2 ≤ fuel →
        backtracking_search k fuel (mainBoard g) =
          match [1, 2, 3, 4, 5, 6, 7, 8, 9].find?
              (fun val => validate k (mainBoard g) r0 c0 val) with
          | some val => some (true, setValue (mainBoard g) r0 c0 val)
          | none => some (false, mainBoard g)) := by
  have hval : ∀ i j, (mainBoard g i j).value = g i j :=
    fun i j => congrFun (congrFun (values_mainBoard g) i) j
  refine ⟨search_returns_82 k _, fun fuel res b' h =>
    equal_givens_kept k g fuel res b' r c1 c2 hr hc1 hc2 hne hnz heq h, ?_, ?_⟩
  · intro hall fuel hf
    exact search_no_blank k _ fuel hf (fun i j hi hj => by rw [hval]; exact hall i j hi hj)
  · intro r0 c0 hr0 hc0 hg0 hall fuel hf
    obtain ⟨n, rfl⟩ : ∃ n, fuel = n + 2 := ⟨fuel - 2, by omega⟩
    have h0 : (mainBoard g r0 c0).value = 0 := by rw [hval]; exact hg0
    have hd : (mainBoard g r0 c0).d = [1, 2, 3, 4, 5, 6, 7, 8, 9] := by
      unfold mainBoard; rw [if_neg (by simpa using hg0)]
    have hall' : ∀ i j, i < 9 → j < 9 → ¬ (i = r0 ∧ j = c0) → (mainBoard g i j).value ≠ 0 :=
      fun i j hi hj e => by rw [hval]; exact hall i j hi hj e
    cases hfn : find_next k (mainBoard g) with
    | none =>
      have := (find_next_none_iff k (mainBoard g)).mp hfn r0 c0 hr0 hc0 h0
      rw [hd] at this
      simp at this
    | some s =>
      obtain ⟨hs1, hs2, hs0, _⟩ := find_next_some k (mainBoard g) s hfn
      have hs : s = (r0, c0) := by
        by_contra hc
        exact hall' s.1 s.2 hs1 hs2 (fun e => hc (Prod.ext e.1 e.2)) hs0
      subst hs
      simp only [backtracking_search, hfn, hd]
      exact tryValues_one_blank k (mainBoard g) r0 c0 (n + 1) (by omega) hr0 hc0 h0 hall' _

/-- Witness of the amended C4 on the puzzle `twoNinesGrid`, whose only blank cell is (4,4):
9 is the first value that passes `validate` there, and the search returns true. -/
theorem equal_givens_undetected_witness :
    backtracking_search noLabels 82 (mainBoard (gridOf twoNinesGrid)) =
      some (true, setValue (mainBoard (gridOf twoNinesGrid)) 4 4 9) ∧
    ((setValue (mainBoard (gridOf twoNinesGrid)) 4 4 9) 0 0).value = 9 ∧
    ((setValue (mainBoard (gridOf twoNinesGrid)) 4 4 9) 0 8).value = 9 := by
  have h := equal_givens_undetected noLabels (gridOf twoNinesGrid) 0 0 8
    (by decide) (by decide) (by decide) (by decide) (by decide!) (by decide!)
  have h4 := h.2.2.2 4 4 (by decide) (by decide) (by decide!) (grid_forall (by decide!))
    82 (by decide)
  have hfind : [1, 2, 3, 4, 5, 6, 7, 8, 9].find?
      (fun val => validate noLabels (mainBoard (gridOf twoNinesGrid)) 4 4 val) = some 9 := by
    decide!
  rw [hfind] at h4
  exact ⟨h4, by decide!, by decide!⟩

end Kropki

namespace AStar

/-! ## The turn count of `calcMoveCost` -/

/-- On facings in 0..7 the truncating `%` of the program is the mathematical remainder. -/
theorem jumps_eq (oldFace newFace : Int) (h1 : 0 ≤ oldFace) (h2 : oldFace ≤ 7)
    (h3 : 0 ≤ newFace) (h4 : newFace ≤ 7) :
    jumps oldFace newFace =
      if (newFace - oldFace) % 8 > 4 then 8 - (newFace - oldFace) % 8
      else (newFace - oldFace) % 8 := by
  unfold jumps
  have e : (newFace - oldFace + 8).tmod 8 = (newFace - oldFace) % 8 := by
    rw [Int.tmod_eq_emod (by omega) (by decide)]
    omega
  rw [e]

theorem turn_range (f : Int) (ccw : Bool) : 0 ≤ turn f ccw ∧ turn f ccw ≤ 7 := by
  unfold turn
  split_ifs <;> omega

/-- One more turn changes the turn count by at most one. -/
theorem jumps_turn_le (a b : Int) (ccw : Bool) (ha1 : 0 ≤ a) (ha2 : a ≤ 7)
    (hb1 : 0 ≤ b) (hb2 : b ≤ 7) : jumps a (turn b ccw) ≤ jumps a b + 1 := by
  obtain ⟨ht1, ht2⟩ := turn_range b ccw
  rw [jumps_eq a _ ha1 ha2 ht1 ht2, jumps_eq a b ha1 ha2 hb1 hb2]
  unfold turn
  cases ccw <;> simp only [if_true, if_false, Bool.false_eq_true] <;> split_ifs <;> omega

/-- No sequence of turns from `a` reaches a facing in fewer turns than `jumps` says. -/
theorem jumps_le_length (a : Int) (ha1 : 0 ≤ a) (ha2 : a ≤ 7) (ts : List Bool) :
    ∀ b, 0 ≤ b → b ≤ 7 → jumps a (ts.foldl turn b) ≤ jumps a b + ts.length := by
  induction ts with
  | nil => intro b _ _; simp
  | cons t ts ih =>
    intro b hb1 hb2
    obtain ⟨ht1, ht2⟩ := turn_range b t
    have h1 := ih (turn b t) ht1 ht2
    have h2 := jumps_turn_le a b t ha1 ha2 hb1 hb2
    simp only [List.foldl_cons, List.length_cons]
    push_cast
    omega

/-- The turn count is reached: turning `jumps` times, counter-clockwise when the target is at
most four steps ahead and clockwise otherwise, leads from `oldFace` to `newFace`. -/
theorem jumps_reached (oldFace newFace : Int) (h1 : 0 ≤ oldFace) (h2 : oldFace ≤ 7)
    (h3 : 0 ≤ newFace) (h4 : newFace ≤ 7) :
    rotate oldFace (List.replicate (jumps oldFace newFace).toNat
      (decide ((newFace - oldFace) % 8 ≤ 4))) = newFace := by
  interval_cases oldFace <;> interval_cases newFace <;> decide

/-- C21: for facings `oldFace` and `newFace` in 0..7, the integer `jumps` of `calcMoveCost`
is `min(d, 8 - d)` with `d = (newFace - oldFace) mod 8`; it lies in 0..4, is 0 exactly when
the facings are equal, and is the same with the facings swapped; it is the minimum number
of 45-degree turns that lead from `oldFace` to `newFace`: some sequence of that many turns
does, and no sequence of turns, in whatever directions, does with fewer. When `oldFace` is
-1, the turn cost is 0 and `calcMoveCost` returns the move cost alone. -/
theorem jumps_is_min_turns (oldFace newFace : Int) (h1 : 0 ≤ oldFace) (h2 : oldFace ≤ 7)
    (h3 : 0 ≤ newFace) (h4 : newFace ≤ 7) :
    jumps oldFace newFace = min ((newFace - oldFace) % 8) (8 - (newFace - oldFace) % 8) ∧
    0 ≤ jumps oldFace newFace ∧ jumps oldFace newFace ≤ 4 ∧
    (jumps oldFace newFace = 0 ↔ oldFace = newFace) ∧
    jumps newFace oldFace = jumps oldFace newFace ∧
    (∃ ts : List Bool, (ts.length : Int) = jumps oldFace newFace ∧
      rotate oldFace ts = newFace) ∧
    (∀ ts : List Bool, rotate oldFace ts = newFace →
      jumps oldFace newFace ≤ (ts.length : Int)) ∧
    (∀ (sqrt2 k : ℚ) (n_x n_y g_x g_y : Int),
      turnCost (-1) newFace k = 0 ∧
      calcMoveCost sqrt2 n_x n_y g_x g_y (-1) newFace k = moveCost sqrt2 newFace) := by
  have e := jumps_eq oldFace newFace h1 h2 h3 h4
  have e' := jumps_eq newFace oldFace h3 h4 h1 h2
  have hnn : 0 ≤ jumps oldFace newFace := by rw [e]; split_ifs <;> omega
  refine ⟨?_, hnn, ?_, ?_, ?_, ?_, ?_, ?_⟩
  · rw [e, min_def]; split_ifs <;> omega
  · rw [e]; split_ifs <;> omega
  · rw [e]; split_ifs <;> constructor <;> intro h <;> omega
  · rw [e, e']; split_ifs <;> omega
  · refine ⟨_, ?_, jumps_reached oldFace newFace h1 h2 h3 h4⟩
    rw [List.length_replicate, Int.toNat_of_nonneg hnn]
  · intro ts hts
    have h := jumps_le_length oldFace h1 h2 ts oldFace h1 h2
    have h0 : jumps oldFace oldFace = 0 := by
      rw [jumps_eq oldFace oldFace h1 h2 h1 h2]; simp
    unfold rotate at hts
    rw [hts, h0] at h
    omega
  · intro sqrt2 k n_x n_y g_x g_y
    have ht : turnCost (-1) newFace k = 0 := by simp [turnCost]
    exact ⟨ht, by unfold calcMoveCost; rw [ht, zero_add]⟩

/-- Witness of C21 at `oldFace = 1`, `newFace = 6`: three turns clockwise. -/
theorem jumps_is_min_turns_witness :
    jumps 1 6 = min ((6 - 1) % 8) (8 - (6 - 1) % 8) ∧ jumps 1 6 = 3 ∧
    rotate 1 [false, false, false] = 6 :=
  ⟨(jumps_is_min_turns 1 6 (by decide) (by decide) (by decide) (by decide)).1,
    by decide, by decide⟩

end AStar
